import Mathlib

/-!
# task-flow: a shallow embedding of the backend

The file embeds the file-backed backend (`src/backend/server.js`) of the
task-flow application: the keyword classifier, the task handlers, the undo /
redo history, the activity log, the suggestion engine, export and import.  Of
the hosted-database backend (`src/backend/server-supabase.js`) it embeds the
field translation, the history, the suggestion engine, export, import and the
auto-move pass, and of the frontend (`src/frontend/src/App.js`) the save and
drag requests.  It proves properties of them.

Conventions of the embedding.

* A JavaScript value that went through `JSON.parse` is a `JVal`; an absent
  property (`undefined`) is `none` in an `Option JVal`.
* A JSON number is a whole number of magnitude at most `2 ^ 53` here: such a
  number is a double, and `String(n)` prints its decimal digits.  A fraction
  (an estimate of 1.5 hours) and a larger number have no value in the
  embedding.  Where the code divides, the double arithmetic is embedded
  (`roundDouble`).
* A string is the list of its code points; a string with an unpaired
  surrogate has no value in the embedding.  An array holds fewer than `2 ^ 32`
  elements.
* An object is the list of its entries in insertion order; a property lookup
  returns the first entry with the key.  Objects coming from `JSON.parse` carry
  distinct keys.
* The clock (`new Date()`) and the identifier generator (`uuidv4()`) are inputs
  of a handler, gathered in `Env`.
* A handler maps a store to a response and a store; a handler whose `try`
  block throws answers 500 and leaves the files as they were at the throw.
-/

set_option autoImplicit false

namespace TaskFlow

/-! ## JSON values -/

/-- A value produced by `JSON.parse`. -/
inductive JVal where
  | null : JVal
  | bool (b : Bool) : JVal
  | num (n : Int) : JVal
  | str (s : String) : JVal
  | arr (xs : List JVal) : JVal
  | obj (kvs : List (String × JVal)) : JVal

namespace JVal

mutual
/-- Structural equality of JSON values is decidable. -/
def decEq : (a b : JVal) → Decidable (a = b)
  | null, null => isTrue rfl
  | bool a, bool b =>
    if h : a = b then isTrue (by rw [h]) else isFalse (by intro e; cases e; exact h rfl)
  | num a, num b =>
    if h : a = b then isTrue (by rw [h]) else isFalse (by intro e; cases e; exact h rfl)
  | str a, str b =>
    if h : a = b then isTrue (by rw [h]) else isFalse (by intro e; cases e; exact h rfl)
  | arr a, arr b =>
    match decEqList a b with
    | isTrue h => isTrue (by rw [h])
    | isFalse h => isFalse (by intro e; cases e; exact h rfl)
  | obj a, obj b =>
    match decEqFields a b with
    | isTrue h => isTrue (by rw [h])
    | isFalse h => isFalse (by intro e; cases e; exact h rfl)
  | null, bool _ | null, num _ | null, str _ | null, arr _ | null, obj _ =>
    isFalse (by intro e; cases e)
  | bool _, null | bool _, num _ | bool _, str _ | bool _, arr _ | bool _, obj _ =>
    isFalse (by intro e; cases e)
  | num _, null | num _, bool _ | num _, str _ | num _, arr _ | num _, obj _ =>
    isFalse (by intro e; cases e)
  | str _, null | str _, bool _ | str _, num _ | str _, arr _ | str _, obj _ =>
    isFalse (by intro e; cases e)
  | arr _, null | arr _, bool _ | arr _, num _ | arr _, str _ | arr _, obj _ =>
    isFalse (by intro e; cases e)
  | obj _, null | obj _, bool _ | obj _, num _ | obj _, str _ | obj _, arr _ =>
    isFalse (by intro e; cases e)
/-- Equality of arrays of JSON values. -/
def decEqList : (as bs : List JVal) → Decidable (as = bs)
  | [], [] => isTrue rfl
  | [], _ :: _ => isFalse (by intro e; cases e)
  | _ :: _, [] => isFalse (by intro e; cases e)
  | a :: as, b :: bs =>
    match decEq a b, decEqList as bs with
    | isTrue h, isTrue hs => isTrue (by rw [h, hs])
    | isFalse h, _ => isFalse (by intro e; cases e; exact h rfl)
    | _, isFalse hs => isFalse (by intro e; cases e; exact hs rfl)
/-- Equality of entry lists of JSON objects. -/
def decEqFields : (as bs : List (String × JVal)) → Decidable (as = bs)
  | [], [] => isTrue rfl
  | [], _ :: _ => isFalse (by intro e; cases e)
  | _ :: _, [] => isFalse (by intro e; cases e)
  | (k, a) :: as, (l, b) :: bs =>
    if hk : k = l then
      match decEq a b, decEqFields as bs with
      | isTrue h, isTrue hs => isTrue (by rw [hk, h, hs])
      | isFalse h, _ => isFalse (by intro e; cases e; exact h rfl)
      | _, isFalse hs => isFalse (by intro e; cases e; exact hs rfl)
    else isFalse (by intro e; cases e; exact hk rfl)
end

instance : DecidableEq JVal := decEq

instance : Inhabited JVal := ⟨null⟩

end JVal

/-- A JSON object: its entries in insertion order. -/
abbrev Obj := List (String × JVal)

/-- A task is a JSON object; the handlers never check its shape. -/
abbrev Task := Obj

/-- Property read `o[k]` (`o.k`): the value of the first entry with key `k`,
`none` standing for `undefined`. -/
def Obj.get (o : Obj) (k : String) : Option JVal :=
  (o.find? (fun e => e.1 == k)).map Prod.snd

/-- Whether `o` has an own property `k`. -/
def Obj.has (o : Obj) (k : String) : Bool :=
  o.any (fun e => e.1 == k)

/-- Property write `o[k] = v` when `v` is a value: an existing entry keeps its
place, a new one goes last. -/
def Obj.set (o : Obj) (k : String) (v : JVal) : Obj :=
  if o.has k then o.map (fun e => if e.1 == k then (e.1, v) else e) else o ++ [(k, v)]

/-- Object spread `{ ...a, ...b }`: the keys of `a` in their order, each with
the value `b` gives it when `b` has the key, then the keys only `b` has. -/
def spread (a b : Obj) : Obj :=
  a.map (fun e => (e.1, (b.get e.1).getD e.2)) ++ b.filter (fun e => !a.has e.1)

/-- JavaScript truthiness of a JSON value or `undefined`: the falsy ones are
`undefined`, `null`, `false`, `0` and the empty string. -/
def truthy : Option JVal → Bool
  | none => false
  | some .null => false
  | some (.bool b) => b
  | some (.num n) => n != 0
  | some (.str s) => s != ""
  | some (.arr _) => true
  | some (.obj _) => true

/-- The expression `x || d` for a default `d` that is a value. -/
def orDefault (x : Option JVal) (d : JVal) : JVal :=
  match x with
  | some v => if truthy (some v) then v else d
  | none => d

/-- Strict equality `a === b` of two values read from parsed JSON: primitives
compare by value, and two arrays or objects, which are distinct allocations
here, are never equal. -/
def strictEq : Option JVal → Option JVal → Bool
  | none, none => true
  | some .null, some .null => true
  | some (.bool a), some (.bool b) => a == b
  | some (.num a), some (.num b) => a == b
  | some (.str a), some (.str b) => a == b
  | _, _ => false

mutual
/-- The string conversion `String(v)` of a JSON value, as a template literal
applies it: an array joins its elements with a comma (a `null` element gives
the empty string), an object gives `[object Object]`.  The result is `none`
when the conversion throws a `TypeError`: an object with an own property
`toString`, whose value is never a function, has no primitive value.  A number
is a whole number of magnitude at most `2 ^ 53`, printed in decimal digits. -/
def JVal.toStr : JVal → Option String
  | .null => some "null"
  | .bool true => some "true"
  | .bool false => some "false"
  | .num n => some (toString n)
  | .str s => some s
  | .arr xs => JVal.joinStr xs
  | .obj kvs => if Obj.has kvs "toString" then none else some "[object Object]"
/-- The joined text `xs.join(",")` of an array. -/
def JVal.joinStr : List JVal → Option String
  | [] => some ""
  | [x] => JVal.elemStr x
  | x :: y :: rest =>
    match JVal.elemStr x, JVal.joinStr (y :: rest) with
    | some a, some b => some (a ++ "," ++ b)
    | _, _ => none
/-- The text of one array element inside `join`. -/
def JVal.elemStr : JVal → Option String
  | .null => some ""
  | .bool true => some "true"
  | .bool false => some "false"
  | .num n => some (toString n)
  | .str s => some s
  | .arr xs => JVal.joinStr xs
  | .obj kvs => if Obj.has kvs "toString" then none else some "[object Object]"
end

/-- The text `${x}` of a template literal, `none` when it throws. -/
def templateString : Option JVal → Option String
  | none => some "undefined"
  | some v => v.toStr

/-! ## Strings -/

/-- The lower case of one character under `String.prototype.toLowerCase`:
`A`..`Z` go to `a`..`z`, U+0130 (capital I with dot above) goes to `i` followed
by the combining dot U+0307, and U+212A (the Kelvin sign) goes to `k`.  These
are the characters whose lower case holds an ASCII character.  Every other
character outside ASCII has one character outside ASCII as its lower case;
the tables hold no such character, and the embedding keeps the character as
it is (see `LowerCased`). -/
def lowerChar (c : Char) : List Char :=
  if c = Char.ofNat 0x130 then ['i', Char.ofNat 0x307]
  else if c = Char.ofNat 0x212A then ['k']
  else [c.toLower]

/-- Lower-casing of the search text (`String.prototype.toLowerCase`),
character by character. -/
def toLowerCase (s : String) : String :=
  ⟨(s.data.map lowerChar).flatten⟩

/-- Whether `kw` occurs in `text` starting at some position of `text`. -/
def includesChars (kw : List Char) : List Char → Bool
  | [] => kw.isEmpty
  | c :: cs => kw.isPrefixOf (c :: cs) || includesChars kw cs

/-- Substring test `text.includes(kw)`. -/
def includes (text kw : String) : Bool :=
  includesChars kw.data text.data

/-! ## Keyword classifier (server.js, lines 24-109) -/

/-- Category keyword table, in the order of `Object.entries`. -/
def AI_CATEGORIES : List (String × List String) :=
  [ ("development", ["code", "develop", "programming", "build", "implement", "feature", "bug",
      "fix", "debug", "api", "backend", "frontend", "database", "deploy", "release", "refactor",
      "test", "unit test", "integration"]),
    ("design", ["design", "ui", "ux", "mockup", "wireframe", "prototype", "figma", "sketch",
      "layout", "visual", "brand", "logo", "icon", "style", "color", "typography"]),
    ("marketing", ["marketing", "campaign", "social", "content", "seo", "analytics", "ads",
      "promotion", "email", "newsletter", "launch", "audience", "engagement"]),
    ("planning", ["plan", "strategy", "roadmap", "scope", "requirements", "kickoff", "meeting",
      "review", "retrospective", "sprint", "milestone", "deadline", "schedule"]),
    ("research", ["research", "analyze", "study", "explore", "investigate", "evaluate", "compare",
      "benchmark", "survey", "interview", "data"]),
    ("documentation", ["document", "write", "documentation", "readme", "guide", "tutorial",
      "manual", "specs", "wiki"]),
    ("operations", ["deploy", "server", "infrastructure", "devops", "ci/cd", "monitoring",
      "backup", "security", "performance", "scaling"]),
    ("communication", ["call", "meeting", "sync", "present", "demo", "stakeholder", "client",
      "feedback", "report", "update"]) ]

/-- Priority keyword table, in the order of `Object.entries`. -/
def AI_PRIORITY_KEYWORDS : List (String × List String) :=
  [ ("critical", ["urgent", "critical", "asap", "emergency", "blocker", "production", "outage",
      "security", "immediately", "hotfix"]),
    ("high", ["important", "priority", "deadline", "release", "launch", "demo", "client", "key",
      "essential", "must"]),
    ("medium", ["should", "needed", "planned", "scheduled", "next", "upcoming", "regular"]),
    ("low", ["nice to have", "optional", "later", "backlog", "someday", "minor", "consider",
      "idea", "explore"]) ]

/-- One effort tier: `{ keywords, hours }`. -/
structure TimeConfig where
  keywords : List String
  hours : Nat
deriving DecidableEq, Repr

/-- Effort tier table, in the order of `Object.entries`. -/
def AI_TIME_ESTIMATES : List (String × TimeConfig) :=
  [ ("quick", ⟨["quick", "simple", "small", "minor", "typo", "update", "tweak"], 1⟩),
    ("short", ⟨["add", "create", "implement", "basic", "standard"], 4⟩),
    ("medium", ⟨["feature", "develop", "build", "integrate", "design"], 16⟩),
    ("long", ⟨["complex", "major", "refactor", "overhaul", "redesign", "architecture"], 40⟩),
    ("epic", ⟨["epic", "project", "initiative", "platform", "system"], 80⟩) ]

/-- Tag pattern table of `suggestTags`, in the order of `Object.entries`. -/
def tagPatterns : List (String × List String) :=
  [ ("bug", ["bug", "fix", "issue", "error", "broken"]),
    ("feature", ["feature", "new", "add", "implement"]),
    ("improvement", ["improve", "enhance", "optimize", "refactor"]),
    ("urgent", ["urgent", "asap", "critical", "blocker"]),
    ("review", ["review", "feedback", "check"]),
    ("testing", ["test", "qa", "verify", "validate"]),
    ("documentation", ["doc", "readme", "guide", "wiki"]),
    ("meeting", ["meeting", "call", "sync", "standup"]) ]

/-- The largest of the scores, `Math.max(...xs)`, for scores that are counts
and a list that is not empty. -/
def mathMax (xs : List Nat) : Nat :=
  xs.foldl max 0

/-- The per-category scores `scores[category]` of `classifyTask`. -/
def categoryScores (text : String) : List (String × Nat) :=
  AI_CATEGORIES.map (fun e => (e.1, (e.2.filter (fun kw => includes text kw)).length))

/-- Function `classifyTask(name, description)` on strings. -/
def classifyTask (name description : String) : String :=
  let text := toLowerCase (name ++ " " ++ description)
  let scores := categoryScores text
  let maxScore := mathMax (scores.map Prod.snd)
  if maxScore = 0 then "general"
  else
    match scores.find? (fun e => e.2 == maxScore) with
    | some e => if e.1 = "" then "general" else e.1
    | none => "general"

/-- Function `suggestPriority(name, description)` on strings. -/
def suggestPriority (name description : String) : String :=
  let text := toLowerCase (name ++ " " ++ description)
  match AI_PRIORITY_KEYWORDS.find? (fun e => e.2.any (fun kw => includes text kw)) with
  | some e => e.1
  | none => "medium"

/-- Function `estimateTime(name, description)` on strings. -/
def estimateTime (name description : String) : Nat :=
  let text := toLowerCase (name ++ " " ++ description)
  match AI_TIME_ESTIMATES.find? (fun e => e.2.keywords.any (fun kw => includes text kw)) with
  | some e => e.2.hours
  | none => 8

/-- Function `suggestTags(name, description)` on strings. -/
def suggestTags (name description : String) : List String :=
  let text := toLowerCase (name ++ " " ++ description)
  let tags := (tagPatterns.filter (fun e => e.2.any (fun kw => includes text kw))).map Prod.fst
  tags.take 5

/-- The text of the `description` argument: the default `description = ''`
applies to an absent description, any other value goes through the template
literal. -/
def descriptionText : Option JVal → Option String
  | none => some ""
  | some v => v.toStr

/-- The two texts the template literal of a classifier function puts
together, `none` when one of the conversions throws. -/
def searchArgs (name description : Option JVal) : Option (String × String) :=
  match templateString name, descriptionText description with
  | some n, some d => some (n, d)
  | _, _ => none

/-- Function `classifyTask` on values read from a request body. -/
def classifyTaskV (name description : Option JVal) : Option String :=
  (searchArgs name description).map (fun p => classifyTask p.1 p.2)

/-- Function `suggestPriority` on values read from a request body. -/
def suggestPriorityV (name description : Option JVal) : Option String :=
  (searchArgs name description).map (fun p => suggestPriority p.1 p.2)

/-- Function `estimateTime` on values read from a request body. -/
def estimateTimeV (name description : Option JVal) : Option Nat :=
  (searchArgs name description).map (fun p => estimateTime p.1 p.2)

/-- Function `suggestTags` on values read from a request body. -/
def suggestTagsV (name description : Option JVal) : Option (List String) :=
  (searchArgs name description).map (fun p => suggestTags p.1 p.2)

/-! ## Store, history and activity log (server.js, lines 184-252) -/

/-- One entry of the undo or redo stack: `{ action, state, timestamp }`. -/
structure HistoryEntry where
  action : String
  state : List Task
  timestamp : String
deriving DecidableEq

/-- The history file: `{ undoStack, redoStack }`; the top of a stack is the
last element of the array. -/
structure History where
  undoStack : List HistoryEntry
  redoStack : List HistoryEntry
deriving DecidableEq

/-- One entry of the activity file, newest first in the log. -/
structure ActivityEntry where
  id : String
  action : String
  taskId : Option JVal
  taskName : Option JVal
  details : JVal
  timestamp : String
deriving DecidableEq

/-- The data file: `{ tasks, projects, labels, settings }`. -/
structure Data where
  tasks : List Task
  projects : JVal
  labels : JVal
  settings : Obj
deriving DecidableEq

/-- The three files of the file-backed variant. -/
structure Store where
  data : Data
  history : History
  activities : List ActivityEntry
deriving DecidableEq

/-- What a request reads from outside the store: the identifiers `uuidv4()`
returns, by call number, and the clock (`now` the ISO timestamp, `today` its
date part, `nextWeek` the date part seven days later). -/
structure Env where
  uuids : Nat → String
  now : String
  today : String
  nextWeek : String

/-- An HTTP answer: status code and JSON body (`none` for an empty body). -/
structure Response where
  status : Nat
  body : Option JVal
deriving DecidableEq

/-- The body `{ error: msg }`. -/
def errorBody (msg : String) : Option JVal :=
  some (.obj [("error", .str msg)])

/-- The array of task objects as a JSON value. -/
def tasksJson (tasks : List Task) : JVal :=
  .arr (tasks.map JVal.obj)

/-- Helper `saveToHistory(action, previousState)`: push, drop the oldest entry
beyond 50, clear the redo stack. -/
def saveToHistory (env : Env) (action : String) (previousState : List Task)
    (history : History) : History :=
  let undoStack := history.undoStack ++ [⟨action, previousState, env.now⟩]
  let undoStack := if undoStack.length > 50 then undoStack.tail else undoStack
  { undoStack := undoStack, redoStack := [] }

/-- Helper `logActivity(action, taskId, taskName, details)`: put the entry in
front, drop the last entry beyond 200. -/
def logActivity (env : Env) (activityId : String) (action : String)
    (taskId taskName : Option JVal) (details : JVal)
    (activities : List ActivityEntry) : List ActivityEntry :=
  let activities := ⟨activityId, action, taskId, taskName, details, env.now⟩ :: activities
  if activities.length > 200 then activities.dropLast else activities

/-! ## Task handlers (server.js, lines 279-403) -/

/-- The test `tags.length === 0` on the value of `tags`. -/
def lengthIsZero : JVal → Bool
  | .arr xs => xs.isEmpty
  | .str s => s == ""
  | .obj o => strictEq (Obj.get o "length") (some (.num 0))
  | _ => false

/-- Index `tasks.findIndex(t => t.id === id)`, `none` standing for `-1`. -/
def findTaskIndex (tasks : List Task) (id : Option JVal) : Option Nat :=
  let i := tasks.findIdx (fun t => strictEq (t.get "id") id)
  if i < tasks.length then some i else none

/-- The task object `newTask` of the create handler, from the request body
and the four classified values. -/
def newTaskObject (env : Env) (body : Obj) (category : Option JVal) (priority tags : JVal)
    (estimatedHours : Option JVal) : Task :=
  [ ("id", .str (env.uuids 0)),
    ("name", orDefault (body.get "name") (.str "New Task")),
    ("start", orDefault (body.get "start") (.str env.today)),
    ("end", orDefault (body.get "end") (.str env.nextWeek)),
    ("progress", orDefault (body.get "progress") (.num 0)),
    ("type", orDefault (body.get "type") (.str "task")),
    ("status", orDefault (body.get "status") (.str "not_started")),
    ("priority", priority),
    ("category", orDefault category (.str "general")),
    ("dependencies", orDefault (body.get "dependencies") (.arr [])),
    ("color", orDefault (body.get "color") (.str "#4A90D9")),
    ("projectId", orDefault (body.get "projectId") (.str "default")),
    ("parentId", orDefault (body.get "parentId") .null),
    ("description", orDefault (body.get "description") (.str "")),
    ("assignee", orDefault (body.get "assignee") (.str "")),
    ("tags", tags),
    ("estimatedHours", orDefault estimatedHours (.num 8)),
    ("actualHours", orDefault (body.get "actualHours") (.num 0)),
    ("recurring", orDefault (body.get "recurring") .null),
    ("dueReminder", .bool (!strictEq (body.get "dueReminder") (some (.bool false)))) ]

/-- Handler `POST /api/tasks`; a classifier call that throws sends the handler
to its `catch`, which answers 500 before anything is written. -/
def createTask (env : Env) (body : Obj) (s : Store) : Response × Store :=
  let data := s.data
  let previousState := data.tasks
  let settings := data.settings
  let name := body.get "name"
  let description := body.get "description"
  let category : Option JVal := body.get "category"
  let priority : JVal := orDefault (body.get "priority") (.str "medium")
  let tags : JVal := orDefault (body.get "tags") (.arr [])
  let estimatedHours : Option JVal := body.get "estimatedHours"
  let auto := truthy (settings.get "autoClassify") && truthy (settings.get "enableAI")
  let category : Option (Option JVal) := if auto && !truthy category
    then (classifyTaskV name description).map (fun c => some (JVal.str c))
    else some category
  let priority : Option JVal := if auto && !truthy (body.get "priority")
    then (suggestPriorityV name description).map JVal.str
    else some priority
  let tags : Option JVal := if auto && lengthIsZero tags
    then (suggestTagsV name description).map (fun ts => JVal.arr (ts.map JVal.str))
    else some tags
  let estimatedHours : Option (Option JVal) := if auto && !truthy estimatedHours
    then (estimateTimeV name description).map (fun h => some (JVal.num h))
    else some estimatedHours
  match category, priority, tags, estimatedHours with
  | some category, some priority, some tags, some estimatedHours =>
    let newTask := newTaskObject env body category priority tags estimatedHours
    let data := { data with tasks := data.tasks ++ [newTask] }
    let history := saveToHistory env "create" previousState s.history
    let activities := logActivity env (env.uuids 1) "created" (newTask.get "id")
      (newTask.get "name") (.obj []) s.activities
    (⟨201, some (.obj newTask)⟩, { data := data, history := history, activities := activities })
  | _, _, _, _ => (⟨500, errorBody "Failed to create task"⟩, s)

/-- The `changes` list the update handler logs, `none` when one of its
template literals throws. -/
def updateChanges (oldTask body : Obj) : Option (List String) :=
  let status : Option (List String) :=
    if !strictEq (oldTask.get "status") (body.get "status")
    then (templateString (body.get "status")).map (fun t => ["status: " ++ t])
    else some []
  let progress : Option (List String) :=
    if !strictEq (oldTask.get "progress") (body.get "progress")
    then (templateString (body.get "progress")).map (fun t => ["progress: " ++ t ++ "%"])
    else some []
  match status, progress with
  | some a, some b => some (a ++ b)
  | _, _ => none

/-- Handler `PUT /api/tasks/:id`; the data and the history are written before
the changes are put together, so a throw there answers 500 after the write. -/
def updateTask (env : Env) (id : String) (body : Obj) (s : Store) : Response × Store :=
  let data := s.data
  let previousState := data.tasks
  match findTaskIndex data.tasks (some (.str id)) with
  | none => (⟨404, errorBody "Task not found"⟩, s)
  | some index =>
    let oldTask := data.tasks.getD index []
    let merged := spread oldTask body
    let data := { data with tasks := data.tasks.set index merged }
    let history := saveToHistory env "update" previousState s.history
    match updateChanges oldTask body with
    | none =>
      (⟨500, errorBody "Failed to update task"⟩,
        { data := data, history := history, activities := s.activities })
    | some changes =>
      let activities := if changes.length > 0
        then logActivity env (env.uuids 0) "updated" (some (.str id)) (merged.get "name")
          (.obj [("changes", .arr (changes.map JVal.str))]) s.activities
        else s.activities
      (⟨200, some (.obj merged)⟩, { data := data, history := history, activities := activities })

/-- One round of the loop of the batch handler: merge `update` into the first
task with its id, or skip it. -/
def applyUpdate (tasks : List Task) (update : Obj) : List Task :=
  match findTaskIndex tasks (update.get "id") with
  | some index => tasks.set index (spread (tasks.getD index []) update)
  | none => tasks

/-- Handler `PUT /api/tasks` for a body that is an array of objects. -/
def batchUpdate (env : Env) (updates : List Obj) (s : Store) : Response × Store :=
  let data := s.data
  let previousState := data.tasks
  let data := { data with tasks := updates.foldl applyUpdate data.tasks }
  let history := saveToHistory env "batch_update" previousState s.history
  (⟨200, some (tasksJson data.tasks)⟩, { s with data := data, history := history })

/-- The statement `t.dependencies = t.dependencies.filter(d => d !== taskId)`;
`none` when `t.dependencies` has no `filter` method (it is not an array) and
the statement throws. -/
def pruneDependencies (taskId : String) (t : Task) : Option Task :=
  match t.get "dependencies" with
  | some (.arr ds) =>
    some (t.set "dependencies" (.arr (ds.filter (fun d => !strictEq (some d) (some (.str taskId))))))
  | _ => none

/-- The loop `data.tasks.forEach(t => { t.dependencies = ... })` over the
tasks that are kept; `none` when one of its rounds throws. -/
def pruneAll (taskId : String) : List Task → Option (List Task)
  | [] => some []
  | t :: rest =>
    match pruneDependencies taskId t with
    | none => none
    | some t' =>
      match pruneAll taskId rest with
      | none => none
      | some rest' => some (t' :: rest')

/-- Handler `DELETE /api/tasks/:id`. -/
def deleteTask (env : Env) (id : String) (s : Store) : Response × Store :=
  let data := s.data
  let previousState := data.tasks
  match data.tasks.find? (fun t => strictEq (t.get "id") (some (.str id))) with
  | none => (⟨404, errorBody "Task not found"⟩, s)
  | some task =>
    let kept := data.tasks.filter (fun t =>
      !strictEq (t.get "id") (some (.str id)) && !strictEq (t.get "parentId") (some (.str id)))
    match pruneAll id kept with
    | none => (⟨500, errorBody "Failed to delete task"⟩, s)
    | some tasks =>
      let data := { data with tasks := tasks }
      let history := saveToHistory env "delete" previousState s.history
      let activities := logActivity env (env.uuids 0) "deleted" (some (.str id))
        (task.get "name") (.obj []) s.activities
      (⟨204, none⟩, { data := data, history := history, activities := activities })

/-! ## Undo and redo (server.js, lines 569-611) -/

/-- The body `{ tasks, canUndo, canRedo }` of an undo or redo answer. -/
def historyBody (tasks : List Task) (history : History) : Option JVal :=
  some (.obj [("tasks", tasksJson tasks),
    ("canUndo", .bool (history.undoStack.length > 0)),
    ("canRedo", .bool (history.redoStack.length > 0))])

/-- Handler `POST /api/undo`; `getLast?` is `none` exactly on the empty stack,
the case the handler answers with 400. -/
def undo (env : Env) (s : Store) : Response × Store :=
  let history := s.history
  match history.undoStack.getLast? with
  | none => (⟨400, errorBody "Nothing to undo"⟩, s)
  | some lastAction =>
    let data := s.data
    let currentState := data.tasks
    let history : History :=
      { undoStack := history.undoStack.dropLast,
        redoStack := history.redoStack ++ [⟨lastAction.action, currentState, env.now⟩] }
    let data := { data with tasks := lastAction.state }
    (⟨200, historyBody data.tasks history⟩, { s with data := data, history := history })

/-- Handler `POST /api/redo`. -/
def redo (env : Env) (s : Store) : Response × Store :=
  let history := s.history
  match history.redoStack.getLast? with
  | none => (⟨400, errorBody "Nothing to redo"⟩, s)
  | some lastAction =>
    let data := s.data
    let currentState := data.tasks
    let history : History :=
      { undoStack := history.undoStack ++ [⟨lastAction.action, currentState, env.now⟩],
        redoStack := history.redoStack.dropLast }
    let data := { data with tasks := lastAction.state }
    (⟨200, historyBody data.tasks history⟩, { s with data := data, history := history })

/-! ## Import (server.js, lines 649-678) -/

/-- The own enumerable entries an object spread `{ ...v }` copies. -/
def spreadEntries : JVal → Obj
  | .obj kvs => kvs
  | .arr xs => xs.enum.map (fun e => (toString e.1, e.2))
  | .str s => s.data.enum.map (fun e => (toString e.1, JVal.str (String.singleton e.2)))
  | _ => []

/-- Property read `v[k]` on any value, for a key `k` that is neither an index
nor `length`: the outer `none` is the `TypeError` of reading from `null`. -/
def JVal.field (v : JVal) (k : String) : Option (Option JVal) :=
  match v with
  | .null => none
  | .obj kvs => some (Obj.get kvs k)
  | _ => some none

/-- The loop `importData.tasks.map(t => ({ ...t, id: t.id || uuidv4() }))`,
`n` counting the identifiers generated so far; `none` when it throws. -/
def importTasks (env : Env) : Nat → List JVal → Option (List Task)
  | _, [] => some []
  | n, t :: rest =>
    match t.field "id" with
    | none => none
    | some id =>
      let task := Obj.set (spreadEntries t) "id" (orDefault id (.str (env.uuids n)))
      match importTasks env (if truthy id then n else n + 1) rest with
      | none => none
      | some tasks => some (task :: tasks)

/-- The loop of the bare-array form: merge an element into the first task with
its id, or append it with an id; `none` when it throws. -/
def mergeImported (env : Env) : Nat → List Task → List JVal → Option (List Task)
  | _, tasks, [] => some tasks
  | n, tasks, t :: rest =>
    match t.field "id" with
    | none => none
    | some id =>
      match findTaskIndex tasks id with
      | some existing =>
        mergeImported env n
          (tasks.set existing (spread (tasks.getD existing []) (spreadEntries t))) rest
      | none =>
        mergeImported env (if truthy id then n else n + 1)
          (tasks ++ [Obj.set (spreadEntries t) "id" (orDefault id (.str (env.uuids n)))]) rest

/-- The data the import handler is about to write, `none` when it throws. -/
def importedData (env : Env) (importData : JVal) (data : Data) : Option Data :=
  match importData.field "tasks" with
  | none => none
  | some tasksV =>
    if truthy tasksV then
      match tasksV with
      | some (.arr ts) =>
        match importTasks env 0 ts with
        | none => none
        | some tasks =>
          let data := { data with tasks := tasks }
          let data := match importData.field "projects" with
            | some (some v) => if truthy (some v) then { data with projects := v } else data
            | _ => data
          let data := match importData.field "labels" with
            | some (some v) => if truthy (some v) then { data with labels := v } else data
            | _ => data
          some data
      | _ => none
    else
      match importData with
      | .arr xs =>
        match mergeImported env 0 data.tasks xs with
        | none => none
        | some tasks => some { data with tasks := tasks }
      | _ => some data

/-- Handler `POST /api/import`. -/
def importHandler (env : Env) (importData : JVal) (s : Store) : Response × Store :=
  let previousState := s.data.tasks
  match importedData env importData s.data with
  | none => (⟨500, errorBody "Failed to import data"⟩, s)
  | some data =>
    let history := saveToHistory env "import" previousState s.history
    (⟨200, some (.obj [("success", .bool true), ("taskCount", .num data.tasks.length)])⟩,
      { s with data := data, history := history })

/-! ## Hosted-database variant: history (server-supabase.js, lines 172-251, 633-666) -/

/-- An object entry for a value that may be `undefined`: a property whose
value is `undefined` is left out, as `JSON.stringify` leaves it out. -/
def optField (k : String) (v : Option JVal) : Obj :=
  match v with
  | some v => [(k, v)]
  | none => []

/-- Function `toFrontendTask(task)`: a row of the `tasks` table in the wire
format. -/
def toFrontendTask (task : Obj) : Obj :=
  optField "id" (task.get "id") ++
  optField "name" (task.get "name") ++
  [("description", orDefault (task.get "description") (.str ""))] ++
  optField "start" (task.get "start_date") ++
  optField "end" (task.get "end_date") ++
  [ ("progress", orDefault (task.get "progress") (.num 0)),
    ("type", orDefault (task.get "type") (.str "task")),
    ("status", orDefault (task.get "status") (.str "not_started")),
    ("priority", orDefault (task.get "priority") (.str "medium")),
    ("category", orDefault (task.get "category") (.str "general")),
    ("color", orDefault (task.get "color") (.str "#4A90D9")),
    ("projectId", orDefault (task.get "project_id") (.str "default")) ] ++
  optField "parentId" (task.get "parent_id") ++
  [ ("dependencies", orDefault (task.get "dependencies") (.arr [])),
    ("assignee", orDefault (task.get "assignee") (.str "")),
    ("tags", orDefault (task.get "tags") (.arr [])),
    ("estimatedHours", orDefault (task.get "estimated_hours") (.num 8)),
    ("actualHours", orDefault (task.get "actual_hours") (.num 0)) ] ++
  optField "scheduledDate" (task.get "scheduled_date") ++
  optField "reminderTime" (task.get "reminder_time") ++
  [ ("reminderEnabled", orDefault (task.get "reminder_enabled") (.bool false)),
    ("dueReminder", .bool (!strictEq (task.get "due_reminder") (some (.bool false)))) ] ++
  optField "recurring" (task.get "recurring")

/-- One entry of the in-memory stacks of the hosted variant; its `state` is
the object `{ tasks: [...] }`. -/
structure HostedEntry where
  action : String
  state : JVal
  timestamp : String
deriving DecidableEq

/-- The hosted variant: the rows of the `tasks` table, as `select('*')` returns
them, and the two module-level stacks. -/
structure HostedStore where
  rows : List Obj
  undoStack : List HostedEntry
  redoStack : List HostedEntry
deriving DecidableEq

/-- Function `saveToHistory(action, previousState)` of the hosted variant. -/
def hostedSaveToHistory (env : Env) (action : String) (previousState : JVal)
    (s : HostedStore) : HostedStore :=
  let undoStack := s.undoStack ++ [⟨action, previousState, env.now⟩]
  let undoStack := if undoStack.length > 50 then undoStack.tail else undoStack
  { s with undoStack := undoStack, redoStack := [] }

/-- The body `{ tasks, canUndo, canRedo }` of the hosted undo and redo. -/
def hostedHistoryBody (s : HostedStore) : Option JVal :=
  some (.obj [("tasks", tasksJson (s.rows.map toFrontendTask)),
    ("canUndo", .bool (s.undoStack.length > 0)),
    ("canRedo", .bool (s.redoStack.length > 0))])

/-- Handler `POST /api/undo` of the hosted variant, with a database that
answers every `select`. -/
def hostedUndo (env : Env) (s : HostedStore) : Response × HostedStore :=
  match s.undoStack.getLast? with
  | none => (⟨400, errorBody "Nothing to undo"⟩, s)
  | some lastAction =>
    let currentTasks := s.rows
    let s : HostedStore :=
      { s with
        undoStack := s.undoStack.dropLast,
        redoStack := s.redoStack ++
          [⟨lastAction.action, .obj [("tasks", tasksJson (currentTasks.map toFrontendTask))],
            env.now⟩] }
    (⟨200, hostedHistoryBody s⟩, s)

/-- Handler `POST /api/redo` of the hosted variant. -/
def hostedRedo (env : Env) (s : HostedStore) : Response × HostedStore :=
  match s.redoStack.getLast? with
  | none => (⟨400, errorBody "Nothing to redo"⟩, s)
  | some lastAction =>
    let currentTasks := s.rows
    let s : HostedStore :=
      { s with
        undoStack := s.undoStack ++
          [⟨lastAction.action, .obj [("tasks", tasksJson (currentTasks.map toFrontendTask))],
            env.now⟩],
        redoStack := s.redoStack.dropLast }
    (⟨200, hostedHistoryBody s⟩, s)

/-! ## Log time and project delete (server.js, lines 405-421, 492-506) -/

/-- The sum `(actualHours || 0) + hours` for a number `hours`: numbers add,
`true` counts as 1, and a text, an array or an object is joined with the text
of `hours`; `none` when the conversion to a text throws. -/
def addHours (actualHours : Option JVal) (hours : Int) : Option JVal :=
  match orDefault actualHours (.num 0) with
  | .num a => some (.num (a + hours))
  | .bool true => some (.num (1 + hours))
  | .bool false => some (.num hours)
  | .null => some (.num hours)
  | .str t => some (.str (t ++ toString hours))
  | v => (v.toStr).map (fun t => JVal.str (t ++ toString hours))

/-- Handler `POST /api/tasks/:id/log-time`; `hours` is the number
`parseFloat(req.body.hours) || 0`, an integer here.  The handler does not call
`saveToHistory`. -/
def logTime (env : Env) (id : String) (hours : Int) (s : Store) : Response × Store :=
  let data := s.data
  match findTaskIndex data.tasks (some (.str id)) with
  | none => (⟨404, errorBody "Task not found"⟩, s)
  | some index =>
    let task := data.tasks.getD index []
    match addHours (task.get "actualHours") hours with
    | none => (⟨500, errorBody "Failed to log time"⟩, s)
    | some total =>
      let task := task.set "actualHours" total
      let data := { data with tasks := data.tasks.set index task }
      let activities := logActivity env (env.uuids 0) "logged_time" (some (.str id))
        (task.get "name") (.obj [("hours", .num hours)]) s.activities
      (⟨200, some (.obj task)⟩, { s with data := data, activities := activities })

/-- The filter `data.projects.filter(p => p.id !== id)`; `none` when it throws
(a `null` element). -/
def filterProjects (id : String) : List JVal → Option (List JVal)
  | [] => some []
  | p :: rest =>
    match p.field "id", filterProjects id rest with
    | some pid, some rest' =>
      some (if !strictEq pid (some (.str id)) then p :: rest' else rest')
    | _, _ => none

/-- Handler `DELETE /api/projects/:id`.  The handler does not call
`saveToHistory`. -/
def deleteProject (id : String) (s : Store) : Response × Store :=
  let data := s.data
  if id = "default" then (⟨400, errorBody "Cannot delete default project"⟩, s)
  else
    match data.projects with
    | .arr ps =>
      match filterProjects id ps with
      | none => (⟨500, errorBody "Failed to delete project"⟩, s)
      | some ps' =>
        let tasks := data.tasks.map (fun t =>
          if strictEq (t.get "projectId") (some (.str id))
          then t.set "projectId" (.str "default") else t)
        (⟨204, none⟩, { s with data := { data with projects := .arr ps', tasks := tasks } })
    | _ => (⟨500, errorBody "Failed to delete project"⟩, s)

/-! ## Suggestion engine (server.js, lines 111-182; server-supabase.js, lines 88-170) -/

/-- Lexicographic comparison of two character sequences by character code. -/
def charsLess : List Char → List Char → Bool
  | _, [] => false
  | [], _ :: _ => true
  | a :: as, b :: bs => decide (a.toNat < b.toNat) || (a == b && charsLess as bs)

/-- The comparison `a < b` of two texts. -/
def textLess (a b : String) : Bool :=
  charsLess a.data b.data

/-- The comparison `v < today` for `today` the date part of an ISO timestamp,
which is no numeral: two texts compare as texts, an array or an object compares
by its text (`none` when the conversion throws), and a number, a boolean,
`null` or `undefined` compares as a number with `NaN`, which is false. -/
def lessThanText (v : Option JVal) (today : String) : Option Bool :=
  match v with
  | some (.str s) => some (textLess s today)
  | some (.arr xs) => (JVal.toStr (.arr xs)).map (fun t => textLess t today)
  | some (.obj kvs) => (JVal.toStr (.obj kvs)).map (fun t => textLess t today)
  | _ => some false

/-- The filter `tasks.filter(t => t[endKey] < today && t.status !== 'completed')`,
`none` when a comparison throws. -/
def overdueTasks (endKey today : String) : List Task → Option (List Task)
  | [] => some []
  | t :: rest =>
    match lessThanText (t.get endKey) today, overdueTasks endKey today rest with
    | some b, some rest' =>
      some (if b && !strictEq (t.get "status") (some (.str "completed")) then t :: rest'
        else rest')
    | _, _ => none

/-- The step `if (matching.length > 0) suggestions.push({ type, title, message,
action, tasks: matching.map(t => t.id) })`; an `undefined` id is `null` in the
JSON answer. -/
def alertFor (type title action : String) (message : Nat → String) (matching : List Task) :
    List JVal :=
  if matching.length > 0 then
    [.obj [("type", .str type), ("title", .str title),
      ("message", .str (message matching.length)), ("action", .str action),
      ("tasks", .arr (matching.map (fun t => (t.get "id").getD .null)))]]
  else []

/-- The four alerts both variants start with; `endKey` is `end` in the
file-backed variant and `end_date` in the hosted one. -/
def alertSuggestions (endKey today : String) (tasks : List Task) : Option (List JVal) :=
  match overdueTasks endKey today tasks with
  | none => none
  | some overdue =>
    let dueTodayTasks := tasks.filter (fun t =>
      strictEq (t.get endKey) (some (.str today)) &&
        !strictEq (t.get "status") (some (.str "completed")))
    let highPriorityNotStarted := tasks.filter (fun t =>
      (strictEq (t.get "priority") (some (.str "critical")) ||
        strictEq (t.get "priority") (some (.str "high"))) &&
        strictEq (t.get "status") (some (.str "not_started")))
    let stalledTasks := tasks.filter (fun t =>
      strictEq (t.get "status") (some (.str "in_progress")) &&
        strictEq (t.get "progress") (some (.num 0)))
    some (
      alertFor "warning" "Overdue Tasks" "filter_overdue"
        (fun n => "You have " ++ toString n ++ " overdue task(s) that need attention") overdue ++
      alertFor "info" "Due Today" "filter_today"
        (fun n => toString n ++ " task(s) are due today") dueTodayTasks ++
      alertFor "suggestion" "Priority Tasks" "filter_priority"
        (fun n => toString n ++ " high priority task(s) haven't been started")
        highPriorityNotStarted ++
      alertFor "suggestion" "Stalled Tasks" "filter_stalled"
        (fun n => toString n ++ " task(s) marked as in progress but have 0% completion")
        stalledTasks)

/-- The `Heavy Workload` entry of the file-backed variant. -/
def heavyWorkload (n : Nat) : JVal :=
  .obj [("type", .str "warning"), ("title", .str "Heavy Workload"),
    ("message", .str ("You have " ++ toString n ++
      " tasks due this week. Consider redistributing.")),
    ("action", .str "view_week")]

/-- Function `generateSmartSuggestions(tasks)` of the file-backed variant;
`endsWithinWeek` is the date test `new Date(t.end) <= nextWeek` on the value of
`t.end`, an input like the clock. -/
def generateSmartSuggestions (today : String) (endsWithinWeek : Option JVal → Bool)
    (tasks : List Task) : Option (List JVal) :=
  match alertSuggestions "end" today tasks with
  | none => none
  | some suggestions =>
    let thisWeekTasks := tasks.filter (fun t =>
      endsWithinWeek (t.get "end") && !strictEq (t.get "status") (some (.str "completed")))
    some (suggestions ++
      (if thisWeekTasks.length > 10 then [heavyWorkload thisWeekTasks.length] else []))

/-! ## Double-precision arithmetic of the hosted fallback -/

/-- The number of binary digits of `n`, at most `fuel` of them. -/
def bitLength : Nat → Nat → Nat
  | 0, _ => 0
  | fuel + 1, n => if n = 0 then 0 else bitLength fuel (n / 2) + 1

/-- The quotient `a / b` rounded to the nearest whole number, a tie going to
the even one. -/
def divHalfEven (a b : Nat) : Nat :=
  if 2 * (a % b) < b then a / b
  else if b < 2 * (a % b) then a / b + 1
  else if (a / b) % 2 = 0 then a / b
  else a / b + 1

/-- A double that is not negative, as the fraction `num / den`. -/
structure Fraction where
  num : Nat
  den : Nat
deriving DecidableEq, Repr

/-- The double nearest to `a / b`, for `b` other than 0: the quotient rounded
to 53 binary digits, a tie going to the even last digit.  With `la` and `lb`
the numbers of binary digits of `a` and `b`, the quotient
`a * 2 ^ (54 + lb) / (b * 2 ^ la)` lies between `2 ^ 53` and `2 ^ 55`; it is
divided by 2 or by 4 to have 53 digits and then rounded.  The exponent range
of the doubles is not modelled: the lengths and hours met here are far from
it. -/
def roundDouble (a b : Nat) : Fraction :=
  if a = 0 then ⟨0, 1⟩
  else
    let la := bitLength a a
    let lb := bitLength b b
    let n := a * 2 ^ (54 + lb)
    let d := b * 2 ^ la
    let k := if d * 2 ^ 54 ≤ n then 2 else 1
    ⟨divHalfEven n (2 ^ k * d) * 2 ^ (k + la), 2 ^ (54 + lb)⟩

/-- `Math.round(x)` for a double `x` that is not negative: the whole number
`floor(x + 1/2)`. -/
def mathRound (x : Fraction) : Nat :=
  (2 * x.num + x.den) / (2 * x.den)

/-- `Math.round(-x)` for a double `x` that is not negative: the whole number
`floor(-x + 1/2)`, which is `-ceil(x - 1/2)`. -/
def mathRoundNeg (x : Fraction) : Int :=
  -(((2 * x.num + x.den - 1) / (2 * x.den) : Nat) : Int)

/-- The double nearest to the whole number `x`, the result of an addition or
subtraction of whole doubles with the exact result `x`: `x` itself up to
`2 ^ 53` = 9007199254740992 in magnitude. -/
def roundInteger (x : Int) : Int :=
  if x.natAbs ≤ 9007199254740992 then x
  else if 0 ≤ x then
    (((roundDouble x.natAbs 1).num / (roundDouble x.natAbs 1).den : Nat) : Int)
  else
    -(((roundDouble x.natAbs 1).num / (roundDouble x.natAbs 1).den : Nat) : Int)

/-- The completion rate `Math.round((completedTasks / totalTasks) * 100)`;
`none` for the divisor 0, where the quotient is no number. -/
def completionRate (completedTasks totalTasks : Nat) : Option Nat :=
  if totalTasks = 0 then none
  else
    let quotient := roundDouble completedTasks totalTasks
    some (mathRound (roundDouble (quotient.num * 100) quotient.den))

/-- The average `Math.round(hours / pendingTasks)`; `none` for the divisor 0,
where the quotient is no number. -/
def avgHoursPerTask (hours : Int) (pendingTasks : Nat) : Option Int :=
  if pendingTasks = 0 then none
  else if 0 ≤ hours then some (mathRound (roundDouble hours.natAbs pendingTasks))
  else some (mathRoundNeg (roundDouble hours.natAbs pendingTasks))

/-! ## Suggestion engine, hosted variant (server-supabase.js, lines 88-170) -/

/-- The number `t.estimated_hours || 2` of a row; `none` when the value is no
number, which leaves the arithmetic modelled here. -/
def estimatedHoursOf (t : Obj) : Option Int :=
  match orDefault (t.get "estimated_hours") (.num 2) with
  | .num n => some n
  | _ => none

/-- The loop of `rows.reduce((sum, t) => sum + (t.estimated_hours || 2), 0)`
from the sum `sum` on; each sum is a double. -/
def sumHoursFrom (sum : Int) : List Obj → Option Int
  | [] => some sum
  | t :: rest =>
    match estimatedHoursOf t with
    | some h => sumHoursFrom (roundInteger (sum + h)) rest
    | none => none

/-- The sum `rows.reduce((sum, t) => sum + (t.estimated_hours || 2), 0)`. -/
def sumHours (rows : List Obj) : Option Int :=
  sumHoursFrom 0 rows

/-- Function `generateSmartSuggestions(tasks)` of the hosted variant; `none`
when a comparison throws or the arithmetic leaves the numbers modelled here (an
estimate that is no number, a quotient by 0). -/
def generateSmartSuggestionsHosted (today : String) (tasks : List Obj) : Option (List JVal) :=
  match alertSuggestions "end_date" today tasks with
  | none => none
  | some suggestions =>
    if suggestions.length = 0 then
      let totalTasks := tasks.length
      let completed := tasks.filter (fun t => strictEq (t.get "status") (some (.str "completed")))
      let completedTasks := completed.length
      let pendingTasks := totalTasks - completedTasks
      match sumHours tasks, sumHours completed with
      | some totalHours, some completedHours =>
        if totalTasks > 0 then
          match completionRate completedTasks totalTasks with
          | none => none
          | some rate =>
            let summary : JVal :=
              .obj [("type", .str "info"), ("title", .str "Progress Summary"),
                ("message", .str (toString completedTasks ++ "/" ++ toString totalTasks ++
                  " tasks done (" ++ toString rate ++ "%). " ++
                  toString pendingTasks ++ " remaining."))]
            if pendingTasks > 0 then
              match avgHoursPerTask (roundInteger (totalHours - completedHours))
                  pendingTasks with
              | none => none
              | some avg =>
                some [summary,
                  .obj [("type", .str "suggestion"), ("title", .str "Time Estimate"),
                    ("message", .str ("~" ++
                      toString (roundInteger (totalHours - completedHours)) ++
                      "h of work remaining (avg " ++ toString avg ++ "h/task)"))]]
            else some [summary]
        else
          some [.obj [("type", .str "info"), ("title", .str "Getting Started"),
            ("message",
              .str "Add your first task to get AI-powered insights and suggestions.")]]
      | _, _ => none
    else some suggestions

/-! ## Classify endpoint (server.js, lines 424-436) -/

/-- Handler `POST /api/ai/classify`: the four results for the `name` and the
`description` of the body, and the answer 500 of the `catch` when one of the
calls throws. -/
def aiClassify (body : Obj) : Response :=
  let name := Obj.get body "name"
  let description := Obj.get body "description"
  match classifyTaskV name description, suggestPriorityV name description,
    estimateTimeV name description, suggestTagsV name description with
  | some category, some priority, some estimatedHours, some tags =>
    ⟨200, some (.obj [("category", .str category), ("priority", .str priority),
      ("estimatedHours", .num estimatedHours), ("tags", .arr (tags.map JVal.str))])⟩
  | _, _, _, _ => ⟨500, errorBody "Failed to classify"⟩

/-! ## JSON export (server.js, lines 624-647) -/

/-- The document `GET /api/export` answers for `format=json`: the data file. -/
def exportJson (data : Data) : JVal :=
  .obj [("tasks", tasksJson data.tasks), ("projects", data.projects),
    ("labels", data.labels), ("settings", .obj data.settings)]

/-! ## CSV export (server.js, lines 629-638) -/

/-- The column names `headers` of the CSV export. -/
def csvHeaders : List String :=
  ["id", "name", "start", "end", "progress", "type", "status", "priority", "category",
   "color", "description", "assignee", "projectId", "estimatedHours", "actualHours"]

/-- The double quote character. -/
def quoteChar : Char := Char.ofNat 34

/-- The text `(v || '').toString()` of a cell: the empty text for a falsy
value, the text of the value otherwise; `none` when `toString` is no function
(an own property `toString`) and the call throws. -/
def csvText (v : Option JVal) : Option String :=
  (orDefault v (.str "")).toStr

/-- The replacement of every double quote by two of them. -/
def doubleQuotes (s : String) : String :=
  ⟨(s.data.map (fun c => if c = quoteChar then [quoteChar, quoteChar] else [c])).flatten⟩

/-- One cell: the escaped text between double quotes. -/
def csvCell (t : Task) (h : String) : Option String :=
  (csvText (t.get h)).map (fun text =>
    String.singleton quoteChar ++ doubleQuotes text ++ String.singleton quoteChar)

/-- The results of a `map` whose callback may throw: `none` when one call
throws. -/
def allDefined {α : Type} : List (Option α) → Option (List α)
  | [] => some []
  | none :: _ => none
  | some x :: rest =>
    match allDefined rest with
    | some xs => some (x :: xs)
    | none => none

/-- One record: the cells of a task, joined by commas. -/
def csvRow (t : Task) : Option String :=
  (allDefined (csvHeaders.map (csvCell t))).map (String.intercalate ",")

/-- The CSV document of `GET /api/export?format=csv`, `none` when the handler
throws and answers 500. -/
def exportCsv (tasks : List Task) : Option String :=
  (allDefined (tasks.map csvRow)).map (fun rows =>
    String.intercalate "\n" (String.intercalate "," csvHeaders :: rows))

/-- The cell `"${v}"` of the CSV export of the hosted variant
(server-supabase.js, line 688), `none` when the template literal throws. -/
def hostedCsvCell (v : Option JVal) : Option String :=
  (templateString v).map (fun text =>
    String.singleton quoteChar ++ text ++ String.singleton quoteChar)

/-! ## Requests of the frontend (App.js, lines 361-377, 545-571) -/

/-- The body `taskData` of `handleSaveTask`: the form data, with `end` set to
the `start` of the form for a milestone; a property set to `undefined` is left
out of the JSON body. -/
def saveTaskData (formData : Obj) : Obj :=
  if strictEq (formData.get "type") (some (.str "milestone")) then
    match formData.get "start" with
    | some start => formData.set "end" start
    | none => formData.filter (fun e => !(e.1 == "end"))
  else formData

/-- The request of `handleSaveTask`: an update of the task being edited, a
create when no task is being edited. -/
def handleSaveTask (env : Env) (editingTask : Option String) (formData : Obj) (s : Store) :
    Response × Store :=
  match editingTask with
  | some id => updateTask env id (saveTaskData formData) s
  | none => createTask env (saveTaskData formData) s

/-- The request of `handleTaskChange`, sent when a bar of the chart is dragged:
an update with the date parts of the new start and end of the bar. -/
def handleTaskChange (env : Env) (id startDay endDay : String) (s : Store) :
    Response × Store :=
  updateTask env id [("start", .str startDay), ("end", .str endDay)] s

/-! ## Hosted-database variant: translation, export and import
(server-supabase.js, lines 202-227, 673-718) -/

/-- The fixed storage identifier the logical project id `default` is mapped
to. -/
def defaultProjectId : String := "00000000-0000-0000-0000-000000000001"

/-- Function `toSupabaseTask(task)`: a task in the wire format as a row for the
`tasks` table; it carries no id. -/
def toSupabaseTask (task : Obj) : Obj :=
  optField "name" (task.get "name") ++
  [("description", orDefault (task.get "description") (.str ""))] ++
  optField "start_date" (task.get "start") ++
  optField "end_date" (task.get "end") ++
  [ ("progress", orDefault (task.get "progress") (.num 0)),
    ("type", orDefault (task.get "type") (.str "task")),
    ("status", orDefault (task.get "status") (.str "not_started")),
    ("priority", orDefault (task.get "priority") (.str "medium")),
    ("category", orDefault (task.get "category") (.str "general")),
    ("color", orDefault (task.get "color") (.str "#4A90D9")) ] ++
  optField "project_id"
    (if strictEq (task.get "projectId") (some (.str "default"))
      then some (.str defaultProjectId) else task.get "projectId") ++
  [ ("parent_id", orDefault (task.get "parentId") .null),
    ("dependencies", orDefault (task.get "dependencies") (.arr [])),
    ("assignee", orDefault (task.get "assignee") (.str "")),
    ("tags", orDefault (task.get "tags") (.arr [])),
    ("estimated_hours", orDefault (task.get "estimatedHours") (.num 8)),
    ("actual_hours", orDefault (task.get "actualHours") (.num 0)),
    ("scheduled_date", orDefault (task.get "scheduledDate") .null),
    ("reminder_time", orDefault (task.get "reminderTime") .null),
    ("reminder_enabled", orDefault (task.get "reminderEnabled") (.bool false)),
    ("due_reminder", .bool (!strictEq (task.get "dueReminder") (some (.bool false)))),
    ("recurring", orDefault (task.get "recurring") .null) ]

/-- Function `toSupabaseTask` on any element of the imported array: reading a
property of `null` throws (`none`), and a value that is no object has none of
the properties. -/
def toSupabaseTaskV : JVal → Option Obj
  | .null => none
  | .obj kvs => some (toSupabaseTask kvs)
  | _ => some (toSupabaseTask [])

/-- The document of `GET /api/export` for `format=json` in the hosted variant;
`projects` stands for the rows of the `projects` table. -/
def hostedExportJson (env : Env) (projects : JVal) (s : HostedStore) : JVal :=
  .obj [("tasks", tasksJson (s.rows.map toFrontendTask)), ("projects", projects),
    ("exportedAt", .str env.now)]

/-- The loop of the hosted import: one insert per element, with a database
that accepts every insert, stores the columns it is given and generates the id
of the new row.  The result holds the rows after the loop and whether the loop
ran to its end without a throw. -/
def hostedInsertAll (env : Env) : Nat → List JVal → List Obj → List Obj × Bool
  | _, [], rows => (rows, true)
  | n, task :: rest, rows =>
    match toSupabaseTaskV task with
    | none => (rows, false)
    | some row => hostedInsertAll env (n + 1) rest (rows ++ [("id", .str (env.uuids n)) :: row])

/-- Handler `POST /api/import` of the hosted variant: the elements of
`req.body.tasks` are inserted one by one; a `tasks` that cannot be iterated
makes the handler throw. -/
def hostedImport (env : Env) (body : JVal) (s : HostedStore) : Response × HostedStore :=
  let tasks : Option (List JVal) :=
    match body.field "tasks" with
    | some (some (.arr ts)) => some ts
    | some (some (.str x)) => some (x.data.map (fun c => JVal.str (String.singleton c)))
    | _ => none
  match tasks with
  | none => (⟨500, errorBody "Failed to import"⟩, s)
  | some ts =>
    let result := hostedInsertAll env 0 ts s.rows
    if result.2 then
      (⟨200, some (.obj [("imported", .num ts.length),
          ("tasks", tasksJson (result.1.map toFrontendTask))])⟩,
        { s with rows := result.1 })
    else (⟨500, errorBody "Failed to import"⟩, { s with rows := result.1 })

/-! ## Activity logging that fails (server.js, lines 240-252, 279-403;
server-supabase.js, lines 229-241, 287-307, 358-382) -/

/-- The answer of a handler of the file-backed variant whose `logActivity`
call throws (the activity file cannot be read or written): the call stands
inside the `try` of the handler, after `writeData` and `saveToHistory`, so the
`catch` answers 500 while the data and the history stay written and the
activity file stays as it was. -/
def afterLogFailure (message : String) (s : Store) (r : Response × Store) : Response × Store :=
  (⟨500, errorBody message⟩, { r.2 with activities := s.activities })

/-- Handler `POST /api/tasks` with an activity file that can be written
(`activityOk`) or not; `logActivity` is reached when the task was written. -/
def createTaskLogging (activityOk : Bool) (env : Env) (body : Obj) (s : Store) :
    Response × Store :=
  let r := createTask env body s
  if activityOk || r.1.status != 201 then r
  else afterLogFailure "Failed to create task" s r

/-- Handler `PUT /api/tasks/:id` with an activity file that can be written or
not; `logActivity` is reached when the list of changes is not empty. -/
def updateTaskLogging (activityOk : Bool) (env : Env) (id : String) (body : Obj) (s : Store) :
    Response × Store :=
  let r := updateTask env id body s
  match findTaskIndex s.data.tasks (some (.str id)) with
  | none => r
  | some index =>
    match updateChanges (s.data.tasks.getD index []) body with
    | some changes =>
      if activityOk || !(changes.length > 0) then r
      else afterLogFailure "Failed to update task" s r
    | none => r

/-- Handler `DELETE /api/tasks/:id` with an activity file that can be written
or not; `logActivity` is reached when the task was deleted. -/
def deleteTaskLogging (activityOk : Bool) (env : Env) (id : String) (s : Store) :
    Response × Store :=
  let r := deleteTask env id s
  if activityOk || r.1.status != 204 then r
  else afterLogFailure "Failed to delete task" s r

/-- Function `logActivity` of the hosted variant on the activity table: the
insert stands inside a `try` whose `catch` only prints, so the function
returns normally whether the insert succeeds (`activityOk`) or not. -/
def hostedLogActivity (activityOk : Bool) (action : String) (taskId taskName : Option JVal)
    (details : JVal) (log : List Obj) : List Obj :=
  if activityOk then
    log ++ [[("action", .str action)] ++ optField "task_id" taskId ++
      optField "task_name" taskName ++ [("details", details)]]
  else log

/-- Handler `POST /api/tasks` of the hosted variant, with a database that
accepts the insert and generates the id of the row. -/
def hostedCreateTask (activityOk : Bool) (env : Env) (body : Obj) (s : HostedStore)
    (log : List Obj) : Response × HostedStore × List Obj :=
  let taskData := toSupabaseTask body
  let data : Obj := ("id", JVal.str (env.uuids 0)) :: taskData
  let frontendTask := toFrontendTask data
  let log := hostedLogActivity activityOk "created" (Obj.get data "id") (Obj.get data "name")
    (.obj []) log
  (⟨201, some (.obj frontendTask)⟩, { s with rows := s.rows ++ [data] }, log)

/-- Handler `DELETE /api/tasks/:id` of the hosted variant, with a database
that answers the select and the delete. -/
def hostedDeleteTask (activityOk : Bool) (env : Env) (id : String) (s : HostedStore)
    (log : List Obj) : Response × HostedStore × List Obj :=
  let task := s.rows.find? (fun r => strictEq (Obj.get r "id") (some (.str id)))
  let s := { s with
    rows := s.rows.filter (fun r => !strictEq (Obj.get r "id") (some (.str id))) }
  match task with
  | some task =>
    let s := hostedSaveToHistory env "delete"
      (.obj [("tasks", tasksJson [toFrontendTask task])]) s
    let log := hostedLogActivity activityOk "deleted" (Obj.get task "id")
      (Obj.get task "name") (.obj []) log
    (⟨200, some (.obj [("success", .bool true)])⟩, s, log)
  | none => (⟨200, some (.obj [("success", .bool true)])⟩, s, log)

/-! ## Auto-move (server-supabase.js, lines 411-461) -/

/-- The comparison `v <= today` for `today` the date part of an ISO timestamp:
two texts compare as texts, an array or an object compares by its text (`none`
when the conversion throws), anything else compares as a number with `NaN`,
which is false. -/
def lessEqText (v : Option JVal) (today : String) : Option Bool :=
  match v with
  | some (.str s) => some (!textLess today s)
  | some (.arr xs) => (JVal.toStr (.arr xs)).map (fun t => !textLess today t)
  | some (.obj kvs) => (JVal.toStr (.obj kvs)).map (fun t => !textLess today t)
  | _ => some false

/-- The comparison `v >= today`. -/
def greaterEqText (v : Option JVal) (today : String) : Option Bool :=
  match v with
  | some (.str s) => some (!textLess s today)
  | some (.arr xs) => (JVal.toStr (.arr xs)).map (fun t => !textLess t today)
  | some (.obj kvs) => (JVal.toStr (.obj kvs)).map (fun t => !textLess t today)
  | _ => some false

/-- The test `(priorityMap[task.priority] ?? 2) <= 1`: the priority is used as
a property key, so it is converted to a text (`none` when that throws), and
only the keys `critical` and `high` give a number that is at most 1. -/
def priorityIsHigh (priority : Option JVal) : Option Bool :=
  (templateString priority).map (fun key => key == "critical" || key == "high")

/-- One round of the loop of the auto-move pass for a task of the snapshot:
`none` when the round throws, `some none` when the task is left alone, and
`some (some d)` when its row is updated with the scheduled date `d`. -/
def autoMoveTarget (today : String) (task : Obj) : Option (Option JVal) :=
  if strictEq (Obj.get task "status") (some (.str "completed")) then some none
  else
    match priorityIsHigh (Obj.get task "priority") with
    | none => none
    | some high =>
      let newScheduledDate : JVal := if high then .str today else .str "soon"
      let update : Option JVal :=
        if !strictEq (some newScheduledDate) (Obj.get task "scheduled_date")
        then some newScheduledDate else none
      match lessThanText (Obj.get task "end_date") today with
      | none => none
      | some overdue =>
        if overdue && !strictEq (Obj.get task "scheduled_date") (some (.str today)) then
          some update
        else if !truthy (Obj.get task "scheduled_date") && truthy (Obj.get task "start_date")
            && truthy (Obj.get task "end_date") then
          match lessEqText (Obj.get task "start_date") today with
          | none => none
          | some false => some none
          | some true =>
            match greaterEqText (Obj.get task "end_date") today with
            | none => none
            | some false => some none
            | some true => some update
        else some none

/-- The statement `update({ scheduled_date: d }).eq('id', id)` with a database
that accepts it: the rows whose id is `id` get the scheduled date `d`. -/
def updateScheduled (id : Option JVal) (d : JVal) (rows : List Obj) : List Obj :=
  rows.map (fun r => if strictEq (Obj.get r "id") id then Obj.set r "scheduled_date" d else r)

/-- The loop of the auto-move pass over the snapshot `tasks`, on the rows of
the table and the counter `movedCount`; the counter is `none` when a round
throws, with the rows as they are at the throw. -/
def autoMoveLoop (today : String) : List Obj → List Obj → Nat → List Obj × Option Nat
  | [], rows, movedCount => (rows, some movedCount)
  | task :: rest, rows, movedCount =>
    match autoMoveTarget today task with
    | none => (rows, none)
    | some none => autoMoveLoop today rest rows movedCount
    | some (some d) =>
      autoMoveLoop today rest (updateScheduled (Obj.get task "id") d rows) (movedCount + 1)

/-- Handler `POST /api/tasks/auto-move`. -/
def autoMove (env : Env) (s : HostedStore) : Response × HostedStore :=
  let result := autoMoveLoop env.today s.rows s.rows 0
  match result.2 with
  | some moved =>
    (⟨200, some (.obj [("moved", .num moved),
        ("tasks", tasksJson (result.1.map toFrontendTask))])⟩,
      { s with rows := result.1 })
  | none => (⟨500, errorBody "Failed to auto-move tasks"⟩, { s with rows := result.1 })

/-! ## Round trip property -/

/-- Undo right after a mutation that took the store from `s` to `s1` answers
200 and leaves the tasks of `s`, and redo right after that undo answers 200 and
leaves the tasks of `s1`. -/
def UndoRedoRoundTrip (env2 env3 : Env) (s s1 : Store) : Prop :=
  (undo env2 s1).1.status = 200 ∧ (undo env2 s1).2.data.tasks = s.data.tasks ∧
  (redo env3 (undo env2 s1).2).1.status = 200 ∧
  (redo env3 (undo env2 s1).2).2.data.tasks = s1.data.tasks

/-! ## Runs of the history -/

/-- One step of a run of the history: a recorded mutation, which replaces the
tasks and calls `saveToHistory`, an undo request or a redo request. -/
inductive HistoryStep where
  | record (env : Env) (action : String) (previousState : List Task) (tasks : List Task)
  | undo (env : Env)
  | redo (env : Env)

/-- The store after one step of a run. -/
def HistoryStep.run (s : Store) : HistoryStep → Store
  | .record env action previousState tasks =>
    { s with data := { s.data with tasks := tasks },
             history := saveToHistory env action previousState s.history }
  | .undo env => (TaskFlow.undo env s).2
  | .redo env => (TaskFlow.redo env s).2

/-! ## Suggestion engine: the alerts as specified -/

/-- The alert entries in the words of the specification: in this order
`Overdue Tasks` (end before today, not completed), `Due Today` (end today, not
completed), `Priority Tasks` (priority critical or high, not started) and
`Stalled Tasks` (in progress at progress 0), each over its matching tasks. -/
def expectedAlerts (endKey today : String) (tasks : List Task) : List JVal :=
  alertFor "warning" "Overdue Tasks" "filter_overdue"
    (fun n => "You have " ++ toString n ++ " overdue task(s) that need attention")
    (tasks.filter (fun t =>
      (lessThanText (Obj.get t endKey) today == some true) &&
        !strictEq (Obj.get t "status") (some (.str "completed")))) ++
  alertFor "info" "Due Today" "filter_today"
    (fun n => toString n ++ " task(s) are due today")
    (tasks.filter (fun t =>
      strictEq (Obj.get t endKey) (some (.str today)) &&
        !strictEq (Obj.get t "status") (some (.str "completed")))) ++
  alertFor "suggestion" "Priority Tasks" "filter_priority"
    (fun n => toString n ++ " high priority task(s) haven't been started")
    (tasks.filter (fun t =>
      (strictEq (Obj.get t "priority") (some (.str "critical")) ||
        strictEq (Obj.get t "priority") (some (.str "high"))) &&
        strictEq (Obj.get t "status") (some (.str "not_started")))) ++
  alertFor "suggestion" "Stalled Tasks" "filter_stalled"
    (fun n => toString n ++ " task(s) marked as in progress but have 0% completion")
    (tasks.filter (fun t =>
      strictEq (Obj.get t "status") (some (.str "in_progress")) &&
        strictEq (Obj.get t "progress") (some (.num 0))))

/-- The estimated hours of a row in the words of the specification: a missing
or zero estimate counts as 2. -/
def countedHours (t : Obj) : Int :=
  match Obj.get t "estimated_hours" with
  | some (.num k) => if k = 0 then 2 else k
  | _ => 2

/-! ## Classifier inputs that are not strings -/

/-- Every keyword of the four tables of the classifier. -/
def allKeywords : List String :=
  (AI_CATEGORIES.map Prod.snd).flatten ++ (AI_PRIORITY_KEYWORDS.map Prod.snd).flatten ++
  (AI_TIME_ESTIMATES.map (fun e => e.2.keywords)).flatten ++ (tagPatterns.map Prod.snd).flatten

/-- The characters of the text of an integer. -/
def numeralChars : List Char :=
  ['0', '1', '2', '3', '4', '5', '6', '7', '8', '9', '-']

/-- No occurrence of the keyword `kw` in a text `m ++ " " ++ rest` starts
inside `m`: at no position of `m` is the keyword a prefix of what is left of
`m` and the blank, or the other way round. -/
def clashFree (kw : List Char) : List Char → Bool
  | [] => true
  | c :: cs =>
    !(kw.isPrefixOf (c :: cs ++ [' ']) || (c :: cs ++ [' ']).isPrefixOf kw) && clashFree kw cs

/-- The text `m` meets no keyword of the tables, read from the left as a name
and from the right as a description. -/
def keywordFree (m : String) : Bool :=
  allKeywords.all (fun kw =>
    clashFree kw.data (toLowerCase m).data &&
    clashFree kw.data.reverse (toLowerCase m).data.reverse)

/-- A number, a boolean, `null`, the empty array, or an object without an own
property `toString`. -/
def JVal.isInert : JVal → Bool
  | .null => true
  | .bool _ => true
  | .num _ => true
  | .arr [] => true
  | .obj kvs => !Obj.has kvs "toString"
  | _ => false

/-! ## Invariants of the task collection -/

/-- The milestone invariant: every stored task of type milestone has `end`
equal to `start`. -/
def milestoneInvariant (tasks : List Task) : Prop :=
  ∀ t ∈ tasks, Obj.get t "type" = some (.str "milestone") → Obj.get t "end" = Obj.get t "start"

instance (tasks : List Task) : Decidable (milestoneInvariant tasks) := by
  unfold milestoneInvariant
  infer_instance

/-- The ids of the stored tasks are pairwise distinct. -/
def uniqueIds (tasks : List Task) : Prop :=
  (tasks.map (fun t => Obj.get t "id")).Nodup

instance (tasks : List Task) : Decidable (uniqueIds tasks) := by
  unfold uniqueIds
  infer_instance

/-- The ids are pairwise distinct in the stored tasks and in every snapshot the
history holds. -/
def storeUniqueIds (s : Store) : Prop :=
  uniqueIds s.data.tasks ∧ (∀ e ∈ s.history.undoStack, uniqueIds e.state) ∧
  (∀ e ∈ s.history.redoStack, uniqueIds e.state)

/-- An id that `===` can compare by value: no array and no object. -/
def primitiveId : Option JVal → Bool
  | some (.arr _) => false
  | some (.obj _) => false
  | _ => true

/-- The row of a task after its round of the auto-move pass. -/
def movedRow (today : String) (r : Obj) : Obj :=
  match autoMoveTarget today r with
  | some (some d) => Obj.set r "scheduled_date" d
  | _ => r

/-- Whether a value is a text. -/
def isText : Option JVal → Bool
  | some (.str _) => true
  | _ => false

/-- Whether a column is absent, `null` or a text. -/
def textOrNull : Option JVal → Bool
  | none => true
  | some .null => true
  | some (.str _) => true
  | _ => false

/-- A row of the `tasks` table as far as the auto-move pass reads it: the id
is a text, and the priority and the two dates are absent, `null` or a text. -/
def tableRow (r : Obj) : Prop :=
  isText (Obj.get r "id") = true ∧
  ∀ k ∈ ["priority", "start_date", "end_date"], textOrNull (Obj.get r k) = true

instance (r : Obj) : Decidable (tableRow r) := by
  unfold tableRow
  infer_instance

/-! ## Lower-casing outside ASCII -/

/-- Whether a character is an ASCII character. -/
def isAsciiChar (c : Char) : Bool :=
  decide (c.toNat < 128)

/-- The characters `lowerChar` lower-cases as the method does: the ASCII
characters, U+0130 and U+212A. -/
def lowerExact (c : Char) : Bool :=
  isAsciiChar c || decide (c = Char.ofNat 0x130) || decide (c = Char.ofNat 0x212A)

/-- A text with every character outside ASCII replaced by U+FFFD. -/
def maskChars (l : List Char) : List Char :=
  l.map (fun c => if isAsciiChar c then c else Char.ofNat 0xFFFD)

/-- What `String.prototype.toLowerCase` guarantees of the lower case `t` of a
text `s`: `t` is made of one piece per character of `s`; the piece of an ASCII
character, of U+0130 and of U+212A is `lowerChar` of it, and the piece of any
other character is one character outside ASCII (the character itself, or its
small letter, which for the capital sigma depends on the place in the word). -/
def LowerCased (s t : String) : Prop :=
  ∃ parts : List (List Char), t.data = parts.flatten ∧
    List.Forall₂ (fun c p =>
      if lowerExact c = true then p = lowerChar c
      else ∃ d, p = [d] ∧ isAsciiChar d = false) s.data parts

/-- The sum of the magnitudes of the hours counted for the rows: while it is
at most `2 ^ 53`, every sum of hours of the rows is a whole double. -/
def hoursMagnitude (rows : List Obj) : Nat :=
  (rows.map (fun t => (countedHours t).natAbs)).sum

/-- Written from the claim: the percentage `round(100 * c / n)`, the whole
number nearest to the exact quotient. -/
def specPercent (c n : Nat) : Nat :=
  (200 * c + n) / (2 * n)

/-! ## Sample data -/

/-- A store for the examples. -/
def sampleEnv : Env :=
  { uuids := fun n => "uuid-" ++ toString n, now := "2024-05-01T10:00:00.000Z",
    today := "2024-05-01", nextWeek := "2024-05-08" }

/-- Three tasks: `a`, its child `b`, and `c`, which depends on both. -/
def sampleTasks : List Task :=
  [ [("id", .str "a"), ("name", .str "parent"), ("parentId", .null), ("dependencies", .arr [])],
    [("id", .str "b"), ("name", .str "child"), ("parentId", .str "a"), ("dependencies", .arr [])],
    [("id", .str "c"), ("name", .str "other"), ("parentId", .null),
      ("dependencies", .arr [.str "a", .str "b"])] ]

/-- A store holding `sampleTasks`, with an empty history and activity log. -/
def sampleStore : Store :=
  { data := { tasks := sampleTasks, projects := .arr [], labels := .arr [],
              settings := [("enableAI", .bool true), ("autoClassify", .bool true)] },
    history := { undoStack := [], redoStack := [] },
    activities := [] }

/-- The sample store after an undo: its redo stack holds one entry. -/
def sampleStoreWithRedo : Store :=
  { sampleStore with
    data := { sampleStore.data with
      projects := .arr [.obj [("id", .str "default")], .obj [("id", .str "p1")]],
      tasks := [[("id", .str "a"), ("name", .str "parent"), ("projectId", .str "p1"),
                 ("actualHours", .num 1)]] },
    history := { undoStack := [], redoStack := [⟨"update", sampleTasks, sampleEnv.now⟩] } }

/-- Tasks for the suggestion engine: `o` is overdue and stalled, `d` is due on
2024-05-01 and waits with a high priority, `f` is completed. -/
def sampleDatedTasks : List Task :=
  [ [("id", .str "o"), ("end", .str "2024-04-30"), ("status", .str "in_progress"),
     ("progress", .num 0), ("priority", .str "low")],
    [("id", .str "d"), ("end", .str "2024-05-01"), ("status", .str "not_started"),
     ("progress", .num 0), ("priority", .str "high")],
    [("id", .str "f"), ("end", .str "2024-04-01"), ("status", .str "completed"),
     ("progress", .num 100), ("priority", .str "medium")] ]

/-- Rows of the hosted variant on which no alert fires: one completed row and
two rows in progress, one of them without an estimate. -/
def sampleQuietRows : List Obj :=
  [ [("id", .str "r1"), ("end_date", .str "2024-06-01"), ("status", .str "completed"),
     ("progress", .num 100), ("priority", .str "low"), ("estimated_hours", .num 5)],
    [("id", .str "r2"), ("end_date", .str "2024-06-02"), ("status", .str "in_progress"),
     ("progress", .num 40), ("priority", .str "low"), ("estimated_hours", .num 3)],
    [("id", .str "r3"), ("end_date", .str "2024-06-03"), ("status", .str "in_progress"),
     ("progress", .num 10), ("priority", .str "high"), ("estimated_hours", .null)] ]

/-- A task in the wire format, valid under the data model, in the default
project. -/
def sampleWireTask : Obj :=
  [ ("id", .str "w1"), ("name", .str "Write report"), ("description", .str ""),
    ("start", .str "2024-05-01"), ("end", .str "2024-05-08"), ("progress", .num 0),
    ("type", .str "task"), ("status", .str "not_started"), ("priority", .str "medium"),
    ("category", .str "general"), ("color", .str "#4A90D9"), ("projectId", .str "default"),
    ("parentId", .null), ("dependencies", .arr []), ("assignee", .str ""), ("tags", .arr []),
    ("estimatedHours", .num 8), ("actualHours", .num 0), ("scheduledDate", .null),
    ("reminderTime", .null), ("reminderEnabled", .bool false), ("dueReminder", .bool true),
    ("recurring", .null) ]

/-- Rows for the auto-move pass on 2024-05-01: `m1` is overdue with a high
priority, `m2` is overdue with a low priority, `m3` is in the backlog with a
range around the day, `m4` is completed and overdue, `m5` lies in the
future. -/
def sampleMoveRows : List Obj :=
  [ [("id", .str "m1"), ("status", .str "in_progress"), ("priority", .str "high"),
     ("start_date", .str "2024-04-01"), ("end_date", .str "2024-04-20"),
     ("scheduled_date", .null)],
    [("id", .str "m2"), ("status", .str "not_started"), ("priority", .str "low"),
     ("start_date", .str "2024-04-01"), ("end_date", .str "2024-04-20"),
     ("scheduled_date", .str "2024-04-10")],
    [("id", .str "m3"), ("status", .str "not_started"), ("priority", .str "critical"),
     ("start_date", .str "2024-04-25"), ("end_date", .str "2024-05-10"),
     ("scheduled_date", .null)],
    [("id", .str "m4"), ("status", .str "completed"), ("priority", .str "high"),
     ("start_date", .str "2024-04-01"), ("end_date", .str "2024-04-20"),
     ("scheduled_date", .null)],
    [("id", .str "m5"), ("status", .str "not_started"), ("priority", .str "medium"),
     ("start_date", .str "2024-06-01"), ("end_date", .str "2024-06-10"),
     ("scheduled_date", .null)] ]

/-- Forty rows of the hosted variant on which no alert fires on 2024-05-01:
the first 23 are completed, the other 17 are in progress, each with an
estimate of 3 hours. -/
def sampleFortyRows : List Obj :=
  (List.range 40).map (fun i =>
    [("id", .str ("q" ++ toString i)), ("end_date", .str "2024-06-01"),
     ("status", .str (if i < 23 then "completed" else "in_progress")),
     ("progress", .num (if i < 23 then 100 else 50)), ("priority", .str "low"),
     ("estimated_hours", .num 3)])

/-! ## Theorems: strings and tables -/

/-- The substring test is the infix relation on the characters. -/
theorem includesChars_iff (kw text : List Char) :
    includesChars kw text = true ↔ kw <:+: text := by
  induction text with
  | nil => simp [includesChars, List.isEmpty_iff]
  | cons c cs ih =>
    simp only [includesChars, Bool.or_eq_true, List.isPrefixOf_iff_prefix, ih]
    exact List.infix_cons_iff.symm

/-- The substring test `text.includes(kw)` holds exactly when the characters
of `kw` occur contiguously in `text`. -/
theorem includes_iff (text kw : String) :
    includes text kw = true ↔ kw.data <:+: text.data :=
  includesChars_iff kw.data text.data

theorem toLowerCase_data_append (a b : String) :
    (toLowerCase (a ++ b)).data = (toLowerCase a).data ++ (toLowerCase b).data := by
  simp [toLowerCase, String.data_append, List.map_append, List.flatten_append]

theorem toLowerCase_space : (toLowerCase " ").data = [' '] := by
  decide

theorem toLowerCase_empty : (toLowerCase "").data = [] := by
  decide

theorem toLowerCase_searchText (n d : String) :
    (toLowerCase (n ++ " " ++ d)).data
      = (toLowerCase n).data ++ ' ' :: (toLowerCase d).data := by
  rw [toLowerCase_data_append, toLowerCase_data_append, toLowerCase_space]
  simp

/-- A keyword of the name is a keyword of the search text. -/
theorem includes_searchText (lowName name description kw : String)
    (hn : toLowerCase name = lowName) (hk : includes lowName kw = true) :
    includes (toLowerCase (name ++ " " ++ description)) kw = true := by
  rw [includes_iff] at hk ⊢
  have h : (toLowerCase (name ++ " " ++ description)).data
      = lowName.data ++ (toLowerCase (" " ++ description)).data := by
    rw [← hn]
    simp [toLowerCase, String.data_append, List.map_append, List.flatten_append]
  rw [h]
  exact List.IsInfix.trans hk (List.infix_append' [] _ _)

/-- Scores are bounded by their maximum. -/
theorem le_mathMax (xs : List Nat) : ∀ x ∈ xs, x ≤ mathMax xs := by
  have key : ∀ (ys : List Nat) (a : Nat), a ≤ ys.foldl max a ∧ ∀ x ∈ ys, x ≤ ys.foldl max a := by
    intro ys
    induction ys with
    | nil => intro a; simp
    | cons y ys ih =>
      intro a
      simp only [List.foldl_cons, List.mem_cons, forall_eq_or_imp]
      have h := ih (max a y)
      refine ⟨le_trans (le_max_left a y) h.1, le_trans (le_max_right a y) h.1, h.2⟩
  exact (key xs 0).2

/-- The maximum of the scores is zero or one of the scores. -/
theorem mathMax_mem (xs : List Nat) : mathMax xs = 0 ∨ mathMax xs ∈ xs := by
  have key : ∀ (ys : List Nat) (a : Nat), ys.foldl max a = a ∨ ys.foldl max a ∈ ys := by
    intro ys
    induction ys with
    | nil => intro a; simp
    | cons y ys ih =>
      intro a
      simp only [List.foldl_cons, List.mem_cons]
      rcases ih (max a y) with h | h
      · rcases le_total a y with hay | hay
        · right; left; rw [h]; exact max_eq_right hay
        · left; rw [h]; exact max_eq_left hay
      · right; right; exact h
  exact key xs 0

/-- First match in a table: either no row satisfies `p`, or the table splits
at the first row that does. -/
theorem find_first_spec {α : Type} (tbl : List α) (p : α → Bool) :
    (tbl.find? p = none ∧ ∀ e ∈ tbl, p e = false) ∨
    (∃ pre e post, tbl = pre ++ e :: post ∧ tbl.find? p = some e ∧ p e = true ∧
      ∀ d ∈ pre, p d = false) := by
  cases h : tbl.find? p with
  | none =>
    left
    refine ⟨rfl, ?_⟩
    simpa using h
  | some e =>
    right
    obtain ⟨he, pre, post, hsplit, hpre⟩ := List.find?_eq_some.mp h
    exact ⟨pre, e, post, hsplit, rfl, he, by simpa using hpre⟩

/-! ## Theorems: lower-casing outside ASCII -/

/-- The keywords of the four tables are keywords of `allKeywords`. -/
theorem mem_allKeywords :
    (∀ e ∈ AI_CATEGORIES, ∀ kw ∈ e.2, kw ∈ allKeywords) ∧
    (∀ e ∈ AI_PRIORITY_KEYWORDS, ∀ kw ∈ e.2, kw ∈ allKeywords) ∧
    (∀ e ∈ AI_TIME_ESTIMATES, ∀ kw ∈ e.2.keywords, kw ∈ allKeywords) ∧
    (∀ e ∈ tagPatterns, ∀ kw ∈ e.2, kw ∈ allKeywords) := by
  refine ⟨?_, ?_, ?_, ?_⟩ <;> intro e he kw hkw <;>
    simp only [allKeywords, List.mem_append, List.mem_flatten, List.mem_map]
  · exact Or.inl (Or.inl (Or.inl ⟨e.2, ⟨e, he, rfl⟩, hkw⟩))
  · exact Or.inl (Or.inl (Or.inr ⟨e.2, ⟨e, he, rfl⟩, hkw⟩))
  · exact Or.inl (Or.inr ⟨e.2.keywords, ⟨e, he, rfl⟩, hkw⟩)
  · exact Or.inr ⟨e.2, ⟨e, he, rfl⟩, hkw⟩

set_option maxRecDepth 20000 in
/-- Every keyword of the tables is made of ASCII characters. -/
theorem allKeywords_ascii : ∀ kw ∈ allKeywords, ∀ c ∈ kw.data, isAsciiChar c = true := by
  decide

/-- A character outside ASCII is its own `Char.toLower`. -/
theorem toLower_of_not_ascii (c : Char) (h : isAsciiChar c = false) : c.toLower = c := by
  simp only [isAsciiChar, decide_eq_false_iff_not, not_lt] at h
  have h2 : ¬ (c.toNat ≥ 65 ∧ c.toNat ≤ 90) := by omega
  simp only [Char.toLower, h2, if_false]

/-- Masking a text of ASCII characters changes nothing. -/
theorem maskChars_ascii (l : List Char) (h : ∀ c ∈ l, isAsciiChar c = true) :
    maskChars l = l := by
  induction l with
  | nil => rfl
  | cons c cs ih =>
    simp only [maskChars, List.map_cons, List.cons.injEq]
    refine ⟨by simp [h c (List.mem_cons_self _ _)], ?_⟩
    exact ih (fun d hd => h d (List.mem_cons_of_mem _ hd))

/-- A text whose mask is an ASCII text is that text. -/
theorem eq_of_maskChars_eq (k l : List Char) (h : ∀ c ∈ k, isAsciiChar c = true)
    (he : maskChars l = k) : l = k := by
  induction l generalizing k with
  | nil => simpa [maskChars] using he
  | cons c cs ih =>
    cases k with
    | nil => simp [maskChars] at he
    | cons d ds =>
      simp only [maskChars, List.map_cons, List.cons.injEq] at he
      have hd := h d (List.mem_cons_self _ _)
      have hc : c = d := by
        by_cases hca : isAsciiChar c = true
        · simpa [hca] using he.1
        · exfalso
          simp only [hca] at he
          have h1 := he.1
          simp only [Bool.false_eq_true, if_false] at h1
          rw [← h1] at hd
          revert hd
          decide
      rw [hc, ih ds (fun x hx => h x (List.mem_cons_of_mem _ hx)) he.2]

/-- An ASCII keyword occurs in a text exactly when it occurs in the mask of
the text. -/
theorem infix_maskChars_iff (kw l : List Char) (h : ∀ c ∈ kw, isAsciiChar c = true) :
    kw <:+: maskChars l ↔ kw <:+: l := by
  constructor
  · rintro ⟨a, b, hab⟩
    unfold maskChars at hab
    obtain ⟨l1, b1, hl, h1, _⟩ := List.map_eq_append_iff.mp hab.symm
    obtain ⟨a1, k1, hl1, _, hk⟩ := List.map_eq_append_iff.mp h1
    have hk1 : k1 = kw := eq_of_maskChars_eq kw k1 h hk
    exact ⟨a1, b1, by rw [hl, hl1, hk1]⟩
  · intro hi
    have h2 := List.IsInfix.map (fun c => if isAsciiChar c then c else Char.ofNat 0xFFFD) hi
    have h3 := maskChars_ascii kw h
    unfold maskChars at h3 ⊢
    rw [h3] at h2
    exact h2

/-- The pieces of a lower case and the pieces of `toLowerCase` have the same
mask. -/
theorem maskChars_pieces (cs : List Char) (parts : List (List Char))
    (h : List.Forall₂ (fun c p =>
      if lowerExact c = true then p = lowerChar c
      else ∃ d, p = [d] ∧ isAsciiChar d = false) cs parts) :
    maskChars parts.flatten = maskChars (cs.map lowerChar).flatten := by
  induction h with
  | nil => rfl
  | @cons c p cs ps hcp _ ih =>
    have happ : ∀ a b : List Char, maskChars (a ++ b) = maskChars a ++ maskChars b := by
      intro a b
      simp [maskChars]
    simp only [List.flatten_cons, List.map_cons, happ, ih]
    congr 1
    by_cases hc : lowerExact c = true
    · simp only [hc, if_true] at hcp
      rw [hcp]
    · simp only [hc] at hcp
      obtain ⟨d, hp, hd⟩ := hcp
      simp only [lowerExact, Bool.or_eq_true, decide_eq_true_eq, not_or] at hc
      have hca : isAsciiChar c = false := by simpa using hc.1.1
      have hl : lowerChar c = [c] := by
        simp only [lowerChar, hc.1.2, hc.2, if_false, toLower_of_not_ascii c hca]
      rw [hp, hl]
      simp [maskChars, hd, hca]

/-- The text `toLowerCase` returns is a lower case of its argument. -/
theorem lowerCased_toLowerCase (s : String) : LowerCased s (toLowerCase s) := by
  refine ⟨s.data.map lowerChar, rfl, ?_⟩
  rw [List.forall₂_map_right_iff]
  apply List.forall₂_same.mpr
  intro c _
  by_cases hc : lowerExact c = true
  · simp [hc]
  · simp only [hc]
    simp only [lowerExact, Bool.or_eq_true, decide_eq_true_eq, not_or] at hc
    have hca : isAsciiChar c = false := by simpa using hc.1.1
    refine ⟨c, ?_, hca⟩
    simp only [lowerChar, hc.1.2, hc.2, if_false, toLower_of_not_ascii c hca]

/-- A keyword of the tables occurs in a lower case of a text exactly when it
occurs in the text `toLowerCase` returns. -/
theorem infix_lowerCased (s t : String) (h : LowerCased s t) :
    ∀ kw ∈ allKeywords, (kw.data <:+: t.data ↔ kw.data <:+: (toLowerCase s).data) := by
  intro kw hkw
  obtain ⟨parts, ht, hparts⟩ := h
  have hk := allKeywords_ascii kw hkw
  have e1 := infix_maskChars_iff kw.data t.data hk
  have e2 := infix_maskChars_iff kw.data (toLowerCase s).data hk
  rw [← e1, ← e2, ht, maskChars_pieces s.data parts hparts]
  rfl

/-- The capital letters outside A..Z that reach a keyword: U+0130 gives the
`i` of `api`, U+212A the `k` of `key`; a capital letter such as U+00C9 has a
lower case outside ASCII whichever it is. -/
theorem lowerCased_samples :
    includes (toLowerCase ("AP" ++ String.singleton (Char.ofNat 0x130))) "api" = true ∧
    includes (toLowerCase (String.singleton (Char.ofNat 0x212A) ++ "ey")) "key" = true ∧
    LowerCased (String.singleton (Char.ofNat 0xC9)) (String.singleton (Char.ofNat 0xE9)) ∧
    LowerCased (String.singleton (Char.ofNat 0xC9)) (toLowerCase (String.singleton (Char.ofNat 0xC9))) := by
  refine ⟨by decide, by decide, ?_, lowerCased_toLowerCase _⟩
  refine ⟨[[Char.ofNat 0xE9]], rfl, ?_⟩
  refine List.Forall₂.cons ?_ List.Forall₂.nil
  have h : lowerExact (Char.ofNat 0xC9) = false := by decide
  simp only [h]
  exact ⟨_, rfl, by decide⟩

/-! ## Theorems: keyword classifier -/

/-- The score of a keyword list counts the keywords occurring in the text. -/
theorem score_eq_countP (text : String) (kws : List String) :
    (kws.filter (fun kw => includes text kw)).length
      = kws.countP (fun kw => decide (kw.data <:+: text.data)) := by
  rw [List.countP_eq_length_filter]
  congr 2
  funext kw
  rw [Bool.eq_iff_iff]
  simp [includes_iff]

/-- A tier matches when one of its keywords occurs in the text. -/
theorem any_includes_iff (text : String) (kws : List String) :
    kws.any (fun kw => includes text kw) = true ↔ ∃ kw ∈ kws, kw.data <:+: text.data := by
  simp [List.any_eq_true, includes_iff]

/-- C1: `classifyTask` returns `general` when no category has a keyword
occurring in the lower-cased `name + " " + description`, and otherwise the first
category, in the order development, design, marketing, planning, research,
documentation, operations, communication, whose number of occurring keywords is
the largest one; the keywords occurring in the text `toLowerCase` returns are
those occurring in any lower case of the text. -/
theorem classifyTask_spec (name description : String) :
    AI_CATEGORIES.map Prod.fst = ["development", "design", "marketing", "planning", "research",
      "documentation", "operations", "communication"] ∧
    (((∀ e ∈ AI_CATEGORIES, e.2.countP (fun kw =>
          decide (kw.data <:+: (toLowerCase (name ++ " " ++ description)).data)) = 0) ∧
        classifyTask name description = "general") ∨
      (∃ pre e post, AI_CATEGORIES = pre ++ e :: post ∧
        classifyTask name description = e.1 ∧
        0 < e.2.countP (fun kw =>
          decide (kw.data <:+: (toLowerCase (name ++ " " ++ description)).data)) ∧
        (∀ d ∈ AI_CATEGORIES,
          d.2.countP (fun kw =>
            decide (kw.data <:+: (toLowerCase (name ++ " " ++ description)).data))
          ≤ e.2.countP (fun kw =>
            decide (kw.data <:+: (toLowerCase (name ++ " " ++ description)).data))) ∧
        (∀ d ∈ pre,
          d.2.countP (fun kw =>
            decide (kw.data <:+: (toLowerCase (name ++ " " ++ description)).data))
          < e.2.countP (fun kw =>
            decide (kw.data <:+: (toLowerCase (name ++ " " ++ description)).data))))) ∧
    (∀ t, LowerCased (name ++ " " ++ description) t → ∀ e ∈ AI_CATEGORIES, ∀ kw ∈ e.2,
      (kw.data <:+: t.data ↔
        kw.data <:+: (toLowerCase (name ++ " " ++ description)).data)) := by
  refine ⟨by decide, ?_, fun t ht e he kw hkw =>
    infix_lowerCased _ t ht kw (mem_allKeywords.1 e he kw hkw)⟩
  generalize htext : toLowerCase (name ++ " " ++ description) = text
  have hscore : ∀ e : String × List String,
      e.2.countP (fun kw => decide (kw.data <:+: text.data))
        = (e.2.filter (fun kw => includes text kw)).length :=
    fun e => (score_eq_countP text e.2).symm
  simp only [hscore]
  have hle := le_mathMax ((categoryScores text).map Prod.snd)
  have hle2 : ∀ d ∈ AI_CATEGORIES, (d.2.filter (fun kw => includes text kw)).length
      ≤ mathMax ((categoryScores text).map Prod.snd) := by
    intro d hd
    apply hle
    simp only [categoryScores, List.map_map, List.mem_map]
    exact ⟨d, hd, rfl⟩
  by_cases hmax : mathMax ((categoryScores text).map Prod.snd) = 0
  · left
    refine ⟨fun e he => ?_, ?_⟩
    · have := hle2 e he
      omega
    · simp only [classifyTask, htext, hmax, if_true]
  · right
    have hmem : mathMax ((categoryScores text).map Prod.snd)
        ∈ (categoryScores text).map Prod.snd := by
      rcases mathMax_mem ((categoryScores text).map Prod.snd) with h | h
      · exact absurd h hmax
      · exact h
    rcases find_first_spec AI_CATEGORIES (fun e => (e.2.filter (fun kw => includes text kw)).length
        == mathMax ((categoryScores text).map Prod.snd)) with ⟨_, hnone⟩ | ⟨pre, e, post, hsplit, hfind, he, hpre⟩
    · exfalso
      simp only [categoryScores, List.map_map, List.mem_map] at hmem
      obtain ⟨d, hd, hdeq⟩ := hmem
      have := hnone d hd
      simp only [categoryScores, List.map_map] at this
      simp only [Function.comp] at hdeq
      simp [hdeq] at this
    · have heq : (e.2.filter (fun kw => includes text kw)).length
          = mathMax ((categoryScores text).map Prod.snd) := by simpa using he
      have hemem : e ∈ AI_CATEGORIES := by rw [hsplit]; simp
      have hname : e.1 ≠ "" := by
        have hall : ∀ d ∈ AI_CATEGORIES, d.1 ≠ "" := by decide
        exact hall e hemem
      refine ⟨pre, e, post, hsplit, ?_, ?_, ?_, ?_⟩
      · have hgen : ∀ m : Nat,
            AI_CATEGORIES.find? (fun e => (e.2.filter (fun kw => includes text kw)).length == m)
              = some e →
            (categoryScores text).find? (fun e => e.2 == m)
              = some (e.1, (e.2.filter (fun kw => includes text kw)).length) := by
          intro m h
          simp only [categoryScores, List.find?_map, Function.comp_def, h, Option.map_some']
        have hfind2 := hgen _ hfind
        simp only [classifyTask, htext, hmax, if_false, hfind2, hname]
      · rw [heq]; omega
      · intro d hd
        rw [heq]
        exact hle2 d hd
      · intro d hd
        have h1 := hpre d hd
        have h2 := hle2 d (by rw [hsplit]; exact List.mem_append_left _ hd)
        rw [heq]
        have h3 : (d.2.filter (fun kw => includes text kw)).length
            ≠ mathMax ((categoryScores text).map Prod.snd) := by simpa using h1
        omega

/-- C2: `suggestPriority` returns the first tier, in the order critical, high,
medium, low, one of whose keywords occurs in the lower-cased
`name + " " + description`, and `medium` when no tier has one; the name
"urgent bug fix" gives `critical` whatever the description; the keywords
occurring in the text `toLowerCase` returns are those occurring in any lower
case of the text. -/
theorem suggestPriority_spec (name description : String) :
    AI_PRIORITY_KEYWORDS.map Prod.fst = ["critical", "high", "medium", "low"] ∧
    (((∀ e ∈ AI_PRIORITY_KEYWORDS, ¬ ∃ kw ∈ e.2,
          kw.data <:+: (toLowerCase (name ++ " " ++ description)).data) ∧
        suggestPriority name description = "medium") ∨
      (∃ pre e post, AI_PRIORITY_KEYWORDS = pre ++ e :: post ∧
        suggestPriority name description = e.1 ∧
        (∃ kw ∈ e.2, kw.data <:+: (toLowerCase (name ++ " " ++ description)).data) ∧
        (∀ d ∈ pre, ¬ ∃ kw ∈ d.2,
          kw.data <:+: (toLowerCase (name ++ " " ++ description)).data))) ∧
    suggestPriority "urgent bug fix" description = "critical" ∧
    (∀ t, LowerCased (name ++ " " ++ description) t → ∀ e ∈ AI_PRIORITY_KEYWORDS, ∀ kw ∈ e.2,
      (kw.data <:+: t.data ↔
        kw.data <:+: (toLowerCase (name ++ " " ++ description)).data)) := by
  refine ⟨by decide, ?_, ?_, fun t ht e he kw hkw =>
    infix_lowerCased _ t ht kw (mem_allKeywords.2.1 e he kw hkw)⟩
  · generalize htext : toLowerCase (name ++ " " ++ description) = text
    rcases find_first_spec AI_PRIORITY_KEYWORDS
        (fun e => e.2.any (fun kw => includes text kw)) with
      ⟨hfind, hnone⟩ | ⟨pre, e, post, hsplit, hfind, he, hpre⟩
    · left
      refine ⟨fun e he => ?_, ?_⟩
      · rw [← any_includes_iff]
        simp [hnone e he]
      · simp only [suggestPriority, htext, hfind]
    · right
      refine ⟨pre, e, post, hsplit, ?_, (any_includes_iff text e.2).mp he, fun d hd => ?_⟩
      · simp only [suggestPriority, htext, hfind]
      · rw [← any_includes_iff]
        simp [hpre d hd]
  · have hk : includes (toLowerCase ("urgent bug fix" ++ " " ++ description)) "urgent" = true :=
      includes_searchText "urgent bug fix" "urgent bug fix" description "urgent"
        (by decide) (by decide)
    simp only [suggestPriority, AI_PRIORITY_KEYWORDS, List.find?_cons, List.any_cons, hk,
      Bool.true_or]

/-- C3: `estimateTime` returns the hours of the first effort tier, in the order
quick (1), short (4), medium (16), long (40), epic (80), one of whose keywords
occurs in the lower-cased `name + " " + description`, and 8 when no tier has
one; the result is one of 1, 4, 16, 40, 80, 8; the keywords occurring in the
text `toLowerCase` returns are those occurring in any lower case of the
text. -/
theorem estimateTime_spec (name description : String) :
    AI_TIME_ESTIMATES.map (fun e => (e.1, e.2.hours))
      = [("quick", 1), ("short", 4), ("medium", 16), ("long", 40), ("epic", 80)] ∧
    (((∀ e ∈ AI_TIME_ESTIMATES, ¬ ∃ kw ∈ e.2.keywords,
          kw.data <:+: (toLowerCase (name ++ " " ++ description)).data) ∧
        estimateTime name description = 8) ∨
      (∃ pre e post, AI_TIME_ESTIMATES = pre ++ e :: post ∧
        estimateTime name description = e.2.hours ∧
        (∃ kw ∈ e.2.keywords, kw.data <:+: (toLowerCase (name ++ " " ++ description)).data) ∧
        (∀ d ∈ pre, ¬ ∃ kw ∈ d.2.keywords,
          kw.data <:+: (toLowerCase (name ++ " " ++ description)).data))) ∧
    estimateTime name description ∈ [1, 4, 16, 40, 80, 8] ∧
    (∀ t, LowerCased (name ++ " " ++ description) t →
      ∀ e ∈ AI_TIME_ESTIMATES, ∀ kw ∈ e.2.keywords,
      (kw.data <:+: t.data ↔
        kw.data <:+: (toLowerCase (name ++ " " ++ description)).data)) := by
  have hmain : ((∀ e ∈ AI_TIME_ESTIMATES, ¬ ∃ kw ∈ e.2.keywords,
          kw.data <:+: (toLowerCase (name ++ " " ++ description)).data) ∧
        estimateTime name description = 8) ∨
      (∃ pre e post, AI_TIME_ESTIMATES = pre ++ e :: post ∧
        estimateTime name description = e.2.hours ∧
        (∃ kw ∈ e.2.keywords, kw.data <:+: (toLowerCase (name ++ " " ++ description)).data) ∧
        (∀ d ∈ pre, ¬ ∃ kw ∈ d.2.keywords,
          kw.data <:+: (toLowerCase (name ++ " " ++ description)).data)) := by
    generalize htext : toLowerCase (name ++ " " ++ description) = text
    rcases find_first_spec AI_TIME_ESTIMATES
        (fun e => e.2.keywords.any (fun kw => includes text kw)) with
      ⟨hfind, hnone⟩ | ⟨pre, e, post, hsplit, hfind, he, hpre⟩
    · left
      refine ⟨fun e he => ?_, ?_⟩
      · rw [← any_includes_iff]
        simp [hnone e he]
      · simp only [estimateTime, htext, hfind]
    · right
      refine ⟨pre, e, post, hsplit, ?_, (any_includes_iff text e.2.keywords).mp he,
        fun d hd => ?_⟩
      · simp only [estimateTime, htext, hfind]
      · rw [← any_includes_iff]
        simp [hpre d hd]
  refine ⟨by decide, hmain, ?_, fun t ht e he kw hkw =>
    infix_lowerCased _ t ht kw (mem_allKeywords.2.2.1 e he kw hkw)⟩
  rcases hmain with ⟨_, h8⟩ | ⟨pre, e, post, hsplit, hres, _, _⟩
  · rw [h8]; decide
  · rw [hres]
    have hemem : e ∈ AI_TIME_ESTIMATES := by rw [hsplit]; simp
    have hall : ∀ d ∈ AI_TIME_ESTIMATES, d.2.hours ∈ [1, 4, 16, 40, 80, 8] := by decide
    exact hall e hemem

/-- C4: `suggestTags` returns the first five of the tag names, taken in the
order bug, feature, improvement, urgent, review, testing, documentation,
meeting, whose pattern has a keyword occurring in the lower-cased text: at most
five tags, without duplicates, in the enumeration order; for the name
"urgent bug fix" the result contains `bug` and `urgent`; the keywords
occurring in the text `toLowerCase` returns are those occurring in any lower
case of the text. -/
theorem suggestTags_spec (name description : String) :
    tagPatterns.map Prod.fst = ["bug", "feature", "improvement", "urgent", "review", "testing",
      "documentation", "meeting"] ∧
    suggestTags name description
      = ((tagPatterns.filter (fun e => decide (∃ kw ∈ e.2,
          kw.data <:+: (toLowerCase (name ++ " " ++ description)).data))).map Prod.fst).take 5 ∧
    (suggestTags name description).length ≤ 5 ∧
    (suggestTags name description).Nodup ∧
    (suggestTags name description).Sublist (tagPatterns.map Prod.fst) ∧
    "bug" ∈ suggestTags "urgent bug fix" description ∧
    "urgent" ∈ suggestTags "urgent bug fix" description ∧
    (∀ t, LowerCased (name ++ " " ++ description) t → ∀ e ∈ tagPatterns, ∀ kw ∈ e.2,
      (kw.data <:+: t.data ↔
        kw.data <:+: (toLowerCase (name ++ " " ++ description)).data)) := by
  have hsub : (suggestTags name description).Sublist (tagPatterns.map Prod.fst) := by
    unfold suggestTags
    exact (List.take_sublist _ _).trans ((List.filter_sublist _).map _)
  have hboth : "bug" ∈ suggestTags "urgent bug fix" description ∧
      "urgent" ∈ suggestTags "urgent bug fix" description := by
    have hu : includes (toLowerCase ("urgent bug fix" ++ " " ++ description)) "urgent" = true :=
      includes_searchText "urgent bug fix" "urgent bug fix" description "urgent"
        (by decide) (by decide)
    have hb : includes (toLowerCase ("urgent bug fix" ++ " " ++ description)) "bug" = true :=
      includes_searchText "urgent bug fix" "urgent bug fix" description "bug"
        (by decide) (by decide)
    simp only [suggestTags, tagPatterns, List.filter_cons, List.any_cons, hu, hb, Bool.true_or,
      Bool.or_true, if_true]
    constructor
    · simp
    · split <;> split <;> simp
  refine ⟨by decide, ?_, ?_, ?_, hsub, hboth.1, hboth.2, fun t ht e he kw hkw =>
    infix_lowerCased _ t ht kw (mem_allKeywords.2.2.2 e he kw hkw)⟩
  · have hp : (fun (e : String × List String) => decide (∃ kw ∈ e.2,
          kw.data <:+: (toLowerCase (name ++ " " ++ description)).data))
        = (fun e => e.2.any (fun kw =>
            includes (toLowerCase (name ++ " " ++ description)) kw)) := by
      funext e
      rw [Bool.eq_iff_iff, any_includes_iff]
      simp
    rw [hp]
    rfl
  · unfold suggestTags
    simp [List.length_take]
  · exact hsub.nodup (by decide)

/-! ## Theorems: objects -/

/-- Strict equality with a string holds for that string only. -/
theorem strictEq_str_iff (x : Option JVal) (s : String) :
    strictEq x (some (.str s)) = true ↔ x = some (.str s) := by
  cases x with
  | none => simp [strictEq]
  | some v => cases v <;> simp [strictEq]

/-- Strict equality is symmetric. -/
theorem strictEq_comm (x y : Option JVal) : strictEq x y = strictEq y x := by
  rcases x with _ | x <;> rcases y with _ | y
  · rfl
  · cases y <;> rfl
  · cases x <;> rfl
  · cases x <;> cases y <;> simp [strictEq, eq_comm]

/-- Two values strictly equal to each other are strictly equal to the same
values. -/
theorem strictEq_congr (x y z : Option JVal) (h : strictEq x y = true) :
    strictEq x z = strictEq y z := by
  rcases x with _ | x <;> rcases y with _ | y
  · rfl
  · cases y <;> simp [strictEq] at h
  · cases x <;> simp [strictEq] at h
  · cases x <;> cases y <;> simp [strictEq] at h <;> subst_vars <;> rfl


theorem get_nil (k : String) : Obj.get [] k = none := rfl

theorem get_cons (e : String × JVal) (o : Obj) (k : String) :
    Obj.get (e :: o) k = if e.1 = k then some e.2 else Obj.get o k := by
  by_cases h : e.1 = k <;> simp [Obj.get, List.find?_cons, h]

theorem has_eq_isSome (o : Obj) (k : String) : Obj.has o k = (Obj.get o k).isSome := by
  induction o with
  | nil => rfl
  | cons e o ih =>
    rw [get_cons]
    by_cases h : e.1 = k
    · simp [Obj.has, h]
    · simp only [Obj.has, List.any_cons] at ih ⊢
      simp [h, ih]

theorem get_append (x y : Obj) (k : String) :
    Obj.get (x ++ y) k = (match Obj.get x k with
      | some v => some v
      | none => Obj.get y k) := by
  induction x with
  | nil => rfl
  | cons e x ih =>
    rw [List.cons_append, get_cons, get_cons]
    by_cases h : e.1 = k
    · simp [h]
    · simp [h, ih]

/-- Reading a property after writing one. -/
theorem get_set (o : Obj) (k k' : String) (v : JVal) :
    (o.set k v).get k' = if k' = k then some v else o.get k' := by
  unfold Obj.set
  split
  · rename_i hhas
    induction o with
    | nil => simp [Obj.has] at hhas
    | cons e o ih =>
      rw [List.map_cons, get_cons, get_cons]
      by_cases he : e.1 = k
      · by_cases hk : k' = k
        · simp [he, hk]
        · have : ¬ k = k' := fun h => hk h.symm
          simp only [he, beq_self_eq_true, if_true, this, if_false, hk]
          by_cases ho : Obj.has o k = true
          · simpa [hk] using ih ho
          · have hmap : o.map (fun e => if (e.1 == k) = true then (e.1, v) else e) = o := by
              have : ∀ x ∈ o, ¬ x.1 = k := by
                intro x hx hxk
                apply ho
                simp only [Obj.has, List.any_eq_true]
                exact ⟨x, hx, by simpa using hxk⟩
              conv_rhs => rw [← List.map_id o]
              apply List.map_congr_left
              intro x hx
              simp [this x hx]
            rw [hmap]
      · have ho : Obj.has o k = true := by
          simpa [Obj.has, he] using hhas
        have he' : (e.1 == k) = false := by simpa using he
        simp only [he', Bool.false_eq_true, if_false]
        rw [ih ho]
        by_cases hk : k' = k
        · have : ¬ e.1 = k' := fun h => he (h.trans hk)
          simp [hk, he]
        · simp [hk]
  · rename_i hhas
    rw [get_append, get_cons, get_nil]
    have hnone : Obj.get o k = none := by
      have := has_eq_isSome o k
      cases h : Obj.get o k with
      | none => rfl
      | some x => rw [h] at this; simp [this] at hhas
    by_cases hk : k' = k
    · subst hk; simp [hnone]
    · have : ¬ k = k' := fun h => hk h.symm
      simp only [this, hk, if_false]
      cases Obj.get o k' <;> rfl

theorem get_map_val (a : Obj) (F : String → JVal → JVal) (k : String) :
    Obj.get (a.map (fun e => (e.1, F e.1 e.2))) k = (Obj.get a k).map (F k) := by
  induction a with
  | nil => rfl
  | cons e a ih =>
    rw [List.map_cons, get_cons, get_cons]
    by_cases h : e.1 = k
    · simp [h]
    · simp [h, ih]

theorem get_filter_new (a b : Obj) (k : String) :
    Obj.get (b.filter (fun e => !Obj.has a e.1)) k
      = if Obj.has a k = true then none else Obj.get b k := by
  induction b with
  | nil => simp [get_nil]
  | cons e b ih =>
    rw [List.filter_cons]
    by_cases hk : e.1 = k
    · by_cases ha : Obj.has a k = true
      · have : Obj.has a e.1 = true := by rw [hk]; exact ha
        simp only [this, Bool.not_true, Bool.false_eq_true, if_false, ih, ha, if_true]
      · have : Obj.has a e.1 = false := by rw [hk]; simpa using ha
        simp only [this, Bool.not_false, if_true, get_cons, hk, ha]
        simp
    · by_cases he : Obj.has a e.1 = true
      · simp only [he, Bool.not_true, Bool.false_eq_true, if_false, ih, get_cons, hk]
      · have : Obj.has a e.1 = false := by simpa using he
        simp only [this, Bool.not_false, if_true, get_cons, hk, if_false, ih]

/-- Reading a property of an object spread: the value of the second object
when it has the property, the value of the first one otherwise. -/
theorem get_spread (a b : Obj) (k : String) :
    (spread a b).get k = (match b.get k with
      | some v => some v
      | none => a.get k) := by
  unfold spread
  rw [get_append, get_map_val a (fun k v => (Obj.get b k).getD v), get_filter_new,
    has_eq_isSome]
  cases ha : Obj.get a k <;> cases hb : Obj.get b k <;> simp

/-! ## Theorems: task handlers -/

/-- Strict inequality with a string. -/
theorem strictEq_str_false_iff (x : Option JVal) (s : String) :
    strictEq x (some (.str s)) = false ↔ x ≠ some (.str s) := by
  rw [ne_eq, ← strictEq_str_iff, Bool.not_eq_true]

/-- Every element on the right of a pointwise relation has a partner on the
left. -/
theorem forall₂_mem_right {α β : Type} {R : α → β → Prop} {l : List α} {l' : List β}
    (h : List.Forall₂ R l l') : ∀ b ∈ l', ∃ a ∈ l, R a b := by
  induction h with
  | nil => intro b hb; simp at hb
  | cons hab _ ih =>
    intro b hb
    rcases List.mem_cons.mp hb with h | h
    · subst h
      exact ⟨_, List.mem_cons_self _ _, hab⟩
    · obtain ⟨a, ha, h2⟩ := ih b h
      exact ⟨a, List.mem_cons_of_mem _ ha, h2⟩

/-- The pruning loop succeeds on tasks that all carry a dependencies array,
and relates each task to its pruned copy. -/
theorem pruneAll_spec (T : String) (l : List Task)
    (hdeps : ∀ t ∈ l, ∃ ds, t.get "dependencies" = some (.arr ds)) :
    ∃ l', pruneAll T l = some l' ∧
      List.Forall₂ (fun t t' =>
        (∀ k, k ≠ "dependencies" → t'.get k = t.get k) ∧
        ∃ ds, t.get "dependencies" = some (.arr ds) ∧
          t'.get "dependencies" = some (.arr (ds.filter (fun d => decide (d ≠ .str T))))) l l' := by
  induction l with
  | nil => exact ⟨[], rfl, List.Forall₂.nil⟩
  | cons t l ih =>
    obtain ⟨ds, hds⟩ := hdeps t (List.mem_cons_self t l)
    obtain ⟨l', hl', hrel⟩ := ih (fun x hx => hdeps x (List.mem_cons_of_mem t hx))
    have hfilter : ds.filter (fun d => !strictEq (some d) (some (.str T)))
        = ds.filter (fun d => decide (d ≠ .str T)) := by
      congr 1
      funext d
      by_cases hd : d = .str T
      · simp [hd, strictEq]
      · have : strictEq (some d) (some (.str T)) = false := by
          rw [Bool.eq_false_iff, ne_eq, strictEq_str_iff]
          simpa using hd
        simp [this, hd]
    refine ⟨Obj.set t "dependencies"
        (.arr (ds.filter (fun d => !strictEq (some d) (some (.str T))))) :: l', ?_,
      List.Forall₂.cons ⟨?_, ds, hds, ?_⟩ hrel⟩
    · simp only [pruneAll, pruneDependencies, hds, hl']
    · intro k hk
      rw [get_set]
      simp [hk]
    · rw [get_set, hfilter]
      simp

/-- The cascade on collections whose tasks all carry a dependencies array:
when the collection contains a task with id `T`, `DELETE /api/tasks/T` answers
204 and leaves
exactly the tasks whose id is not `T` and whose parentId is not `T`, in their
order, each with `T` filtered out of its dependencies and every other field as
it was; afterwards no task has id `T` or parentId `T`, and no dependencies
array contains `T`. -/
theorem deleteTask_cascade (env : Env) (T : String) (s : Store)
    (hmem : ∃ t ∈ s.data.tasks, t.get "id" = some (.str T))
    (hdeps : ∀ t ∈ s.data.tasks, ∃ ds, t.get "dependencies" = some (.arr ds)) :
    (deleteTask env T s).1 = ⟨204, none⟩ ∧
    List.Forall₂ (fun t t' =>
        (∀ k, k ≠ "dependencies" → t'.get k = t.get k) ∧
        ∃ ds, t.get "dependencies" = some (.arr ds) ∧
          t'.get "dependencies" = some (.arr (ds.filter (fun d => decide (d ≠ .str T)))))
      (s.data.tasks.filter (fun t =>
        decide (t.get "id" ≠ some (.str T) ∧ t.get "parentId" ≠ some (.str T))))
      (deleteTask env T s).2.data.tasks ∧
    (∀ t' ∈ (deleteTask env T s).2.data.tasks,
      t'.get "id" ≠ some (.str T) ∧ t'.get "parentId" ≠ some (.str T) ∧
      ∀ ds, t'.get "dependencies" = some (.arr ds) → JVal.str T ∉ ds) := by
  obtain ⟨t0, ht0, hid0⟩ := hmem
  have hfind : ∃ task, s.data.tasks.find? (fun t => strictEq (t.get "id") (some (.str T)))
      = some task := by
    cases h : s.data.tasks.find? (fun t => strictEq (t.get "id") (some (.str T))) with
    | some task => exact ⟨task, rfl⟩
    | none =>
      have := List.find?_eq_none.mp h t0 ht0
      rw [strictEq_str_iff] at this
      exact absurd hid0 this
  obtain ⟨task, htask⟩ := hfind
  have hkeep : s.data.tasks.filter (fun t =>
        !strictEq (t.get "id") (some (.str T)) && !strictEq (t.get "parentId") (some (.str T)))
      = s.data.tasks.filter (fun t =>
        decide (t.get "id" ≠ some (.str T) ∧ t.get "parentId" ≠ some (.str T))) := by
    congr 1
    funext t
    rw [Bool.eq_iff_iff]
    simp [strictEq_str_false_iff]
  obtain ⟨l', hl', hrel⟩ := pruneAll_spec T
    (s.data.tasks.filter (fun t =>
      decide (t.get "id" ≠ some (.str T) ∧ t.get "parentId" ≠ some (.str T))))
    (fun t ht => hdeps t (List.mem_of_mem_filter ht))
  have hres : deleteTask env T s = (⟨204, none⟩,
      { data := { s.data with tasks := l' },
        history := saveToHistory env "delete" s.data.tasks s.history,
        activities := logActivity env (env.uuids 0) "deleted" (some (.str T))
          (task.get "name") (.obj []) s.activities }) := by
    simp only [deleteTask, htask, hkeep, hl']
  rw [hres]
  refine ⟨rfl, hrel, ?_⟩
  intro t' ht'
  have ht'' : t' ∈ l' := ht'
  obtain ⟨t, ht, hfields, ds, _, hds'⟩ := forall₂_mem_right hrel t' ht''
  have hcond := (List.mem_filter.mp ht).2
  simp only [decide_eq_true_eq] at hcond
  refine ⟨?_, ?_, ?_⟩
  · rw [hfields "id" (by decide)]; exact hcond.1
  · rw [hfields "parentId" (by decide)]; exact hcond.2
  · intro ds' hds'' hin
    rw [hds'] at hds''
    injection hds'' with h1
    injection h1 with h2
    rw [← h2] at hin
    simpa using (List.mem_filter.mp hin).2

/-- Deleting `a` from the sample store keeps only `c`, without `a` in its
dependencies. -/
theorem deleteTask_cascade_witness :
    (deleteTask sampleEnv "a" sampleStore).1 = ⟨204, none⟩ ∧
    (deleteTask sampleEnv "a" sampleStore).2.data.tasks
      = [[("id", .str "c"), ("name", .str "other"), ("parentId", .null),
          ("dependencies", .arr [.str "b"])]] :=
  ⟨(deleteTask_cascade sampleEnv "a" sampleStore
      ⟨_, List.mem_cons_self _ _, rfl⟩
      (by
        intro t ht
        simp only [sampleStore, sampleTasks, List.mem_cons, List.mem_singleton,
          List.not_mem_nil, or_false] at ht
        rcases ht with rfl | rfl | rfl <;> exact ⟨_, rfl⟩)).1,
    by decide⟩

/-- C5: a task without a dependencies list breaks the cascade.  Importing the
array `[{"id": "x", "name": "imported"}]` into the sample store answers 200 and
appends the task as it is; the collection then contains the task `a`, and
`DELETE /api/tasks/a` answers 500 and deletes nothing: `a`, its child `b` and
the dependency of `c` on `a` are still there.  The same holds for a collection
stored without dependencies lists. -/
theorem deleteTask_cascade_fails :
    (importHandler sampleEnv (.arr [.obj [("id", .str "x"), ("name", .str "imported")]])
        sampleStore).1
      = ⟨200, some (.obj [("success", .bool true), ("taskCount", .num 4)])⟩ ∧
    (importHandler sampleEnv (.arr [.obj [("id", .str "x"), ("name", .str "imported")]])
        sampleStore).2.data.tasks
      = sampleTasks ++ [[("id", .str "x"), ("name", .str "imported")]] ∧
    (∃ t ∈ (importHandler sampleEnv (.arr [.obj [("id", .str "x"), ("name", .str "imported")]])
        sampleStore).2.data.tasks, Obj.get t "id" = some (.str "a")) ∧
    deleteTask sampleEnv "a"
        (importHandler sampleEnv (.arr [.obj [("id", .str "x"), ("name", .str "imported")]])
          sampleStore).2
      = (⟨500, some (.obj [("error", .str "Failed to delete task")])⟩,
        (importHandler sampleEnv (.arr [.obj [("id", .str "x"), ("name", .str "imported")]])
          sampleStore).2) ∧
    (∃ t ∈ (deleteTask sampleEnv "a"
        (importHandler sampleEnv (.arr [.obj [("id", .str "x"), ("name", .str "imported")]])
          sampleStore).2).2.data.tasks,
      Obj.get t "id" = some (.str "a") ∨ Obj.get t "parentId" = some (.str "a") ∨
      Obj.get t "dependencies" = some (.arr [.str "a", .str "b"])) ∧
    deleteTask sampleEnv "a"
        { sampleStore with data := { sampleStore.data with
            tasks := [[("id", .str "a")], [("id", .str "b")]] } }
      = (⟨500, some (.obj [("error", .str "Failed to delete task")])⟩,
        { sampleStore with data := { sampleStore.data with
            tasks := [[("id", .str "a")], [("id", .str "b")]] } }) := by
  refine ⟨by decide, by decide, ⟨_, List.mem_cons_self _ _, by decide⟩, by decide,
    ⟨_, List.mem_cons_self _ _, Or.inl (by decide)⟩, by decide⟩

/-- The index search on a non-empty collection. -/
theorem findTaskIndex_cons (t : Task) (ts : List Task) (id : Option JVal) :
    findTaskIndex (t :: ts) id
      = if strictEq (t.get "id") id = true then some 0
        else (findTaskIndex ts id).map (fun i => i + 1) := by
  unfold findTaskIndex
  simp only [List.findIdx_cons, List.length_cons]
  by_cases h : strictEq (Obj.get t "id") id = true
  · simp [h]
  · simp only [h, cond_false, Nat.add_lt_add_iff_right, if_false]
    split <;> simp

/-- What a successful index search returns: the first task with the id. -/
theorem findTaskIndex_some (tasks : List Task) (id : Option JVal) (i : Nat)
    (h : findTaskIndex tasks id = some i) :
    ∃ t, tasks[i]? = some t ∧ strictEq (t.get "id") id = true ∧
      ∀ j t', j < i → tasks[j]? = some t' → strictEq (t'.get "id") id = false := by
  induction tasks generalizing i with
  | nil => simp [findTaskIndex] at h
  | cons t ts ih =>
    rw [findTaskIndex_cons] at h
    by_cases ht : strictEq (t.get "id") id = true
    · simp only [ht, if_true, Option.some.injEq] at h
      subst h
      exact ⟨t, by simp, ht, fun j t' hj => absurd hj (Nat.not_lt_zero j)⟩
    · simp only [ht, if_false] at h
      cases hrec : findTaskIndex ts id with
      | none => rw [hrec] at h; simp at h
      | some i' =>
      rw [hrec] at h
      simp only [Option.map_some', Option.some.injEq, Bool.false_eq_true, if_false] at h
      subst h
      obtain ⟨t1, ht1, hid1, hfirst⟩ := ih i' hrec
      refine ⟨t1, by simpa using ht1, hid1, ?_⟩
      intro j t' hj hjt
      cases j with
      | zero =>
        simp only [List.getElem?_cons_zero, Option.some.injEq] at hjt
        subst hjt
        simpa using ht
      | succ j =>
        simp only [List.getElem?_cons_succ] at hjt
        exact hfirst j t' (by omega) hjt

/-- The index search fails exactly when no task has the id. -/
theorem findTaskIndex_none (tasks : List Task) (id : Option JVal) :
    findTaskIndex tasks id = none ↔ ∀ t ∈ tasks, strictEq (t.get "id") id = false := by
  induction tasks with
  | nil => simp [findTaskIndex]
  | cons t ts ih =>
    rw [findTaskIndex_cons]
    by_cases ht : strictEq (t.get "id") id = true
    · simp [ht]
    · simp only [ht, if_false, Option.map_eq_none', List.mem_cons, forall_eq_or_imp]
      simpa [ht] using ih

/-- The changes of an update are put together without a throw when the status
and the progress of the body have a text. -/
theorem updateChanges_isSome (oldTask body : Obj)
    (hstatus : (templateString (Obj.get body "status")).isSome = true)
    (hprogress : (templateString (Obj.get body "progress")).isSome = true) :
    ∃ changes, updateChanges oldTask body = some changes := by
  obtain ⟨a, ha⟩ := Option.isSome_iff_exists.mp hstatus
  obtain ⟨b, hb⟩ := Option.isSome_iff_exists.mp hprogress
  simp only [updateChanges, ha, hb, Option.map_some']
  split_ifs <;> exact ⟨_, rfl⟩

/-- C6: when the collection contains a task with the given id (and the status
and progress of the body, which the handler writes into its log line, have a
text), `PUT /api/tasks/:id` answers 200 with the merged task, which replaces
the first task with that id; the merged task has the value of the body for
every field the body supplies and the prior value for every other field; every
other task, the number of tasks and their order are unchanged. -/
theorem updateTask_merge (env : Env) (id : String) (body : Obj) (s : Store)
    (hmem : ∃ t ∈ s.data.tasks, t.get "id" = some (.str id))
    (hstatus : (templateString (Obj.get body "status")).isSome = true)
    (hprogress : (templateString (Obj.get body "progress")).isSome = true) :
    ∃ (i : Nat) (old merged : Task),
      s.data.tasks[i]? = some old ∧ old.get "id" = some (.str id) ∧
      (∀ j t, j < i → s.data.tasks[j]? = some t → t.get "id" ≠ some (.str id)) ∧
      (updateTask env id body s).1 = ⟨200, some (.obj merged)⟩ ∧
      (updateTask env id body s).2.data.tasks[i]? = some merged ∧
      (∀ k, merged.get k = match body.get k with
        | some v => some v
        | none => old.get k) ∧
      (updateTask env id body s).2.data.tasks.length = s.data.tasks.length ∧
      (∀ j, j ≠ i → (updateTask env id body s).2.data.tasks[j]? = s.data.tasks[j]?) := by
  obtain ⟨t0, ht0, hid0⟩ := hmem
  cases hidx : findTaskIndex s.data.tasks (some (.str id)) with
  | none =>
    have := (findTaskIndex_none _ _).mp hidx t0 ht0
    rw [strictEq_str_false_iff] at this
    exact absurd hid0 this
  | some i =>
    obtain ⟨old, hold, hid, hfirst⟩ := findTaskIndex_some _ _ _ hidx
    have hlt : i < s.data.tasks.length := by
      rcases Nat.lt_or_ge i s.data.tasks.length with h | h
      · exact h
      · rw [List.getElem?_eq_none h] at hold
        exact absurd hold (by simp)
    have hgetD : s.data.tasks.getD i [] = old := by
      simp [hold]
    obtain ⟨changes, hchanges⟩ := updateChanges_isSome old body hstatus hprogress
    refine ⟨i, old, spread old body, hold, (strictEq_str_iff _ _).mp hid, ?_, ?_, ?_, ?_, ?_, ?_⟩
    · intro j t hj hjt
      exact (strictEq_str_false_iff _ _).mp (hfirst j t hj hjt)
    · simp only [updateTask, hidx, hgetD, hchanges]
    · simp only [updateTask, hidx, hgetD, hchanges]
      exact List.getElem?_set_self hlt
    · exact get_spread old body
    · simp only [updateTask, hidx, hgetD, hchanges, List.length_set]
    · intro j hj
      simp only [updateTask, hidx, hgetD, hchanges]
      exact List.getElem?_set_ne (Ne.symm hj)

/-- Updating task `a` of the sample store with a new status keeps its name and
replaces nothing else. -/
theorem updateTask_merge_witness :
    (∃ t ∈ sampleStore.data.tasks, t.get "id" = some (.str "a")) ∧
    ∃ (i : Nat) (old merged : Task),
      sampleStore.data.tasks[i]? = some old ∧ old.get "id" = some (.str "a") ∧
      (∀ j t, j < i → sampleStore.data.tasks[j]? = some t → t.get "id" ≠ some (.str "a")) ∧
      (updateTask sampleEnv "a" [("status", .str "completed")] sampleStore).1
        = ⟨200, some (.obj merged)⟩ ∧
      (updateTask sampleEnv "a" [("status", .str "completed")] sampleStore).2.data.tasks[i]?
        = some merged ∧
      (∀ k, merged.get k = match Obj.get [("status", .str "completed")] k with
        | some v => some v
        | none => old.get k) ∧
      (updateTask sampleEnv "a" [("status", .str "completed")] sampleStore).2.data.tasks.length
        = sampleStore.data.tasks.length ∧
      (∀ j, j ≠ i →
        (updateTask sampleEnv "a" [("status", .str "completed")] sampleStore).2.data.tasks[j]?
          = sampleStore.data.tasks[j]?) :=
  ⟨⟨_, List.mem_cons_self _ _, rfl⟩,
    updateTask_merge sampleEnv "a" [("status", .str "completed")] sampleStore
      ⟨_, List.mem_cons_self _ _, rfl⟩ rfl rfl⟩

/-- C7: for an id that no task has, `PUT /api/tasks/:id` and
`DELETE /api/tasks/:id` answer 404 with `Task not found` and leave the whole
store (tasks, undo stack, redo stack, activity log) as it was. -/
theorem notFound_atomic (env : Env) (id : String) (body : Obj) (s : Store)
    (h : ∀ t ∈ s.data.tasks, t.get "id" ≠ some (.str id)) :
    updateTask env id body s = (⟨404, some (.obj [("error", .str "Task not found")])⟩, s) ∧
    deleteTask env id s = (⟨404, some (.obj [("error", .str "Task not found")])⟩, s) := by
  have hfalse : ∀ t ∈ s.data.tasks, strictEq (t.get "id") (some (.str id)) = false :=
    fun t ht => (strictEq_str_false_iff _ _).mpr (h t ht)
  constructor
  · have hidx := (findTaskIndex_none _ _).mpr hfalse
    simp only [updateTask, hidx, errorBody]
  · have hfind : s.data.tasks.find? (fun t => strictEq (t.get "id") (some (.str id))) = none := by
      rw [List.find?_eq_none]
      intro t ht
      simp [hfalse t ht]
    simp only [deleteTask, hfind, errorBody]

/-- Updating or deleting the unknown id `zzz` leaves the sample store as it
was. -/
theorem notFound_atomic_witness :
    updateTask sampleEnv "zzz" [("name", .str "x")] sampleStore
      = (⟨404, some (.obj [("error", .str "Task not found")])⟩, sampleStore) ∧
    deleteTask sampleEnv "zzz" sampleStore
      = (⟨404, some (.obj [("error", .str "Task not found")])⟩, sampleStore) :=
  notFound_atomic sampleEnv "zzz" [("name", .str "x")] sampleStore (by decide)

/-! ## Theorems: batch update -/

/-- One round of the batch loop: the task at the index the search returns is
replaced by its merge with the update, every other task stays. -/
theorem applyUpdate_spec (tasks : List Task) (u : Obj) :
    (applyUpdate tasks u).length = tasks.length ∧
    ∀ (i : Nat) (t : Task), tasks[i]? = some t →
      (applyUpdate tasks u)[i]? = some
        (if findTaskIndex tasks (Obj.get u "id") = some i then spread t u else t) := by
  unfold applyUpdate
  cases hidx : findTaskIndex tasks (Obj.get u "id") with
  | none =>
    refine ⟨rfl, fun i t ht => ?_⟩
    simp [ht]
  | some i0 =>
    refine ⟨by simp, fun i t ht => ?_⟩
    by_cases hi : i0 = i
    · subst hi
      have hlt : i0 < tasks.length := by
        rcases Nat.lt_or_ge i0 tasks.length with h | h
        · exact h
        · rw [List.getElem?_eq_none h] at ht
          exact absurd ht (by simp)
      have hgetD : tasks.getD i0 [] = t := by simp [ht]
      simp only [hgetD, if_true]
      exact List.getElem?_set_self hlt
    · have : ¬ (some i0 = some i) := fun h => hi (Option.some.inj h)
      simp only [this, if_false]
      rw [List.getElem?_set_ne hi]
      exact ht

/-- One round of the batch loop does not change what the id of a task is
strictly equal to. -/
theorem applyUpdate_id (tasks : List Task) (u : Obj) (i : Nat) (t t1 : Task)
    (ht : tasks[i]? = some t) (ht1 : (applyUpdate tasks u)[i]? = some t1) (x : Option JVal) :
    strictEq (Obj.get t1 "id") x = strictEq (Obj.get t "id") x := by
  rw [(applyUpdate_spec tasks u).2 i t ht] at ht1
  injection ht1 with ht1
  by_cases hidx : findTaskIndex tasks (Obj.get u "id") = some i
  · obtain ⟨t', ht', hid, _⟩ := findTaskIndex_some _ _ _ hidx
    rw [ht] at ht'
    injection ht' with ht'
    subst ht'
    simp only [hidx, if_true] at ht1
    subst ht1
    rw [get_spread]
    cases hu : Obj.get u "id" with
    | none => rfl
    | some v =>
      rw [hu] at hid
      simp only
      rw [strictEq_comm] at hid
      exact strictEq_congr _ _ x hid
  · simp only [hidx, if_false] at ht1
    subst ht1
    rfl

/-- The batch loop: a task that is not the first one with its id stays as it
was, and the first task with an id receives, in list order, the updates whose
id is strictly equal to its own. -/
theorem foldl_applyUpdate_spec (updates : List Obj) :
    ∀ (tasks : List Task),
      (updates.foldl applyUpdate tasks).length = tasks.length ∧
      ∀ (i : Nat) (t : Task), tasks[i]? = some t →
        ((∃ (j : Nat) (t' : Task), j < i ∧ tasks[j]? = some t' ∧
            strictEq (Obj.get t' "id") (Obj.get t "id") = true) →
          (updates.foldl applyUpdate tasks)[i]? = some t) ∧
        ((¬ ∃ (j : Nat) (t' : Task), j < i ∧ tasks[j]? = some t' ∧
            strictEq (Obj.get t' "id") (Obj.get t "id") = true) →
          (updates.foldl applyUpdate tasks)[i]? = some
            ((updates.filter (fun u => strictEq (Obj.get t "id") (Obj.get u "id"))).foldl
              spread t)) := by
  induction updates with
  | nil =>
    intro tasks
    exact ⟨rfl, fun i t ht => ⟨fun _ => ht, fun _ => ht⟩⟩
  | cons u us ih =>
    intro tasks
    obtain ⟨hlen1, hspec1⟩ := applyUpdate_spec tasks u
    obtain ⟨hlen, hrec⟩ := ih (applyUpdate tasks u)
    refine ⟨by rw [List.foldl_cons, hlen, hlen1], fun i t ht => ?_⟩
    have ht1 := hspec1 i t ht
    have hid1 : ∀ x, strictEq (Obj.get
        (if findTaskIndex tasks (Obj.get u "id") = some i then spread t u else t) "id") x
        = strictEq (Obj.get t "id") x :=
      fun x => applyUpdate_id tasks u i t _ ht ht1 x
    -- the condition "an earlier task has the same id" is the same before and after the round
    have hcond : (∃ (j : Nat) (t' : Task), j < i ∧ (applyUpdate tasks u)[j]? = some t' ∧
          strictEq (Obj.get t' "id") (Obj.get
            (if findTaskIndex tasks (Obj.get u "id") = some i then spread t u else t) "id") = true)
        ↔ (∃ (j : Nat) (t' : Task), j < i ∧ tasks[j]? = some t' ∧
          strictEq (Obj.get t' "id") (Obj.get t "id") = true) := by
      constructor
      · rintro ⟨j, t', hj, hjt, hjid⟩
        have hjlt : j < tasks.length := by
          rcases Nat.lt_or_ge j tasks.length with h | h
          · exact h
          · rw [List.getElem?_eq_none (by rw [hlen1]; exact h)] at hjt
            exact absurd hjt (by simp)
        refine ⟨j, tasks[j], hj, List.getElem?_eq_getElem hjlt, ?_⟩
        have h1 := applyUpdate_id tasks u j tasks[j] t' (List.getElem?_eq_getElem hjlt) hjt
        rw [← h1, strictEq_comm, ← hid1, strictEq_comm]
        exact hjid
      · rintro ⟨j, t', hj, hjt, hjid⟩
        refine ⟨j, _, hj, hspec1 j t' hjt, ?_⟩
        have h1 := applyUpdate_id tasks u j t' _ hjt (hspec1 j t' hjt)
        rw [h1, strictEq_comm, hid1, strictEq_comm]
        exact hjid
    obtain ⟨hA, hB⟩ := hrec i _ ht1
    constructor
    · intro hex
      have hne : findTaskIndex tasks (Obj.get u "id") ≠ some i := by
        intro hidx
        obtain ⟨t0, ht0, hid0, hfirst⟩ := findTaskIndex_some _ _ _ hidx
        rw [ht] at ht0
        injection ht0 with ht0
        subst ht0
        obtain ⟨j, t', hj, hjt, hjid⟩ := hex
        have := hfirst j t' hj hjt
        rw [strictEq_congr _ _ _ hjid, hid0] at this
        exact absurd this (by simp)
      have := hA (hcond.mpr hex)
      simpa only [List.foldl_cons, hne, if_false] using this
    · intro hnex
      have hres := hB (fun h => hnex (hcond.mp h))
      rw [List.foldl_cons, hres]
      congr 1
      have hfilt : (us.filter (fun u' => strictEq (Obj.get
            (if findTaskIndex tasks (Obj.get u "id") = some i then spread t u else t) "id")
            (Obj.get u' "id")))
          = us.filter (fun u' => strictEq (Obj.get t "id") (Obj.get u' "id")) := by
        congr 1
        funext u'
        exact hid1 _
      rw [hfilt, List.filter_cons]
      by_cases hm : strictEq (Obj.get t "id") (Obj.get u "id") = true
      · have hidx : findTaskIndex tasks (Obj.get u "id") = some i := by
          cases hf : findTaskIndex tasks (Obj.get u "id") with
          | none =>
            have hlt : i < tasks.length := by
              rcases Nat.lt_or_ge i tasks.length with h | h
              · exact h
              · rw [List.getElem?_eq_none h] at ht
                exact absurd ht (by simp)
            have := (findTaskIndex_none _ _).mp hf t (List.getElem?_mem ht)
            rw [hm] at this
            exact absurd this (by simp)
          | some i0 =>
            obtain ⟨t0, ht0, hid0, hfirst⟩ := findTaskIndex_some _ _ _ hf
            rcases Nat.lt_trichotomy i0 i with h | h | h
            · exfalso
              apply hnex
              refine ⟨i0, t0, h, ht0, ?_⟩
              rw [strictEq_congr _ _ _ hid0, strictEq_comm]
              exact hm
            · rw [h]
            · have := hfirst i t h ht
              rw [hm] at this
              exact absurd this (by simp)
        simp only [hidx, if_true, hm, List.foldl_cons]
      · have hidx : findTaskIndex tasks (Obj.get u "id") ≠ some i := by
          intro hidx
          obtain ⟨t0, ht0, hid0, _⟩ := findTaskIndex_some _ _ _ hidx
          rw [ht] at ht0
          injection ht0 with ht0
          subst ht0
          exact hm hid0
        simp only [hidx, if_false, hm, Bool.false_eq_true]

/-- C8: the batch update answers 200 with the whole collection; the number and
order of tasks are unchanged; an update whose id matches no task leaves the
collection as it is; the first task with an id receives, in list order, the
merge of every update carrying that id, and every other task (one that no
update mentions in particular) is unchanged. -/
theorem batchUpdate_spec (env : Env) (updates : List Obj) (s : Store) :
    (batchUpdate env updates s).1
      = ⟨200, some (tasksJson (batchUpdate env updates s).2.data.tasks)⟩ ∧
    (batchUpdate env updates s).2.data.tasks.length = s.data.tasks.length ∧
    (∀ (tasks : List Task) (u : Obj),
      (∀ t ∈ tasks, strictEq (Obj.get t "id") (Obj.get u "id") = false) →
      applyUpdate tasks u = tasks) ∧
    (∀ (i : Nat) (t : Task), s.data.tasks[i]? = some t →
      ((∃ (j : Nat) (t' : Task), j < i ∧ s.data.tasks[j]? = some t' ∧
          strictEq (Obj.get t' "id") (Obj.get t "id") = true) →
        (batchUpdate env updates s).2.data.tasks[i]? = some t) ∧
      ((¬ ∃ (j : Nat) (t' : Task), j < i ∧ s.data.tasks[j]? = some t' ∧
          strictEq (Obj.get t' "id") (Obj.get t "id") = true) →
        (batchUpdate env updates s).2.data.tasks[i]? = some
          ((updates.filter (fun u => strictEq (Obj.get t "id") (Obj.get u "id"))).foldl
            spread t)) ∧
      ((∀ u ∈ updates, strictEq (Obj.get t "id") (Obj.get u "id") = false) →
        (batchUpdate env updates s).2.data.tasks[i]? = some t)) := by
  obtain ⟨hlen, hspec⟩ := foldl_applyUpdate_spec updates s.data.tasks
  refine ⟨rfl, hlen, ?_, fun i t ht => ⟨(hspec i t ht).1, (hspec i t ht).2, ?_⟩⟩
  · intro tasks u hnone
    simp only [applyUpdate, (findTaskIndex_none tasks _).mpr hnone]
  · intro hnone
    by_cases hex : ∃ (j : Nat) (t' : Task), j < i ∧ s.data.tasks[j]? = some t' ∧
        strictEq (Obj.get t' "id") (Obj.get t "id") = true
    · exact (hspec i t ht).1 hex
    · have hfil : updates.filter (fun u => strictEq (Obj.get t "id") (Obj.get u "id")) = [] := by
        rw [List.filter_eq_nil_iff]
        intro u hu
        simp [hnone u hu]
      have := (hspec i t ht).2 hex
      rw [hfil] at this
      exact this

/-! ## Theorems: undo and redo -/

/-- C9: with an empty undo stack, undo answers 400 `Nothing to undo` and
changes nothing; otherwise it removes the top entry `e`, pushes on the redo
stack an entry with the action of `e` and the current tasks, makes the snapshot
of `e` the task collection and returns it with `canUndo` telling whether the
undo stack is still non-empty and `canRedo = true`.  Redo does the same with
the two stacks exchanged. -/
theorem undo_redo_spec (env : Env) (s : Store) :
    (s.history.undoStack = [] →
      undo env s = (⟨400, some (.obj [("error", .str "Nothing to undo")])⟩, s)) ∧
    (∀ (older : List HistoryEntry) (e : HistoryEntry), s.history.undoStack = older ++ [e] →
      undo env s =
        (⟨200, some (.obj [("tasks", tasksJson e.state),
            ("canUndo", .bool (decide (older ≠ []))), ("canRedo", .bool true)])⟩,
          { data := { s.data with tasks := e.state },
            history := { undoStack := older,
                         redoStack := s.history.redoStack ++ [⟨e.action, s.data.tasks, env.now⟩] },
            activities := s.activities })) ∧
    (s.history.redoStack = [] →
      redo env s = (⟨400, some (.obj [("error", .str "Nothing to redo")])⟩, s)) ∧
    (∀ (older : List HistoryEntry) (e : HistoryEntry), s.history.redoStack = older ++ [e] →
      redo env s =
        (⟨200, some (.obj [("tasks", tasksJson e.state),
            ("canUndo", .bool true), ("canRedo", .bool (decide (older ≠ [])))])⟩,
          { data := { s.data with tasks := e.state },
            history := { undoStack := s.history.undoStack ++ [⟨e.action, s.data.tasks, env.now⟩],
                         redoStack := older },
            activities := s.activities })) := by
  have hpos : ∀ l : List HistoryEntry, decide (l.length > 0) = decide (l ≠ []) := by
    intro l
    cases l <;> simp
  refine ⟨?_, ?_, ?_, ?_⟩
  · intro h
    simp only [undo, h, List.getLast?_nil, errorBody]
  · intro older e h
    simp only [undo, h, List.getLast?_concat, List.dropLast_concat, historyBody, hpos]
    simp
  · intro h
    simp only [redo, h, List.getLast?_nil, errorBody]
  · intro older e h
    simp only [redo, h, List.getLast?_concat, List.dropLast_concat, historyBody, hpos]
    simp

/-! ## Theorems: mutation, undo, redo -/

/-- The entry `saveToHistory` pushes is on top of the undo stack. -/
theorem saveToHistory_top (env : Env) (action : String) (previousState : List Task)
    (history : History) :
    ∃ older, (saveToHistory env action previousState history).undoStack
        = older ++ [⟨action, previousState, env.now⟩] ∧
      (saveToHistory env action previousState history).redoStack = [] := by
  unfold saveToHistory
  simp only [and_true]
  split
  · rename_i hlen
    cases hu : history.undoStack with
    | nil => rw [hu] at hlen; simp at hlen
    | cons x xs => exact ⟨xs, rfl⟩
  · exact ⟨history.undoStack, rfl⟩

/-- Undo on a non-empty undo stack. -/
theorem undo_top (env : Env) (s : Store) (older : List HistoryEntry) (e : HistoryEntry)
    (h : s.history.undoStack = older ++ [e]) :
    (undo env s).1.status = 200 ∧
    (undo env s).2 =
      { data := { s.data with tasks := e.state },
        history := { undoStack := older,
                     redoStack := s.history.redoStack ++ [⟨e.action, s.data.tasks, env.now⟩] },
        activities := s.activities } := by
  simp only [undo, h, List.getLast?_concat, List.dropLast_concat, and_self]

/-- Redo on a non-empty redo stack. -/
theorem redo_top (env : Env) (s : Store) (older : List HistoryEntry) (e : HistoryEntry)
    (h : s.history.redoStack = older ++ [e]) :
    (redo env s).1.status = 200 ∧
    (redo env s).2 =
      { data := { s.data with tasks := e.state },
        history := { undoStack := s.history.undoStack ++ [⟨e.action, s.data.tasks, env.now⟩],
                     redoStack := older },
        activities := s.activities } := by
  simp only [redo, h, List.getLast?_concat, List.dropLast_concat, and_self]

/-- Undo right after a recorded mutation restores the tasks of before the
mutation, and redo right after that undo restores the tasks of after it. -/
theorem undo_redo_after_save (env1 env2 env3 : Env) (action : String) (s s1 : Store)
    (hh : s1.history = saveToHistory env1 action s.data.tasks s.history) :
    (undo env2 s1).1.status = 200 ∧ (undo env2 s1).2.data.tasks = s.data.tasks ∧
    (redo env3 (undo env2 s1).2).1.status = 200 ∧
    (redo env3 (undo env2 s1).2).2.data.tasks = s1.data.tasks := by
  obtain ⟨older, hundo, hredo⟩ := saveToHistory_top env1 action s.data.tasks s.history
  rw [← hh] at hundo hredo
  obtain ⟨hu1, hu2⟩ := undo_top env2 s1 older _ hundo
  rw [hu2]
  refine ⟨hu1, rfl, ?_⟩
  obtain ⟨hr1, hr2⟩ := redo_top env3
    { data := { s1.data with tasks := s.data.tasks },
      history := { undoStack := older,
                   redoStack := s1.history.redoStack ++ [⟨action, s1.data.tasks, env2.now⟩] },
      activities := s1.activities } [] ⟨action, s1.data.tasks, env2.now⟩
    (by simp [hredo])
  simp only at hr1 hr2 ⊢
  rw [hr2]
  exact ⟨hr1, rfl⟩

/-- A create that answers 201 appended one task, whose id is the generated
one, recorded the tasks of before in the history and answered the new task. -/
theorem createTask_created (env : Env) (body : Obj) (s : Store)
    (h : (createTask env body s).1.status = 201) :
    ∃ newTask : Task,
      createTask env body s
        = (⟨201, some (.obj newTask)⟩,
            { data := { s.data with tasks := s.data.tasks ++ [newTask] },
              history := saveToHistory env "create" s.data.tasks s.history,
              activities := logActivity env (env.uuids 1) "created" (Obj.get newTask "id")
                (Obj.get newTask "name") (.obj []) s.activities }) ∧
      Obj.get newTask "id" = some (.str (env.uuids 0)) := by
  simp only [createTask] at h ⊢
  split at h
  · exact ⟨_, rfl, rfl⟩
  · simp at h

/-- C10: undo right after a create leaves the task collection of before the
create, and redo right after that undo leaves the collection of after the
create, whose last task is the created one, with the id and the fields the
create answered.  The same round trip holds after every update, batch update,
delete and import that succeeded (and so was recorded). -/
theorem mutation_undo_redo_roundtrip (env env2 env3 : Env) (s : Store) :
    (∀ body : Obj, (createTask env body s).1.status = 201 → ∃ newTask : Task,
      (createTask env body s).1 = ⟨201, some (.obj newTask)⟩ ∧
      Obj.get newTask "id" = some (.str (env.uuids 0)) ∧
      (createTask env body s).2.data.tasks = s.data.tasks ++ [newTask] ∧
      (undo env2 (createTask env body s).2).2.data.tasks = s.data.tasks ∧
      (redo env3 (undo env2 (createTask env body s).2).2).2.data.tasks
        = s.data.tasks ++ [newTask] ∧
      UndoRedoRoundTrip env2 env3 s (createTask env body s).2) ∧
    (∀ (id : String) (body : Obj), (updateTask env id body s).1.status = 200 →
      UndoRedoRoundTrip env2 env3 s (updateTask env id body s).2) ∧
    (∀ updates : List Obj, UndoRedoRoundTrip env2 env3 s (batchUpdate env updates s).2) ∧
    (∀ id : String, (deleteTask env id s).1.status = 204 →
      UndoRedoRoundTrip env2 env3 s (deleteTask env id s).2) ∧
    (∀ importData : JVal, (importHandler env importData s).1.status = 200 →
      UndoRedoRoundTrip env2 env3 s (importHandler env importData s).2) := by
  refine ⟨?_, ?_, ?_, ?_, ?_⟩
  · intro body hstatus
    obtain ⟨newTask, hres, hid⟩ := createTask_created env body s hstatus
    have hrt := undo_redo_after_save env env2 env3 "create" s (createTask env body s).2
      (by rw [hres])
    refine ⟨newTask, ?_, hid, ?_, hrt.2.1, ?_, hrt⟩
    · rw [hres]
    · rw [hres]
    · rw [hrt.2.2.2, hres]
  · intro id body hstatus
    apply undo_redo_after_save env env2 env3 "update"
    cases hidx : findTaskIndex s.data.tasks (some (.str id)) with
    | none => simp [updateTask, hidx] at hstatus
    | some i =>
      simp only [updateTask, hidx]
      split <;> rfl
  · intro updates
    exact undo_redo_after_save env env2 env3 "batch_update" s _ rfl
  · intro id hstatus
    apply undo_redo_after_save env env2 env3 "delete"
    cases hfind : s.data.tasks.find? (fun t => strictEq (t.get "id") (some (.str id))) with
    | none => simp [deleteTask, hfind] at hstatus
    | some task =>
      cases hprune : pruneAll id (s.data.tasks.filter (fun t =>
          !strictEq (t.get "id") (some (.str id)) &&
            !strictEq (t.get "parentId") (some (.str id)))) with
      | none => simp [deleteTask, hfind, hprune] at hstatus
      | some tasks => simp only [deleteTask, hfind, hprune]
  · intro importData hstatus
    apply undo_redo_after_save env env2 env3 "import"
    cases himp : importedData env importData s.data with
    | none => simp [importHandler, himp] at hstatus
    | some data => simp only [importHandler, himp]

/-- Creating the task "urgent bug fix" in the sample store, then undo, then
redo: the created task is gone after the undo and back, with the same id and
fields, after the redo. -/
theorem create_undo_redo_example :
    (createTask sampleEnv [("name", .str "urgent bug fix")] sampleStore).2.data.tasks
      = sampleTasks ++
        [[("id", .str "uuid-0"), ("name", .str "urgent bug fix"), ("start", .str "2024-05-01"),
          ("end", .str "2024-05-08"), ("progress", .num 0), ("type", .str "task"),
          ("status", .str "not_started"), ("priority", .str "critical"),
          ("category", .str "development"), ("dependencies", .arr []),
          ("color", .str "#4A90D9"), ("projectId", .str "default"), ("parentId", .null),
          ("description", .str ""), ("assignee", .str ""),
          ("tags", .arr [.str "bug", .str "urgent"]), ("estimatedHours", .num 8),
          ("actualHours", .num 0), ("recurring", .null), ("dueReminder", .bool true)]] ∧
    (undo sampleEnv
      (createTask sampleEnv [("name", .str "urgent bug fix")] sampleStore).2).2.data.tasks
      = sampleTasks ∧
    (redo sampleEnv (undo sampleEnv
      (createTask sampleEnv [("name", .str "urgent bug fix")] sampleStore).2).2).2.data.tasks
      = (createTask sampleEnv [("name", .str "urgent bug fix")] sampleStore).2.data.tasks := by
  decide

/-! ## Theorems: history capacity -/

/-- What `saveToHistory` leaves: the pushed stack without its first entry when
it exceeds 50, and an empty redo stack. -/
theorem saveToHistory_stacks (env : Env) (action : String) (previousState : List Task)
    (history : History) :
    (saveToHistory env action previousState history).undoStack
      = (if history.undoStack.length + 1 > 50
          then (history.undoStack ++ [(⟨action, previousState, env.now⟩ : HistoryEntry)]).tail
          else history.undoStack ++ [(⟨action, previousState, env.now⟩ : HistoryEntry)]) ∧
    (saveToHistory env action previousState history).redoStack = [] := by
  simp [saveToHistory]

/-- Recording keeps the undo stack within 50 entries when it was. -/
theorem saveToHistory_length (env : Env) (action : String) (previousState : List Task)
    (history : History) (h : history.undoStack.length ≤ 50) :
    (saveToHistory env action previousState history).undoStack.length ≤ 50 := by
  rw [(saveToHistory_stacks env action previousState history).1]
  split
  · simp only [List.length_tail, List.length_append, List.length_singleton]
    omega
  · simp only [List.length_append, List.length_singleton]
    omega

/-- Undo moves one entry from the undo stack to the redo stack, or leaves the
history as it is. -/
theorem undo_lengths (env : Env) (s : Store) :
    (undo env s).2.history.undoStack.length + (undo env s).2.history.redoStack.length
      = s.history.undoStack.length + s.history.redoStack.length := by
  rcases List.eq_nil_or_concat s.history.undoStack with h | ⟨older, e, h⟩
  · simp [undo, h]
  · rw [List.concat_eq_append] at h
    rw [(undo_top env s older e h).2, h]
    simp only [List.length_append, List.length_singleton]
    omega

/-- Redo moves one entry from the redo stack to the undo stack, or leaves the
history as it is. -/
theorem redo_lengths (env : Env) (s : Store) :
    (redo env s).2.history.undoStack.length + (redo env s).2.history.redoStack.length
      = s.history.undoStack.length + s.history.redoStack.length := by
  rcases List.eq_nil_or_concat s.history.redoStack with h | ⟨older, e, h⟩
  · simp [redo, h]
  · rw [List.concat_eq_append] at h
    rw [(redo_top env s older e h).2, h]
    simp only [List.length_append, List.length_singleton]
    omega

/-- C11: in every state reached from an empty history by a sequence of
recorded mutations, undo requests and redo requests, the undo stack and the
redo stack have at most 50 entries each; their lengths even sum to at most 50,
which is the invariant that covers the untrimmed push of redo. -/
theorem history_capacity (data : Data) (activities : List ActivityEntry)
    (steps : List HistoryStep) :
    (steps.foldl HistoryStep.run
      { data := data, history := { undoStack := [], redoStack := [] },
        activities := activities }).history.undoStack.length ≤ 50 ∧
    (steps.foldl HistoryStep.run
      { data := data, history := { undoStack := [], redoStack := [] },
        activities := activities }).history.redoStack.length ≤ 50 ∧
    (steps.foldl HistoryStep.run
      { data := data, history := { undoStack := [], redoStack := [] },
        activities := activities }).history.undoStack.length +
    (steps.foldl HistoryStep.run
      { data := data, history := { undoStack := [], redoStack := [] },
        activities := activities }).history.redoStack.length ≤ 50 := by
  have key : ∀ (steps : List HistoryStep) (s : Store),
      s.history.undoStack.length + s.history.redoStack.length ≤ 50 →
      (steps.foldl HistoryStep.run s).history.undoStack.length +
        (steps.foldl HistoryStep.run s).history.redoStack.length ≤ 50 := by
    intro steps
    induction steps with
    | nil => intro s hs; exact hs
    | cons step steps ih =>
      intro s hs
      rw [List.foldl_cons]
      apply ih
      cases step with
      | record env action previousState tasks =>
        have h1 := saveToHistory_length env action previousState s.history (by omega)
        have h2 := (saveToHistory_stacks env action previousState s.history).2
        simp only [HistoryStep.run, h2, List.length_nil]
        omega
      | undo env =>
        simp only [HistoryStep.run]
        rw [undo_lengths]
        exact hs
      | redo env =>
        simp only [HistoryStep.run]
        rw [redo_lengths]
        exact hs
  have := key steps
    { data := data, history := { undoStack := [], redoStack := [] }, activities := activities }
    (by simp)
  omega

/-- The last 50 entries of a pushed stack: the pushed stack itself below 50
entries, and the stack without its first entry at 50. -/
theorem push_trim {α : Type} (stack : List α) (e : α) (h : stack.length ≤ 50) :
    (if (stack ++ [e]).length > 50 then (stack ++ [e]).tail else stack ++ [e])
      = (stack ++ [e]).drop ((stack ++ [e]).length - 50) := by
  simp only [List.length_append, List.length_singleton]
  split
  · have : stack.length + 1 - 50 = 1 := by omega
    rw [this, List.drop_one]
  · have : stack.length + 1 - 50 = 0 := by omega
    rw [this, List.drop_zero]

/-- The stack after `n` pushes with trimming, from the empty stack. -/
theorem push_trim_iterate {α : Type} (entry : Nat → α) (n : Nat) :
    (List.range n).foldl
        (fun (stack : List α) i =>
          if (stack ++ [entry i]).length > 50 then (stack ++ [entry i]).tail
          else stack ++ [entry i]) []
      = ((List.range n).map entry).drop (n - 50) := by
  induction n with
  | zero => rfl
  | succ n ih =>
    rw [List.range_succ, List.foldl_append, List.foldl_cons, List.foldl_nil, ih,
      List.map_append, List.map_singleton]
    have hlen : (((List.range n).map entry).drop (n - 50)).length ≤ 50 := by
      simp only [List.length_drop, List.length_map, List.length_range]
      omega
    rw [push_trim _ _ hlen]
    simp only [List.length_append, List.length_drop, List.length_map, List.length_range,
      List.length_singleton]
    rw [List.drop_append_of_le_length (by simp), List.drop_append_of_le_length (by simp)]
    rw [List.drop_drop]
    congr 2
    try omega

/-- C12: on a history whose undo stack has at most 50 entries, `saveToHistory`
leaves as undo stack the last 50 entries of the old stack followed by the new
entry (a stack of 50 loses its oldest entry, the rest keep their order, the new
entry is on top) and an empty redo stack; after 51 records from the empty
history the stack holds the 2nd to the 51st snapshot in order.  The hosted
variant does the same on its in-memory stacks. -/
theorem saveToHistory_spec (env : Env) (action : String) (previousState : List Task)
    (history : History) (hostedState : JVal) (hosted : HostedStore)
    (h : history.undoStack.length ≤ 50) (hh : hosted.undoStack.length ≤ 50) :
    (saveToHistory env action previousState history).undoStack
      = (history.undoStack ++ [(⟨action, previousState, env.now⟩ : HistoryEntry)]).drop
          ((history.undoStack ++ [(⟨action, previousState, env.now⟩ : HistoryEntry)]).length
            - 50) ∧
    (saveToHistory env action previousState history).redoStack = [] ∧
    (history.undoStack.length = 50 →
      (saveToHistory env action previousState history).undoStack
        = history.undoStack.tail ++ [(⟨action, previousState, env.now⟩ : HistoryEntry)]) ∧
    (saveToHistory env action previousState history).undoStack.getLast?
      = some ⟨action, previousState, env.now⟩ ∧
    (∀ (envs : Nat → Env) (actions : Nat → String) (snapshots : Nat → List Task),
      ((List.range 51).foldl
          (fun hist i => saveToHistory (envs i) (actions i) (snapshots i) hist)
          { undoStack := [], redoStack := [] }).undoStack
        = (List.range' 1 50).map
            (fun i => (⟨actions i, snapshots i, (envs i).now⟩ : HistoryEntry))) ∧
    (hostedSaveToHistory env action hostedState hosted).undoStack
      = (hosted.undoStack ++ [(⟨action, hostedState, env.now⟩ : HostedEntry)]).drop
          ((hosted.undoStack ++ [(⟨action, hostedState, env.now⟩ : HostedEntry)]).length
            - 50) ∧
    (hostedSaveToHistory env action hostedState hosted).redoStack = [] ∧
    (hostedSaveToHistory env action hostedState hosted).rows = hosted.rows := by
  refine ⟨?_, rfl, ?_, ?_, ?_, ?_, rfl, rfl⟩
  · exact push_trim history.undoStack _ h
  · intro h50
    simp only [saveToHistory, List.length_append, List.length_singleton, h50]
    have hne : history.undoStack ≠ [] := by
      intro hnil
      rw [hnil] at h50
      simp at h50
    simp [List.tail_append_of_ne_nil hne]
  · obtain ⟨older, hundo, _⟩ := saveToHistory_top env action previousState history
    rw [hundo, List.getLast?_concat]
  · intro envs actions snapshots
    have hfold : ∀ (l : List Nat) (hist : History),
        (l.foldl (fun hist i => saveToHistory (envs i) (actions i) (snapshots i) hist)
          hist).undoStack
        = l.foldl (fun (stack : List HistoryEntry) i =>
            if (stack ++ [(⟨actions i, snapshots i, (envs i).now⟩ : HistoryEntry)]).length > 50
            then (stack ++ [(⟨actions i, snapshots i, (envs i).now⟩ : HistoryEntry)]).tail
            else stack ++ [(⟨actions i, snapshots i, (envs i).now⟩ : HistoryEntry)])
            hist.undoStack := by
      intro l
      induction l with
      | nil => intro hist; rfl
      | cons i l ih =>
        intro hist
        rw [List.foldl_cons, List.foldl_cons, ih]
        rfl
    rw [hfold, push_trim_iterate (fun i => (⟨actions i, snapshots i, (envs i).now⟩ : HistoryEntry))]
    rfl
  · exact push_trim hosted.undoStack _ hh

/-- Recording on the empty history and on a stack of 50 entries. -/
theorem saveToHistory_spec_witness :
    (saveToHistory sampleEnv "create" [] { undoStack := [], redoStack := [] }).undoStack
      = [⟨"create", [], sampleEnv.now⟩] ∧
    (saveToHistory sampleEnv "create" []
      { undoStack := [], redoStack := [⟨"update", [], sampleEnv.now⟩] }).redoStack = [] :=
  ⟨(saveToHistory_spec sampleEnv "create" [] { undoStack := [], redoStack := [] } .null
      { rows := [], undoStack := [], redoStack := [] } (by decide) (by decide)).1,
   by decide⟩

/-! ## Theorems: redo stack after a mutation -/

/-- Logging two hours on task `a`, and deleting project `p1`, both succeed and
change the stored tasks of a store whose redo stack holds an entry, and the
entry is still there afterwards. -/
theorem redo_survives_logTime :
    (logTime sampleEnv "a" 2 sampleStoreWithRedo).1.status = 200 ∧
    (logTime sampleEnv "a" 2 sampleStoreWithRedo).2.data.tasks
      = [[("id", .str "a"), ("name", .str "parent"), ("projectId", .str "p1"),
          ("actualHours", .num 3)]] ∧
    (logTime sampleEnv "a" 2 sampleStoreWithRedo).2.history.redoStack ≠ [] ∧
    (deleteProject "p1" sampleStoreWithRedo).1.status = 204 ∧
    (deleteProject "p1" sampleStoreWithRedo).2.data.tasks
      = [[("id", .str "a"), ("name", .str "parent"), ("projectId", .str "default"),
          ("actualHours", .num 1)]] ∧
    (deleteProject "p1" sampleStoreWithRedo).2.history.redoStack ≠ [] := by
  decide

/-- C13, as amended: after each successful create, update, batch update, delete
and import the redo stack is empty; log-time and project delete leave the
history, and so the redo stack, as it was. -/
theorem recorded_mutation_clears_redo (env : Env) (s : Store) :
    (∀ body : Obj, (createTask env body s).1.status = 201 →
      (createTask env body s).2.history.redoStack = []) ∧
    (∀ (id : String) (body : Obj), (updateTask env id body s).1.status = 200 →
      (updateTask env id body s).2.history.redoStack = []) ∧
    (∀ updates : List Obj, (batchUpdate env updates s).2.history.redoStack = []) ∧
    (∀ id : String, (deleteTask env id s).1.status = 204 →
      (deleteTask env id s).2.history.redoStack = []) ∧
    (∀ importData : JVal, (importHandler env importData s).1.status = 200 →
      (importHandler env importData s).2.history.redoStack = []) ∧
    (∀ (id : String) (hours : Int), (logTime env id hours s).2.history = s.history) ∧
    (∀ id : String, (deleteProject id s).2.history = s.history) := by
  refine ⟨?_, ?_, ?_, ?_, ?_, ?_, ?_⟩
  · intro body hstatus
    obtain ⟨newTask, hres, _⟩ := createTask_created env body s hstatus
    rw [hres]
    rfl
  · intro id body hstatus
    cases hidx : findTaskIndex s.data.tasks (some (.str id)) with
    | none => simp [updateTask, hidx] at hstatus
    | some i =>
      simp only [updateTask, hidx]
      split <;> rfl
  · intro updates
    rfl
  · intro id hstatus
    cases hfind : s.data.tasks.find? (fun t => strictEq (t.get "id") (some (.str id))) with
    | none => simp [deleteTask, hfind] at hstatus
    | some task =>
      cases hprune : pruneAll id (s.data.tasks.filter (fun t =>
          !strictEq (t.get "id") (some (.str id)) &&
            !strictEq (t.get "parentId") (some (.str id)))) with
      | none => simp [deleteTask, hfind, hprune] at hstatus
      | some tasks =>
        simp only [deleteTask, hfind, hprune]
        rfl
  · intro importData hstatus
    cases himp : importedData env importData s.data with
    | none => simp [importHandler, himp] at hstatus
    | some data =>
      simp only [importHandler, himp]
      rfl
  · intro id hours
    simp only [logTime]
    split
    · rfl
    · split <;> rfl
  · intro id
    simp only [deleteProject]
    split
    · rfl
    · split
      · split <;> rfl
      · rfl

/-! ## Theorems: hosted undo -/

/-- C14: in the hosted variant, undo on a non-empty undo stack answers 200
with the current rows in the wire format, whatever the snapshot of the popped
entry is; the rows are unchanged, the undo stack loses its top entry and the
redo stack gains one entry with the same action name. -/
theorem hostedUndo_spec (env : Env) (rows : List Obj) (older redoStack : List HostedEntry)
    (e : HostedEntry) :
    hostedUndo env { rows := rows, undoStack := older ++ [e], redoStack := redoStack }
      = (⟨200, some (.obj [("tasks", tasksJson (rows.map toFrontendTask)),
            ("canUndo", .bool (decide (older ≠ []))), ("canRedo", .bool true)])⟩,
          { rows := rows, undoStack := older,
            redoStack := redoStack ++
              [⟨e.action, .obj [("tasks", tasksJson (rows.map toFrontendTask))], env.now⟩] }) ∧
    (hostedUndo env { rows := rows, undoStack := older ++ [e], redoStack := redoStack }).2.rows
      = rows ∧
    (hostedUndo env
        { rows := rows, undoStack := older ++ [e], redoStack := redoStack }).2.redoStack.length
      = redoStack.length + 1 ∧
    (hostedUndo env
        { rows := rows, undoStack := older ++ [e], redoStack := redoStack }).2.redoStack.getLast?.map
        HostedEntry.action
      = some e.action := by
  have hpos : ∀ l : List HostedEntry, decide (l.length > 0) = decide (l ≠ []) := by
    intro l
    cases l <;> simp
  have hres : hostedUndo env { rows := rows, undoStack := older ++ [e], redoStack := redoStack }
      = (⟨200, some (.obj [("tasks", tasksJson (rows.map toFrontendTask)),
            ("canUndo", .bool (decide (older ≠ []))), ("canRedo", .bool true)])⟩,
          { rows := rows, undoStack := older,
            redoStack := redoStack ++
              [⟨e.action, .obj [("tasks", tasksJson (rows.map toFrontendTask))], env.now⟩] }) := by
    simp only [hostedUndo, List.getLast?_concat, List.dropLast_concat, hostedHistoryBody, hpos]
    simp
  rw [hres]
  refine ⟨rfl, rfl, ?_, ?_⟩
  · simp
  · simp [List.getLast?_concat]

/-! ## Theorems: suggestion engine -/

/-- The comparison of character sequences is their lexicographic order. -/
theorem charsLess_iff (a b : List Char) : charsLess a b = true ↔ a < b := by
  induction a generalizing b with
  | nil =>
    cases b with
    | nil => simp [charsLess]
    | cons y ys =>
      simp only [charsLess, true_iff]
      exact List.Lex.nil
  | cons x xs ih =>
    cases b with
    | nil => simp [charsLess]
    | cons y ys =>
      simp only [charsLess, Bool.or_eq_true, decide_eq_true_eq, Bool.and_eq_true, beq_iff_eq, ih]
      constructor
      · rintro (h | ⟨rfl, h⟩)
        · exact List.Lex.rel h
        · exact List.Lex.cons h
      · intro h
        cases h with
        | rel h => left; exact h
        | cons h => right; exact ⟨rfl, h⟩

/-- The comparison of two texts is the order of `String`. -/
theorem textLess_iff (a b : String) : textLess a b = true ↔ a < b := by
  rw [String.lt_iff_toList_lt]
  exact charsLess_iff a.data b.data

/-- The overdue filter, when no comparison throws. -/
theorem overdueTasks_eq (endKey today : String) (tasks : List Task)
    (hdef : ∀ t ∈ tasks, (lessThanText (Obj.get t endKey) today).isSome = true) :
    overdueTasks endKey today tasks = some (tasks.filter (fun t =>
      (lessThanText (Obj.get t endKey) today == some true) &&
        !strictEq (Obj.get t "status") (some (.str "completed")))) := by
  induction tasks with
  | nil => rfl
  | cons t rest ih =>
    have ht := hdef t (List.mem_cons_self t rest)
    have ih' := ih (fun x hx => hdef x (List.mem_cons_of_mem t hx))
    obtain ⟨b, hb⟩ := Option.isSome_iff_exists.mp ht
    simp only [overdueTasks, hb, ih', List.filter_cons]
    cases b <;> simp

/-- The alerts of a collection, when no comparison throws, are the specified
ones. -/
theorem alertSuggestions_eq (endKey today : String) (tasks : List Task)
    (hdef : ∀ t ∈ tasks, (lessThanText (Obj.get t endKey) today).isSome = true) :
    alertSuggestions endKey today tasks = some (expectedAlerts endKey today tasks) := by
  simp only [alertSuggestions, overdueTasks_eq endKey today tasks hdef, expectedAlerts]

/-- An alert is absent when nothing matches, and otherwise one entry with the
number and the ids of the matching tasks. -/
theorem alertFor_eq (type title action : String) (message : Nat → String)
    (matching : List Task) :
    (matching = [] → alertFor type title action message matching = []) ∧
    (matching ≠ [] → alertFor type title action message matching =
      [.obj [("type", .str type), ("title", .str title),
        ("message", .str (message matching.length)), ("action", .str action),
        ("tasks", .arr (matching.map (fun t => (Obj.get t "id").getD .null)))]]) := by
  constructor
  · intro h
    simp [alertFor, h]
  · intro h
    have : matching.length > 0 := List.length_pos.mpr h
    simp [alertFor, this]

/-- Every entry of an alert carries the title of the alert. -/
theorem alertFor_title (type title action : String) (message : Nat → String)
    (matching : List Task) :
    ∀ e ∈ alertFor type title action message matching,
      JVal.field e "title" = some (some (.str title)) := by
  intro e he
  unfold alertFor at he
  split at he
  · simp only [List.mem_singleton] at he
    subst he
    rfl
  · simp at he

/-- C15: when no comparison throws, the alert entries of both variants are, in
this order, `Overdue Tasks`, `Due Today`, `Priority Tasks` and `Stalled Tasks`,
each present exactly when a task matches its condition and carrying the ids of
its matching tasks in collection order and their count in its message; the
file-backed output is these entries followed by at most a `Heavy Workload`
entry, the hosted output is these entries when there is one.  A collection
with an overdue uncompleted task yields exactly one `Overdue Tasks` entry,
whose tasks contain the id of that task. -/
theorem suggestion_alerts_spec (today : String) (endsWithinWeek : Option JVal → Bool)
    (tasks : List Task) (rows : List Obj)
    (hend : ∀ t ∈ tasks, (lessThanText (Obj.get t "end") today).isSome = true)
    (hrows : ∀ t ∈ rows, (lessThanText (Obj.get t "end_date") today).isSome = true) :
    (∃ heavy, generateSmartSuggestions today endsWithinWeek tasks
        = some (expectedAlerts "end" today tasks ++ heavy) ∧
      (heavy = [] ∨ ∃ n, heavy = [heavyWorkload n])) ∧
    (expectedAlerts "end_date" today rows ≠ [] →
      generateSmartSuggestionsHosted today rows
        = some (expectedAlerts "end_date" today rows)) ∧
    (∀ (type title action : String) (message : Nat → String) (matching : List Task),
      (matching = [] → alertFor type title action message matching = []) ∧
      (matching ≠ [] → alertFor type title action message matching =
        [.obj [("type", .str type), ("title", .str title),
          ("message", .str (message matching.length)), ("action", .str action),
          ("tasks", .arr (matching.map (fun t => (Obj.get t "id").getD .null)))]])) ∧
    (∀ e : String, lessThanText (some (.str e)) today = some (decide (e < today))) ∧
    (∀ (t : Task) (e : String), t ∈ tasks → Obj.get t "end" = some (.str e) → e < today →
      Obj.get t "status" ≠ some (.str "completed") →
      ∃ (ids : List JVal) (rest : List JVal),
        expectedAlerts "end" today tasks
          = .obj [("type", .str "warning"), ("title", .str "Overdue Tasks"),
              ("message", .str ("You have " ++ toString ids.length ++
                " overdue task(s) that need attention")),
              ("action", .str "filter_overdue"), ("tasks", .arr ids)] :: rest ∧
        (Obj.get t "id").getD .null ∈ ids ∧
        ∀ r ∈ rest, JVal.field r "title" ≠ some (some (.str "Overdue Tasks"))) := by
  refine ⟨?_, ?_, alertFor_eq, ?_, ?_⟩
  · refine ⟨if (tasks.filter (fun t => endsWithinWeek (Obj.get t "end") &&
          !strictEq (Obj.get t "status") (some (.str "completed")))).length > 10
        then [heavyWorkload (tasks.filter (fun t => endsWithinWeek (Obj.get t "end") &&
          !strictEq (Obj.get t "status") (some (.str "completed")))).length] else [], ?_, ?_⟩
    · simp only [generateSmartSuggestions, alertSuggestions_eq "end" today tasks hend]
    · split
      · exact Or.inr ⟨_, rfl⟩
      · exact Or.inl rfl
  · intro hne
    have hlen : ¬ (expectedAlerts "end_date" today rows).length = 0 := by
      intro h
      exact hne (List.length_eq_zero.mp h)
    simp only [generateSmartSuggestionsHosted, alertSuggestions_eq "end_date" today rows hrows,
      hlen, if_false]
  · intro e
    simp only [lessThanText, Option.some.injEq]
    rw [Bool.eq_iff_iff, textLess_iff]
    simp
  · intro t e ht hte hlt hstatus
    have hmem : t ∈ tasks.filter (fun t =>
        (lessThanText (Obj.get t "end") today == some true) &&
          !strictEq (Obj.get t "status") (some (.str "completed"))) := by
      rw [List.mem_filter]
      refine ⟨ht, ?_⟩
      have h1 : lessThanText (Obj.get t "end") today = some true := by
        rw [hte]
        simp only [lessThanText, Option.some.injEq]
        exact (textLess_iff e today).mpr hlt
      have h2 : strictEq (Obj.get t "status") (some (.str "completed")) = false :=
        (strictEq_str_false_iff _ _).mpr hstatus
      simp [h1, h2]
    have hne : tasks.filter (fun t =>
        (lessThanText (Obj.get t "end") today == some true) &&
          !strictEq (Obj.get t "status") (some (.str "completed"))) ≠ [] :=
      List.ne_nil_of_mem hmem
    refine ⟨_,
      alertFor "info" "Due Today" "filter_today"
        (fun n => toString n ++ " task(s) are due today")
        (tasks.filter (fun t =>
          strictEq (Obj.get t "end") (some (.str today)) &&
            !strictEq (Obj.get t "status") (some (.str "completed")))) ++
      alertFor "suggestion" "Priority Tasks" "filter_priority"
        (fun n => toString n ++ " high priority task(s) haven't been started")
        (tasks.filter (fun t =>
          (strictEq (Obj.get t "priority") (some (.str "critical")) ||
            strictEq (Obj.get t "priority") (some (.str "high"))) &&
            strictEq (Obj.get t "status") (some (.str "not_started")))) ++
      alertFor "suggestion" "Stalled Tasks" "filter_stalled"
        (fun n => toString n ++ " task(s) marked as in progress but have 0% completion")
        (tasks.filter (fun t =>
          strictEq (Obj.get t "status") (some (.str "in_progress")) &&
            strictEq (Obj.get t "progress") (some (.num 0)))),
      ?_, List.mem_map_of_mem (fun t => (Obj.get t "id").getD .null) hmem, ?_⟩
    · unfold expectedAlerts
      rw [(alertFor_eq _ _ _ _ _).2 hne]
      simp
    · intro r hr
      simp only [List.mem_append] at hr
      have hdiff : ∀ title : String, title ≠ "Overdue Tasks" →
          JVal.field r "title" = some (some (.str title)) →
          JVal.field r "title" ≠ some (some (.str "Overdue Tasks")) := by
        intro title hne' h1 h2
        rw [h1] at h2
        injection h2 with h2
        injection h2 with h2
        injection h2 with h2
        exact hne' h2
      rcases hr with (hr | hr) | hr
      · exact hdiff "Due Today" (by decide) (alertFor_title _ _ _ _ _ r hr)
      · exact hdiff "Priority Tasks" (by decide) (alertFor_title _ _ _ _ _ r hr)
      · exact hdiff "Stalled Tasks" (by decide) (alertFor_title _ _ _ _ _ r hr)

/-- In the sample collection the overdue, due-today, priority and stalled
alerts all fire, in this order. -/
theorem suggestion_alerts_spec_witness :
    (∃ heavy, generateSmartSuggestions "2024-05-01" (fun _ => false) sampleDatedTasks
        = some (expectedAlerts "end" "2024-05-01" sampleDatedTasks ++ heavy) ∧
      (heavy = [] ∨ ∃ n, heavy = [heavyWorkload n])) ∧
    expectedAlerts "end" "2024-05-01" sampleDatedTasks
      = [ .obj [("type", .str "warning"), ("title", .str "Overdue Tasks"),
            ("message", .str "You have 1 overdue task(s) that need attention"),
            ("action", .str "filter_overdue"), ("tasks", .arr [.str "o"])],
          .obj [("type", .str "info"), ("title", .str "Due Today"),
            ("message", .str "1 task(s) are due today"),
            ("action", .str "filter_today"), ("tasks", .arr [.str "d"])],
          .obj [("type", .str "suggestion"), ("title", .str "Priority Tasks"),
            ("message", .str "1 high priority task(s) haven't been started"),
            ("action", .str "filter_priority"), ("tasks", .arr [.str "d"])],
          .obj [("type", .str "suggestion"), ("title", .str "Stalled Tasks"),
            ("message", .str "1 task(s) marked as in progress but have 0% completion"),
            ("action", .str "filter_stalled"), ("tasks", .arr [.str "o"])] ] :=
  ⟨(suggestion_alerts_spec "2024-05-01" (fun _ => false)
      sampleDatedTasks sampleQuietRows (by decide) (by decide)).1,
    by decide⟩

/-- The number the hosted variant reads from a row whose estimate is missing,
`null` or a number. -/
theorem estimatedHoursOf_eq (t : Obj)
    (h : Obj.get t "estimated_hours" = none ∨ Obj.get t "estimated_hours" = some .null ∨
      ∃ k, Obj.get t "estimated_hours" = some (.num k)) :
    estimatedHoursOf t = some (countedHours t) := by
  rcases h with h | h | ⟨k, h⟩
  · simp [estimatedHoursOf, countedHours, h, orDefault]
  · simp [estimatedHoursOf, countedHours, h, orDefault, truthy]
  · by_cases hk : k = 0
    · simp [estimatedHoursOf, countedHours, h, orDefault, truthy, hk]
    · simp [estimatedHoursOf, countedHours, h, orDefault, truthy, hk]

/-- A whole number of magnitude at most `2 ^ 53` is a double. -/
theorem roundInteger_eq (x : Int) (h : x.natAbs ≤ 9007199254740992) : roundInteger x = x := by
  simp [roundInteger, h]

/-- The magnitude of a sum of hours is at most the sum of the magnitudes. -/
theorem natAbs_sum_le (rows : List Obj) :
    ((rows.map countedHours).sum).natAbs ≤ hoursMagnitude rows := by
  induction rows with
  | nil => simp [hoursMagnitude]
  | cons t rest ih =>
    simp only [hoursMagnitude, List.map_cons, List.sum_cons] at ih ⊢
    exact le_trans (Int.natAbs_add_le _ _) (Nat.add_le_add_left ih _)

/-- The magnitudes of some of the rows sum to at most the magnitudes of all. -/
theorem hoursMagnitude_filter_le (rows : List Obj) (p : Obj → Bool) :
    hoursMagnitude (rows.filter p) ≤ hoursMagnitude rows := by
  induction rows with
  | nil => simp [hoursMagnitude]
  | cons t rest ih =>
    by_cases hp : p t = true
    · simp only [hoursMagnitude, List.filter_cons, hp, if_true, List.map_cons,
        List.sum_cons] at ih ⊢
      omega
    · simp only [hoursMagnitude, List.filter_cons, hp, Bool.false_eq_true, if_false,
        List.map_cons, List.sum_cons] at ih ⊢
      omega

/-- The loop of the sum adds the hours exactly while the magnitudes stay
within the whole doubles. -/
theorem sumHoursFrom_eq (rows : List Obj) :
    ∀ (sum : Int),
      (∀ t ∈ rows, Obj.get t "estimated_hours" = none ∨
        Obj.get t "estimated_hours" = some .null ∨
        ∃ k, Obj.get t "estimated_hours" = some (.num k)) →
      sum.natAbs + hoursMagnitude rows ≤ 9007199254740992 →
      sumHoursFrom sum rows = some (sum + (rows.map countedHours).sum) := by
  induction rows with
  | nil =>
    intro sum _ _
    simp [sumHoursFrom]
  | cons t rest ih =>
    intro sum h hb
    have ht := estimatedHoursOf_eq t (h t (List.mem_cons_self t rest))
    simp only [hoursMagnitude, List.map_cons, List.sum_cons] at hb
    have hadd := Int.natAbs_add_le sum (countedHours t)
    have hround : roundInteger (sum + countedHours t) = sum + countedHours t :=
      roundInteger_eq _ (by omega)
    have ih' := ih (sum + countedHours t) (fun x hx => h x (List.mem_cons_of_mem t hx))
      (by simp only [hoursMagnitude]; omega)
    simp only [sumHoursFrom, ht, hround, ih', List.map_cons, List.sum_cons, add_assoc]

/-- The sum of the hours over rows whose estimates are missing, `null` or
numbers, within the whole doubles. -/
theorem sumHours_eq (rows : List Obj)
    (h : ∀ t ∈ rows, Obj.get t "estimated_hours" = none ∨
      Obj.get t "estimated_hours" = some .null ∨
      ∃ k, Obj.get t "estimated_hours" = some (.num k))
    (hb : hoursMagnitude rows ≤ 9007199254740992) :
    sumHours rows = some ((rows.map countedHours).sum) := by
  have := sumHoursFrom_eq rows 0 h (by simpa using hb)
  simpa [sumHours] using this

/-- The hours of all rows less the hours of the rows satisfying `p` are the
hours of the rows not satisfying `p`. -/
theorem sum_sub_filter (rows : List Obj) (p : Obj → Bool) (f : Obj → Int) :
    (rows.map f).sum - ((rows.filter p).map f).sum
      = ((rows.filter (fun t => !p t)).map f).sum := by
  induction rows with
  | nil => rfl
  | cons t rest ih =>
    by_cases hp : p t = true
    · simp only [List.map_cons, List.sum_cons, List.filter_cons, hp, if_true, Bool.not_true,
        Bool.false_eq_true, if_false]
      omega
    · have hp' : p t = false := by simpa using hp
      simp only [List.map_cons, List.sum_cons, List.filter_cons, hp', Bool.false_eq_true,
        if_false, Bool.not_false, if_true]
      omega

/-- The completion rate is a number when the divisor is not 0. -/
theorem completionRate_isSome (c n : Nat) (h : n ≠ 0) : ∃ rate, completionRate c n = some rate := by
  simp [completionRate, h]

/-- The average is a number when the divisor is not 0. -/
theorem avgHoursPerTask_isSome (x : Int) (p : Nat) (h : p ≠ 0) :
    ∃ avg, avgHoursPerTask x p = some avg := by
  unfold avgHoursPerTask
  simp only [h, if_false]
  split <;> exact ⟨_, rfl⟩

/-- The rounded quotients on small numbers, and the divisor 0. -/
theorem rounded_quotients :
    completionRate 1 3 = some 33 ∧ completionRate 2 3 = some 67 ∧
    completionRate 1 8 = some 13 ∧ completionRate 0 5 = some 0 ∧
    completionRate 5 5 = some 100 ∧ completionRate 23 40 = some 57 ∧
    completionRate 29 200 = some 14 ∧ completionRate 57 200 = some 28 ∧
    completionRate 0 0 = none ∧
    avgHoursPerTask 5 2 = some 3 ∧ avgHoursPerTask 51 17 = some 3 ∧
    avgHoursPerTask 7 3 = some 2 ∧ avgHoursPerTask (-5) 2 = some (-2) ∧
    avgHoursPerTask 0 4 = some 0 ∧ avgHoursPerTask 5 0 = none ∧
    roundInteger 9007199254740993 = 9007199254740992 ∧
    roundInteger (-9007199254740995) = -9007199254740996 := by
  decide

set_option maxRecDepth 100000 in
/-- With 23 of 40 rows completed the summary reports 57%: the quotient 23/40
is the double below 0.575, its product with 100 the double below 57.5, while
`round(100 * 23 / 40)` is 58. -/
theorem hosted_fallback_percent_57 :
    expectedAlerts "end_date" "2024-05-01" sampleFortyRows = [] ∧
    sampleFortyRows.length = 40 ∧
    (sampleFortyRows.filter (fun t =>
      strictEq (Obj.get t "status") (some (.str "completed")))).length = 23 ∧
    specPercent 23 40 = 58 ∧
    completionRate 23 40 = some 57 ∧
    generateSmartSuggestionsHosted "2024-05-01" sampleFortyRows
      = some [ .obj [("type", .str "info"), ("title", .str "Progress Summary"),
                 ("message", .str "23/40 tasks done (57%). 17 remaining.")],
               .obj [("type", .str "suggestion"), ("title", .str "Time Estimate"),
                 ("message", .str "~51h of work remaining (avg 3h/task)")] ] := by
  refine ⟨?_, ?_, ?_, by decide, by decide, ?_⟩
  · rfl
  · rfl
  · rfl
  · rfl
/-- C16, as amended: in the hosted variant, when no comparison throws and the
estimates are missing, `null` or whole numbers whose magnitudes sum to at most
`2 ^ 53`, the output is the alerts when one fires and the fallback otherwise:
for no row the single `Getting Started` entry; for `n > 0` rows, `c` of them
completed, a `Progress Summary` with `c`, `n`, the completion rate
`Math.round((c / n) * 100)` of the double arithmetic and `n - c`, followed
exactly when `n - c > 0` by a `Time Estimate` with the sum `h` of the hours of
the rows not completed (a missing or zero estimate counted as 2) and the
average `Math.round(h / (n - c))` of the double arithmetic.  Both quotients
are numbers: no divisor is 0. -/
theorem hosted_fallback_spec (today : String) (rows : List Obj)
    (hrows : ∀ t ∈ rows, (lessThanText (Obj.get t "end_date") today).isSome = true)
    (hnum : ∀ t ∈ rows, Obj.get t "estimated_hours" = none ∨
      Obj.get t "estimated_hours" = some .null ∨
      ∃ k, Obj.get t "estimated_hours" = some (.num k))
    (hbound : hoursMagnitude rows ≤ 9007199254740992) :
    (expectedAlerts "end_date" today rows ≠ [] →
      generateSmartSuggestionsHosted today rows
        = some (expectedAlerts "end_date" today rows)) ∧
    (expectedAlerts "end_date" today rows = [] → rows = [] →
      generateSmartSuggestionsHosted today rows
        = some [.obj [("type", .str "info"), ("title", .str "Getting Started"),
            ("message",
              .str "Add your first task to get AI-powered insights and suggestions.")]]) ∧
    (expectedAlerts "end_date" today rows = [] → rows ≠ [] →
      ∃ rate : Nat,
        completionRate
          (rows.filter (fun t =>
            strictEq (Obj.get t "status") (some (.str "completed")))).length
          rows.length = some rate ∧
        rate = mathRound (roundDouble
          ((roundDouble (rows.filter (fun t =>
              strictEq (Obj.get t "status") (some (.str "completed")))).length
            rows.length).num * 100)
          (roundDouble (rows.filter (fun t =>
              strictEq (Obj.get t "status") (some (.str "completed")))).length
            rows.length).den) ∧
        ((rows.length - (rows.filter (fun t =>
              strictEq (Obj.get t "status") (some (.str "completed")))).length = 0 ∧
          generateSmartSuggestionsHosted today rows
            = some [.obj [("type", .str "info"), ("title", .str "Progress Summary"),
                ("message", .str (
                  toString (rows.filter (fun t =>
                    strictEq (Obj.get t "status") (some (.str "completed")))).length ++ "/" ++
                  toString rows.length ++ " tasks done (" ++ toString rate ++ "%). " ++
                  toString (rows.length - (rows.filter (fun t =>
                    strictEq (Obj.get t "status") (some (.str "completed")))).length) ++
                  " remaining."))]]) ∨
        (0 < rows.length - (rows.filter (fun t =>
              strictEq (Obj.get t "status") (some (.str "completed")))).length ∧
          ∃ avg : Int,
            avgHoursPerTask
              ((rows.filter (fun t =>
                !strictEq (Obj.get t "status") (some (.str "completed")))).map
                  countedHours).sum
              (rows.length - (rows.filter (fun t =>
                strictEq (Obj.get t "status") (some (.str "completed")))).length)
              = some avg ∧
            generateSmartSuggestionsHosted today rows
              = some [.obj [("type", .str "info"), ("title", .str "Progress Summary"),
                  ("message", .str (
                    toString (rows.filter (fun t =>
                      strictEq (Obj.get t "status") (some (.str "completed")))).length ++
                    "/" ++ toString rows.length ++ " tasks done (" ++ toString rate ++
                    "%). " ++
                    toString (rows.length - (rows.filter (fun t =>
                      strictEq (Obj.get t "status") (some (.str "completed")))).length) ++
                    " remaining."))],
                .obj [("type", .str "suggestion"), ("title", .str "Time Estimate"),
                  ("message", .str ("~" ++
                    toString ((rows.filter (fun t =>
                      !strictEq (Obj.get t "status") (some (.str "completed")))).map
                        countedHours).sum ++
                    "h of work remaining (avg " ++ toString avg ++ "h/task)"))]]))) := by
  have halerts := alertSuggestions_eq "end_date" today rows hrows
  have htotal := sumHours_eq rows hnum hbound
  have hcompleted := sumHours_eq
    (rows.filter (fun t => strictEq (Obj.get t "status") (some (.str "completed"))))
    (fun t ht => hnum t (List.mem_of_mem_filter ht))
    (le_trans (hoursMagnitude_filter_le rows _) hbound)
  have hdiff := sum_sub_filter rows
    (fun t => strictEq (Obj.get t "status") (some (.str "completed"))) countedHours
  have hexact : roundInteger ((rows.map countedHours).sum
      - ((rows.filter (fun t =>
          strictEq (Obj.get t "status") (some (.str "completed")))).map countedHours).sum)
      = ((rows.filter (fun t =>
          !strictEq (Obj.get t "status") (some (.str "completed")))).map countedHours).sum := by
    rw [hdiff]
    exact roundInteger_eq _ (le_trans (natAbs_sum_le _)
      (le_trans (hoursMagnitude_filter_le rows _) hbound))
  refine ⟨?_, ?_, ?_⟩
  · intro hne
    have hlen : ¬ (expectedAlerts "end_date" today rows).length = 0 :=
      fun h => hne (List.length_eq_zero.mp h)
    simp only [generateSmartSuggestionsHosted, halerts, hlen, if_false]
  · intro hnil hrows0
    subst hrows0
    simp [generateSmartSuggestionsHosted, halerts, hnil, sumHours, sumHoursFrom]
  · intro hnil hne
    have hpos : rows.length > 0 := List.length_pos.mpr hne
    obtain ⟨rate, hrate⟩ := completionRate_isSome
      (rows.filter (fun t => strictEq (Obj.get t "status") (some (.str "completed")))).length
      rows.length (by omega)
    refine ⟨rate, hrate, ?_, ?_⟩
    · have h0 : ¬ rows.length = 0 := by omega
      simp only [completionRate, h0, if_false, Option.some.injEq] at hrate
      exact hrate.symm
    · by_cases hp : rows.length - (rows.filter (fun t =>
          strictEq (Obj.get t "status") (some (.str "completed")))).length = 0
      · left
        refine ⟨hp, ?_⟩
        simp only [generateSmartSuggestionsHosted, halerts, hnil, List.length_nil, if_true,
          htotal, hcompleted, hpos, hrate, hp, gt_iff_lt, lt_self_iff_false, if_false]
      · right
        have hp' : 0 < rows.length - (rows.filter (fun t =>
            strictEq (Obj.get t "status") (some (.str "completed")))).length := by omega
        obtain ⟨avg, havg⟩ := avgHoursPerTask_isSome
          (((rows.filter (fun t =>
            !strictEq (Obj.get t "status") (some (.str "completed")))).map countedHours).sum)
          (rows.length - (rows.filter (fun t =>
            strictEq (Obj.get t "status") (some (.str "completed")))).length) hp
        refine ⟨hp', avg, havg, ?_⟩
        simp only [generateSmartSuggestionsHosted, halerts, hnil, List.length_nil, if_true,
          htotal, hcompleted, hpos, hrate, hp', gt_iff_lt, hexact, havg]

/-- On the quiet sample rows the hosted output is the progress summary (1 of 3
done) followed by the time estimate (3 + 2 hours over 2 rows). -/
theorem hosted_fallback_spec_witness :
    expectedAlerts "end_date" "2024-05-01" sampleQuietRows = [] ∧
    hoursMagnitude sampleQuietRows ≤ 9007199254740992 ∧
    generateSmartSuggestionsHosted "2024-05-01" sampleQuietRows
      = some [ .obj [("type", .str "info"), ("title", .str "Progress Summary"),
                 ("message", .str "1/3 tasks done (33%). 2 remaining.")],
               .obj [("type", .str "suggestion"), ("title", .str "Time Estimate"),
                 ("message", .str "~5h of work remaining (avg 3h/task)")] ] ∧
    ∃ rate : Nat, completionRate 1 3 = some rate ∧ rate = 33 := by
  have h := (hosted_fallback_spec "2024-05-01" sampleQuietRows (by decide)
    (by
      intro t ht
      simp only [sampleQuietRows, List.mem_cons, List.mem_singleton, List.not_mem_nil,
        or_false] at ht
      rcases ht with rfl | rfl | rfl
      · exact Or.inr (Or.inr ⟨5, rfl⟩)
      · exact Or.inr (Or.inr ⟨3, rfl⟩)
      · exact Or.inr (Or.inl rfl))
    (by decide)).2.2 (by decide) (by decide)
  obtain ⟨rate, hrate, _, _⟩ := h
  refine ⟨by decide, by decide, by decide, rate, hrate, ?_⟩
  have h2 : completionRate 1 3 = some 33 := by decide
  have h3 : (sampleQuietRows.filter (fun t =>
      strictEq (Obj.get t "status") (some (.str "completed")))).length = 1 := by decide
  have h4 : sampleQuietRows.length = 3 := by decide
  rw [h3, h4, h2] at hrate
  exact (Option.some.inj hrate).symm

/-- The file-backed engine answers the empty list for the empty collection:
it has no `Getting Started` entry. -/
theorem fileBacked_suggestions_empty :
    generateSmartSuggestions "2024-05-01" (fun _ => false) [] = some [] ∧
    alertSuggestions "end" "2024-05-01" [] = some [] := by
  decide

/-- C17, as amended: in the file-backed variant, when none of the four alerts
fires the output holds no fallback block: it is empty, or the single
`Heavy Workload` entry when more than ten tasks that are not completed end
within the week; for the empty collection it is empty. -/
theorem fileBacked_no_fallback (today : String) (endsWithinWeek : Option JVal → Bool)
    (tasks : List Task) :
    (alertSuggestions "end" today tasks = some [] →
      generateSmartSuggestions today endsWithinWeek tasks
        = some (if (tasks.filter (fun t => endsWithinWeek (Obj.get t "end") &&
              !strictEq (Obj.get t "status") (some (.str "completed")))).length > 10
            then [heavyWorkload (tasks.filter (fun t => endsWithinWeek (Obj.get t "end") &&
              !strictEq (Obj.get t "status") (some (.str "completed")))).length]
            else [])) ∧
    generateSmartSuggestions today endsWithinWeek [] = some [] ∧
    (∀ out, generateSmartSuggestions today endsWithinWeek tasks = some out →
      ∀ e ∈ out, JVal.field e "title" ≠ some (some (.str "Getting Started")) ∧
        JVal.field e "title" ≠ some (some (.str "Progress Summary"))) := by
  refine ⟨?_, rfl, ?_⟩
  · intro h
    simp only [generateSmartSuggestions, h, List.nil_append]
  · intro out hout e he
    have hdiff : ∀ title : String, title ≠ "Getting Started" → title ≠ "Progress Summary" →
        JVal.field e "title" = some (some (.str title)) →
        JVal.field e "title" ≠ some (some (.str "Getting Started")) ∧
        JVal.field e "title" ≠ some (some (.str "Progress Summary")) := by
      intro title h1 h2 ht
      rw [ht]
      constructor
      · intro h
        injection h with h
        injection h with h
        injection h with h
        exact h1 h
      · intro h
        injection h with h
        injection h with h
        injection h with h
        exact h2 h
    unfold generateSmartSuggestions at hout
    cases ha : alertSuggestions "end" today tasks with
    | none => rw [ha] at hout; simp at hout
    | some alerts =>
      rw [ha] at hout
      simp only [Option.some.injEq] at hout
      subst hout
      have halerts : ∀ x ∈ alerts, ∃ title : String,
          title ≠ "Getting Started" ∧ title ≠ "Progress Summary" ∧
          JVal.field x "title" = some (some (.str title)) := by
        intro x hx
        unfold alertSuggestions at ha
        cases ho : overdueTasks "end" today tasks with
        | none => rw [ho] at ha; simp at ha
        | some overdue =>
          rw [ho] at ha
          simp only [Option.some.injEq] at ha
          subst ha
          simp only [List.mem_append] at hx
          rcases hx with ((hx | hx) | hx) | hx
          · exact ⟨_, by decide, by decide, alertFor_title _ _ _ _ _ x hx⟩
          · exact ⟨_, by decide, by decide, alertFor_title _ _ _ _ _ x hx⟩
          · exact ⟨_, by decide, by decide, alertFor_title _ _ _ _ _ x hx⟩
          · exact ⟨_, by decide, by decide, alertFor_title _ _ _ _ _ x hx⟩
      rcases List.mem_append.mp he with he | he
      · obtain ⟨title, h1, h2, ht⟩ := halerts e he
        exact hdiff title h1 h2 ht
      · split at he
        · simp only [List.mem_singleton] at he
          subst he
          exact hdiff "Heavy Workload" (by decide) (by decide) rfl
        · simp at he

/-! ## Theorems: create -/

/-- The create handler when the name and the description have a text: it
answers 201 with the new task built from the body and the classified values. -/
theorem createTask_eq (env : Env) (body : Obj) (s : Store) (n d : String)
    (hconv : searchArgs (Obj.get body "name") (Obj.get body "description") = some (n, d)) :
    createTask env body s =
      (⟨201, some (.obj (newTaskObject env body
          (if (truthy (Obj.get s.data.settings "autoClassify") &&
                truthy (Obj.get s.data.settings "enableAI")) &&
              !truthy (Obj.get body "category")
            then some (.str (classifyTask n d)) else Obj.get body "category")
          (if (truthy (Obj.get s.data.settings "autoClassify") &&
                truthy (Obj.get s.data.settings "enableAI")) &&
              !truthy (Obj.get body "priority")
            then .str (suggestPriority n d)
            else orDefault (Obj.get body "priority") (.str "medium"))
          (if (truthy (Obj.get s.data.settings "autoClassify") &&
                truthy (Obj.get s.data.settings "enableAI")) &&
              lengthIsZero (orDefault (Obj.get body "tags") (.arr []))
            then .arr ((suggestTags n d).map JVal.str)
            else orDefault (Obj.get body "tags") (.arr []))
          (if (truthy (Obj.get s.data.settings "autoClassify") &&
                truthy (Obj.get s.data.settings "enableAI")) &&
              !truthy (Obj.get body "estimatedHours")
            then some (.num (estimateTime n d)) else Obj.get body "estimatedHours")))⟩,
        { data := { s.data with tasks := s.data.tasks ++ [newTaskObject env body
              (if (truthy (Obj.get s.data.settings "autoClassify") &&
                    truthy (Obj.get s.data.settings "enableAI")) &&
                  !truthy (Obj.get body "category")
                then some (.str (classifyTask n d)) else Obj.get body "category")
              (if (truthy (Obj.get s.data.settings "autoClassify") &&
                    truthy (Obj.get s.data.settings "enableAI")) &&
                  !truthy (Obj.get body "priority")
                then .str (suggestPriority n d)
                else orDefault (Obj.get body "priority") (.str "medium"))
              (if (truthy (Obj.get s.data.settings "autoClassify") &&
                    truthy (Obj.get s.data.settings "enableAI")) &&
                  lengthIsZero (orDefault (Obj.get body "tags") (.arr []))
                then .arr ((suggestTags n d).map JVal.str)
                else orDefault (Obj.get body "tags") (.arr []))
              (if (truthy (Obj.get s.data.settings "autoClassify") &&
                    truthy (Obj.get s.data.settings "enableAI")) &&
                  !truthy (Obj.get body "estimatedHours")
                then some (.num (estimateTime n d)) else Obj.get body "estimatedHours")] },
          history := saveToHistory env "create" s.data.tasks s.history,
          activities := logActivity env (env.uuids 1) "created" (some (.str (env.uuids 0)))
            (some (orDefault (Obj.get body "name") (.str "New Task"))) (.obj [])
            s.activities }) := by
  simp only [createTask, classifyTaskV, suggestPriorityV, suggestTagsV, estimateTimeV, hconv,
    Option.map_some']
  split_ifs <;> rfl

/-- A truthy value is kept by `||`. -/
theorem orDefault_of_truthy (x : Option JVal) (dflt : JVal) (h : truthy x = true) :
    some (orDefault x dflt) = x := by
  cases x with
  | none => simp [truthy] at h
  | some v => simp [orDefault, h]

/-- The fields of the new task, read by name. -/
theorem newTaskObject_get (env : Env) (body : Obj) (category : Option JVal) (priority tags : JVal)
    (estimatedHours : Option JVal) :
    Obj.get (newTaskObject env body category priority tags estimatedHours) "id"
      = some (.str (env.uuids 0)) ∧
    Obj.get (newTaskObject env body category priority tags estimatedHours) "category"
      = some (orDefault category (.str "general")) ∧
    Obj.get (newTaskObject env body category priority tags estimatedHours) "priority"
      = some priority ∧
    Obj.get (newTaskObject env body category priority tags estimatedHours) "tags"
      = some tags ∧
    Obj.get (newTaskObject env body category priority tags estimatedHours) "estimatedHours"
      = some (orDefault estimatedHours (.num 8)) ∧
    ∀ p ∈ [("status", JVal.str "not_started"), ("progress", JVal.num 0),
        ("color", JVal.str "#4A90D9"), ("dependencies", JVal.arr []),
        ("actualHours", JVal.num 0), ("type", JVal.str "task"),
        ("projectId", JVal.str "default"), ("parentId", JVal.null),
        ("description", JVal.str ""), ("assignee", JVal.str "")],
      Obj.get (newTaskObject env body category priority tags estimatedHours) p.1
        = some (orDefault (Obj.get body p.1) p.2) := by
  refine ⟨rfl, rfl, rfl, rfl, rfl, ?_⟩
  intro p hp
  simp only [List.mem_cons, List.mem_singleton, List.not_mem_nil, or_false] at hp
  rcases hp with rfl | rfl | rfl | rfl | rfl | rfl | rfl | rfl | rfl | rfl <;> rfl

/-- Creating a task named "urgent bug fix" with an empty tag list, auto-apply
being on: the create answers 201 and the stored tags are the classifier's, not
the caller's empty list. -/
theorem createTask_empty_tags_replaced :
    Obj.get [("name", JVal.str "urgent bug fix"), ("tags", JVal.arr [])] "tags"
      = some (.arr []) ∧
    (createTask sampleEnv [("name", .str "urgent bug fix"), ("tags", .arr [])]
      sampleStore).1.status = 201 ∧
    (createTask sampleEnv [("name", .str "urgent bug fix"), ("tags", .arr [])]
      sampleStore).2.data.tasks.getLast?.map (fun t => Obj.get t "tags")
      = some (some (.arr [.str "bug", .str "urgent"])) := by
  decide

/-- The milestone form of the frontend carries `estimatedHours: 0`; the stored
estimate is 8, with auto-apply on (no effort keyword in the name) and off. -/
theorem createTask_milestone_hours :
    (createTask sampleEnv
      [("name", .str "Launch"), ("type", .str "milestone"), ("priority", .str "high"),
       ("category", .str "planning"), ("tags", .arr [.str "milestone"]),
       ("estimatedHours", .num 0)]
      sampleStore).2.data.tasks.getLast?.map (fun t => Obj.get t "estimatedHours")
      = some (some (.num 8)) ∧
    (createTask sampleEnv
      [("name", .str "Launch"), ("type", .str "milestone"), ("priority", .str "high"),
       ("category", .str "planning"), ("tags", .arr [.str "milestone"]),
       ("estimatedHours", .num 0)]
      { sampleStore with data := { sampleStore.data with settings := [] } }
      ).2.data.tasks.getLast?.map (fun t => Obj.get t "estimatedHours")
      = some (some (.num 8)) := by
  decide

/-- The category of the classifier is never the empty text. -/
theorem classifyTask_ne_empty (name description : String) :
    classifyTask name description ≠ "" := by
  unfold classifyTask
  simp only
  split
  · decide
  · split
    · split
      · decide
      · assumption
    · decide

/-- The estimate of the classifier is never 0. -/
theorem estimateTime_ne_zero (name description : String) :
    estimateTime name description ≠ 0 := by
  unfold estimateTime
  simp only
  split
  · rename_i e he
    have hmem : e ∈ AI_TIME_ESTIMATES := List.mem_of_find?_eq_some he
    have hall : ∀ x ∈ AI_TIME_ESTIMATES, x.2.hours ≠ 0 := by decide
    exact hall e hmem
  · decide

/-- C18, as amended: for a body whose name and description have a text, create
answers 201 and appends exactly one task, with the generated id.  Each of
status, progress, color, dependencies, actualHours, type, projectId, parentId,
description, assignee has the value of the caller when that value is truthy,
and its default when the caller supplies none.  Each of category, priority,
estimatedHours has the value of the caller when it is truthy, and tags when it
is truthy and not of length 0; when the caller supplies none (for tags also the
empty list) they have the classifier's result with auto-apply on, and
general, medium, the empty list and 8 with auto-apply off. -/
theorem createTask_fields (env : Env) (body : Obj) (s : Store) (n d : String)
    (hconv : searchArgs (Obj.get body "name") (Obj.get body "description") = some (n, d)) :
    ∃ newTask : Task,
      (createTask env body s).1 = ⟨201, some (.obj newTask)⟩ ∧
      (createTask env body s).2.data.tasks = s.data.tasks ++ [newTask] ∧
      Obj.get newTask "id" = some (.str (env.uuids 0)) ∧
      (∀ p ∈ [("status", JVal.str "not_started"), ("progress", JVal.num 0),
          ("color", JVal.str "#4A90D9"), ("dependencies", JVal.arr []),
          ("actualHours", JVal.num 0), ("type", JVal.str "task"),
          ("projectId", JVal.str "default"), ("parentId", JVal.null),
          ("description", JVal.str ""), ("assignee", JVal.str "")],
        (truthy (Obj.get body p.1) = true → Obj.get newTask p.1 = Obj.get body p.1) ∧
        (Obj.get body p.1 = none → Obj.get newTask p.1 = some p.2)) ∧
      (truthy (Obj.get body "category") = true →
        Obj.get newTask "category" = Obj.get body "category") ∧
      (Obj.get body "category" = none →
        Obj.get newTask "category" = some (.str (
          if (truthy (Obj.get s.data.settings "autoClassify") &&
              truthy (Obj.get s.data.settings "enableAI")) = true
          then classifyTask n d else "general"))) ∧
      (truthy (Obj.get body "priority") = true →
        Obj.get newTask "priority" = Obj.get body "priority") ∧
      (Obj.get body "priority" = none →
        Obj.get newTask "priority" = some (.str (
          if (truthy (Obj.get s.data.settings "autoClassify") &&
              truthy (Obj.get s.data.settings "enableAI")) = true
          then suggestPriority n d else "medium"))) ∧
      (truthy (Obj.get body "estimatedHours") = true →
        Obj.get newTask "estimatedHours" = Obj.get body "estimatedHours") ∧
      (Obj.get body "estimatedHours" = none →
        Obj.get newTask "estimatedHours" = some (.num (
          if (truthy (Obj.get s.data.settings "autoClassify") &&
              truthy (Obj.get s.data.settings "enableAI")) = true
          then (estimateTime n d : Int) else 8))) ∧
      (∀ v, Obj.get body "tags" = some v → truthy (some v) = true → lengthIsZero v = false →
        Obj.get newTask "tags" = some v) ∧
      ((Obj.get body "tags" = none ∨ Obj.get body "tags" = some (.arr [])) →
        Obj.get newTask "tags" = some (.arr (
          if (truthy (Obj.get s.data.settings "autoClassify") &&
              truthy (Obj.get s.data.settings "enableAI")) = true
          then (suggestTags n d).map JVal.str else []))) := by
  rw [createTask_eq env body s n d hconv]
  generalize (truthy (Obj.get s.data.settings "autoClassify") &&
    truthy (Obj.get s.data.settings "enableAI")) = auto
  refine ⟨_, rfl, rfl, ?_⟩
  obtain ⟨hid, hcat, hpri, htags, hest, hsimple⟩ := newTaskObject_get env body
    (if (auto && !truthy (Obj.get body "category")) = true
      then some (.str (classifyTask n d)) else Obj.get body "category")
    (if (auto && !truthy (Obj.get body "priority")) = true
      then .str (suggestPriority n d)
      else orDefault (Obj.get body "priority") (.str "medium"))
    (if (auto && lengthIsZero (orDefault (Obj.get body "tags") (.arr []))) = true
      then .arr ((suggestTags n d).map JVal.str)
      else orDefault (Obj.get body "tags") (.arr []))
    (if (auto && !truthy (Obj.get body "estimatedHours")) = true
      then some (.num (estimateTime n d)) else Obj.get body "estimatedHours")
  refine ⟨hid, ?_, ?_, ?_, ?_, ?_, ?_, ?_, ?_, ?_⟩
  · intro p hp
    rw [hsimple p hp]
    constructor
    · intro h
      exact orDefault_of_truthy _ _ h
    · intro h
      rw [h]
      rfl
  · intro h
    rw [hcat]
    simp only [h, Bool.not_true, Bool.and_false, Bool.false_eq_true, if_false]
    exact orDefault_of_truthy _ _ h
  · intro h
    rw [hcat, h]
    cases auto <;> simp [truthy, orDefault, classifyTask_ne_empty]
  · intro h
    rw [hpri]
    simp only [h, Bool.not_true, Bool.and_false, Bool.false_eq_true, if_false]
    exact orDefault_of_truthy _ _ h
  · intro h
    rw [hpri, h]
    cases auto <;> simp [truthy, orDefault]
  · intro h
    rw [hest]
    simp only [h, Bool.not_true, Bool.and_false, Bool.false_eq_true, if_false]
    exact orDefault_of_truthy _ _ h
  · intro h
    rw [hest, h]
    cases auto <;> simp [truthy, orDefault, estimateTime_ne_zero]
  · intro v hv htruthy hlen
    rw [htags, hv]
    have : orDefault (some v) (.arr []) = v := by
      simp [orDefault, htruthy]
    simp only [this, hlen, Bool.and_false, Bool.false_eq_true, if_false]
  · intro h
    rw [htags]
    rcases h with h | h
    · rw [h]
      cases auto <;> simp [orDefault, lengthIsZero]
    · rw [h]
      cases auto <;> simp [orDefault, lengthIsZero, truthy]

/-- Creating the task "urgent bug fix" in the sample store: the fields the
caller left out have their defaults and the classifier's values. -/
theorem createTask_fields_witness :
    ∃ newTask : Task,
      (createTask sampleEnv [("name", .str "urgent bug fix")] sampleStore).1
        = ⟨201, some (.obj newTask)⟩ ∧
      Obj.get newTask "priority" = some (.str "critical") ∧
      Obj.get newTask "status" = some (.str "not_started") := by
  obtain ⟨newTask, h1, _, _, hsimple, _, _, _, hpri, _⟩ :=
    createTask_fields sampleEnv [("name", .str "urgent bug fix")] sampleStore
      "urgent bug fix" "" rfl
  refine ⟨newTask, h1, ?_, ?_⟩
  · rw [hpri rfl]
    decide
  · exact (hsimple ("status", .str "not_started") (by simp)).2 rfl

/-! ## Theorems: classifier examples and coercion -/

/-- The name "epic platform redesign" is not estimated at 80 hours, and its
category is not development. -/
theorem epic_platform_redesign_not_80 :
    ¬ (estimateTime "epic platform redesign" "" = 80 ∧
      classifyTask "epic platform redesign" "" = "development") := by
  decide

/-- C19, as amended: classifying the name "epic platform redesign" with an
empty description yields 16 estimated hours, since `design`, a keyword of the
medium tier, occurs in `redesign` and that tier is looked at before the long
and epic ones, and the category design, the only category with a keyword in
the text. -/
theorem epic_platform_redesign :
    estimateTime "epic platform redesign" "" = 16 ∧
    classifyTask "epic platform redesign" "" = "design" ∧
    includes (toLowerCase ("epic platform redesign" ++ " " ++ "")) "design" = true ∧
    categoryScores (toLowerCase ("epic platform redesign" ++ " " ++ ""))
      = [("development", 0), ("design", 1), ("marketing", 0), ("planning", 0),
         ("research", 0), ("documentation", 0), ("operations", 0), ("communication", 0)] := by
  decide

theorem clashFree_skip (kw m b : List Char) (h : clashFree kw m = true) :
    kw <:+: m ++ ' ' :: b ↔ kw <:+: ' ' :: b := by
  induction m with
  | nil => simp
  | cons c cs ih =>
    simp only [clashFree, Bool.and_eq_true, Bool.not_eq_true', Bool.or_eq_false_iff] at h
    obtain ⟨⟨h1, h2⟩, hrest⟩ := h
    rw [List.cons_append, List.infix_cons_iff, ih hrest]
    constructor
    · rintro (hp | hi)
      · exfalso
        have hp2 : kw <+: (c :: cs ++ [' ']) ++ b := by simpa using hp
        rcases List.prefix_or_prefix_of_prefix hp2 (List.prefix_append (c :: cs ++ [' ']) b)
          with h3 | h3
        · exact absurd (h1.symm.trans (List.isPrefixOf_iff_prefix.mpr h3)) (by decide)
        · exact absurd (h2.symm.trans (List.isPrefixOf_iff_prefix.mpr h3)) (by decide)
      · exact hi
    · exact Or.inr

theorem clashFree_skip_right (kw m a : List Char)
    (h : clashFree kw.reverse m.reverse = true) :
    kw <:+: a ++ ' ' :: m ↔ kw <:+: a ++ [' '] := by
  have h1 := clashFree_skip kw.reverse m.reverse a.reverse h
  have e1 : kw <:+: a ++ ' ' :: m ↔ kw.reverse <:+: (a ++ ' ' :: m).reverse :=
    List.reverse_infix.symm
  have e2 : kw <:+: a ++ [' '] ↔ kw.reverse <:+: (a ++ [' ']).reverse :=
    List.reverse_infix.symm
  rw [e1, e2]
  simpa only [List.reverse_append, List.reverse_cons, List.reverse_nil, List.nil_append,
    List.append_assoc, List.singleton_append] using h1

theorem clashFree_of_head (kw m : List Char) (hne : kw ≠ [])
    (h : ∀ c ∈ m, kw.head? ≠ some c) : clashFree kw m = true := by
  induction m with
  | nil => rfl
  | cons c cs ih =>
    cases kw with
    | nil => exact absurd rfl hne
    | cons k ks =>
      have hk : k ≠ c := by
        intro e
        exact h c (List.mem_cons_self _ _) (by simp [e])
      have ih2 := ih (fun x hx => h x (List.mem_cons_of_mem _ hx))
      simp [clashFree, List.isPrefixOf, hk, ih2, Ne.symm hk]
theorem find?_congr_mem {α : Type} (l : List α) (p q : α → Bool)
    (h : ∀ x ∈ l, p x = q x) : l.find? p = l.find? q := by
  induction l with
  | nil => rfl
  | cons a as ih =>
    simp only [List.find?_cons, h a (List.mem_cons_self _ _)]
    rw [ih (fun x hx => h x (List.mem_cons_of_mem _ hx))]

theorem any_congr_mem {α : Type} (l : List α) (p q : α → Bool)
    (h : ∀ x ∈ l, p x = q x) : l.any p = l.any q := by
  induction l with
  | nil => rfl
  | cons a as ih =>
    simp only [List.any_cons, h a (List.mem_cons_self _ _)]
    rw [ih (fun x hx => h x (List.mem_cons_of_mem _ hx))]

/-- The four functions look at the search text only through the keywords of
the tables. -/
theorem classifier_congr (n1 d1 n2 d2 : String)
    (h : ∀ kw ∈ allKeywords,
      includes (toLowerCase (n1 ++ " " ++ d1)) kw = includes (toLowerCase (n2 ++ " " ++ d2)) kw) :
    classifyTask n1 d1 = classifyTask n2 d2 ∧
    suggestPriority n1 d1 = suggestPriority n2 d2 ∧
    estimateTime n1 d1 = estimateTime n2 d2 ∧
    suggestTags n1 d1 = suggestTags n2 d2 := by
  obtain ⟨hc, hp, ht, hg⟩ := mem_allKeywords
  refine ⟨?_, ?_, ?_, ?_⟩
  · have hs : categoryScores (toLowerCase (n1 ++ " " ++ d1))
        = categoryScores (toLowerCase (n2 ++ " " ++ d2)) := by
      unfold categoryScores
      apply List.map_congr_left
      intro e he
      congr 2
      apply List.filter_congr
      intro kw hkw
      exact h kw (hc e he kw hkw)
    unfold classifyTask
    simp only [hs]
  · unfold suggestPriority
    simp only
    rw [find?_congr_mem AI_PRIORITY_KEYWORDS _
      (fun e => e.2.any (fun kw => includes (toLowerCase (n2 ++ " " ++ d2)) kw))]
    intro e he
    exact any_congr_mem _ _ _ (fun kw hkw => h kw (hp e he kw hkw))
  · unfold estimateTime
    simp only
    rw [find?_congr_mem AI_TIME_ESTIMATES _
      (fun e => e.2.keywords.any (fun kw => includes (toLowerCase (n2 ++ " " ++ d2)) kw))]
    intro e he
    exact any_congr_mem _ _ _ (fun kw hkw => h kw (ht e he kw hkw))
  · unfold suggestTags
    simp only
    congr 2
    apply List.filter_congr
    intro e he
    exact any_congr_mem _ _ _ (fun kw hkw => h kw (hg e he kw hkw))

theorem keywordFree_name (m d : String) (hq : keywordFree m = true) :
    ∀ kw ∈ allKeywords,
      includes (toLowerCase (m ++ " " ++ d)) kw = includes (toLowerCase ("" ++ " " ++ d)) kw := by
  intro kw hkw
  have h1 := (List.all_eq_true.mp hq kw hkw)
  simp only [Bool.and_eq_true] at h1
  rw [Bool.eq_iff_iff, includes_iff, includes_iff]
  have e1 : (toLowerCase (m ++ " " ++ d)).data
      = (toLowerCase m).data ++ ' ' :: (toLowerCase d).data :=
    toLowerCase_searchText m d
  have e2 : (toLowerCase ("" ++ " " ++ d)).data = ' ' :: (toLowerCase d).data := by
    rw [toLowerCase_searchText, toLowerCase_empty, List.nil_append]
  rw [e1, e2]
  exact clashFree_skip _ _ _ h1.1

theorem keywordFree_description (n m : String) (hq : keywordFree m = true) :
    ∀ kw ∈ allKeywords,
      includes (toLowerCase (n ++ " " ++ m)) kw = includes (toLowerCase (n ++ " " ++ "")) kw := by
  intro kw hkw
  have h1 := (List.all_eq_true.mp hq kw hkw)
  simp only [Bool.and_eq_true] at h1
  rw [Bool.eq_iff_iff, includes_iff, includes_iff]
  have e1 : (toLowerCase (n ++ " " ++ m)).data
      = (toLowerCase n).data ++ ' ' :: (toLowerCase m).data :=
    toLowerCase_searchText n m
  have e2 : (toLowerCase (n ++ " " ++ "")).data = (toLowerCase n).data ++ [' '] := by
    rw [toLowerCase_searchText, toLowerCase_empty]
  rw [e1, e2]
  exact clashFree_skip_right _ _ _ h1.2
theorem keywordFree_constants :
    keywordFree "" = true ∧ keywordFree "null" = true ∧ keywordFree "true" = true ∧
    keywordFree "false" = true ∧ keywordFree "[object Object]" = true := by
  decide

theorem digitChar_mem_numeralChars (k : Nat) (hk : k < 10) :
    Nat.digitChar k ∈ numeralChars := by
  interval_cases k <;> decide

theorem toDigitsCore_numeralChars (fuel : Nat) :
    ∀ (n : Nat) (ds : List Char), (∀ c ∈ ds, c ∈ numeralChars) →
      ∀ c ∈ Nat.toDigitsCore 10 fuel n ds, c ∈ numeralChars := by
  induction fuel with
  | zero =>
    intro n ds hds c hc
    exact hds c hc
  | succ fuel ih =>
    intro n ds hds c hc
    have hcons : ∀ x ∈ Nat.digitChar (n % 10) :: ds, x ∈ numeralChars := by
      intro x hx
      rcases List.mem_cons.mp hx with rfl | hx
      · exact digitChar_mem_numeralChars _ (Nat.mod_lt _ (by decide))
      · exact hds x hx
    simp only [Nat.toDigitsCore] at hc
    split at hc
    · exact hcons c hc
    · exact ih _ _ hcons c hc

theorem toString_int_numeralChars (n : Int) :
    ∀ c ∈ (toString n).data, c ∈ numeralChars := by
  have hnat : ∀ k : Nat, ∀ c ∈ (Nat.repr k).data, c ∈ numeralChars := by
    intro k c hc
    exact toDigitsCore_numeralChars _ _ [] (fun _ h => absurd h (List.not_mem_nil _)) c hc
  cases n with
  | ofNat k => exact hnat k
  | negSucc k =>
    intro c hc
    have e : (toString (Int.negSucc k)).data = '-' :: (Nat.repr (k + 1)).data := rfl
    rw [e] at hc
    rcases List.mem_cons.mp hc with rfl | hc
    · decide
    · exact hnat _ c hc

set_option maxRecDepth 8000 in
theorem keywordFree_numeral (m : String) (hm : ∀ c ∈ m.data, c ∈ numeralChars) :
    keywordFree m = true := by
  have hlow : ∀ c ∈ (toLowerCase m).data, c ∈ numeralChars := by
    intro c hc
    simp only [toLowerCase, List.mem_flatten, List.mem_map] at hc
    obtain ⟨l, ⟨x, hx, rfl⟩, hcl⟩ := hc
    have hall : ∀ y ∈ numeralChars, ∀ z ∈ lowerChar y, z ∈ numeralChars := by decide
    exact hall x (hm x hx) c hcl
  have hkw : ∀ kw ∈ allKeywords, kw.data ≠ [] ∧
      ∀ c ∈ numeralChars, kw.data.head? ≠ some c ∧ kw.data.getLast? ≠ some c := by
    decide
  unfold keywordFree
  rw [List.all_eq_true]
  intro kw hk
  obtain ⟨hne, hedge⟩ := hkw kw hk
  rw [Bool.and_eq_true]
  constructor
  · exact clashFree_of_head _ _ hne (fun c hc => (hedge c (hlow c hc)).1)
  · apply clashFree_of_head
    · simpa using hne
    · intro c hc
      rw [List.head?_reverse]
      exact (hedge c (hlow c (List.mem_reverse.mp hc))).2

theorem keywordFree_isInert (v : JVal) (hv : v.isInert = true) :
    ∃ m, v.toStr = some m ∧ keywordFree m = true := by
  obtain ⟨h0, h1, h2, h3, h4⟩ := keywordFree_constants
  cases v with
  | null => exact ⟨_, rfl, h1⟩
  | bool b =>
    cases b
    · exact ⟨_, rfl, h3⟩
    · exact ⟨_, rfl, h2⟩
  | num n => exact ⟨_, rfl, keywordFree_numeral _ (toString_int_numeralChars n)⟩
  | str s => simp [JVal.isInert] at hv
  | arr xs =>
    cases xs with
    | nil => exact ⟨_, rfl, h0⟩
    | cons x xs => simp [JVal.isInert] at hv
  | obj kvs =>
    simp only [JVal.isInert, Bool.not_eq_true'] at hv
    exact ⟨_, by simp [JVal.toStr, hv], h4⟩
/-- An array is read as its joined text and an object with an own property
`toString` has no text: the name `["urgent"]` is classified critical, where
the empty string gives medium, and the object makes each call fail. -/
theorem classifier_array_object_name :
    suggestPriorityV (some (.arr [.str "urgent"])) none = some "critical" ∧
    suggestPriorityV (some (.str "")) none = some "medium" ∧
    classifyTaskV (some (.arr [.str "fix", .str "bug"])) none = some "development" ∧
    classifyTaskV (some (.str "")) none = some "general" ∧
    estimateTimeV none (some (.arr [.str "quick"])) = some 1 ∧
    estimateTimeV none (some (.str "")) = some 8 ∧
    classifyTaskV (some (.obj [("toString", .num 1)])) none = none ∧
    aiClassify [("name", .obj [("toString", .num 1)])]
      = ⟨500, errorBody "Failed to classify"⟩ ∧
    aiClassify [("name", .str "")]
      = ⟨200, some (.obj [("category", .str "general"), ("priority", .str "medium"),
          ("estimatedHours", .num 8), ("tags", .arr [])])⟩ := by
  decide

theorem isInert_name (v : JVal) (hv : v.isInert = true) (d : Option JVal) :
    classifyTaskV (some v) d = classifyTaskV (some (.str "")) d ∧
    suggestPriorityV (some v) d = suggestPriorityV (some (.str "")) d ∧
    estimateTimeV (some v) d = estimateTimeV (some (.str "")) d ∧
    suggestTagsV (some v) d = suggestTagsV (some (.str "")) d := by
  obtain ⟨m, hm, hq⟩ := keywordFree_isInert v hv
  cases hd : descriptionText d with
  | none =>
    have s1 : searchArgs (some v) d = none := by
      simp only [searchArgs, templateString, hm, hd]
    have s2 : searchArgs (some (.str "")) d = none := by
      simp only [searchArgs, templateString, JVal.toStr, hd]
    simp only [classifyTaskV, suggestPriorityV, estimateTimeV, suggestTagsV, s1, s2,
      Option.map_none', and_self]
  | some dd =>
    obtain ⟨h1, h2, h3, h4⟩ := classifier_congr m dd "" dd (keywordFree_name m dd hq)
    have s1 : searchArgs (some v) d = some (m, dd) := by
      simp only [searchArgs, templateString, hm, hd]
    have s2 : searchArgs (some (.str "")) d = some ("", dd) := by
      simp only [searchArgs, templateString, JVal.toStr, hd]
    simp only [classifyTaskV, suggestPriorityV, estimateTimeV, suggestTagsV, s1, s2,
      Option.map_some', h1, h2, h3, h4, and_self]

theorem isInert_description (v : JVal) (hv : v.isInert = true) (n : Option JVal) :
    classifyTaskV n (some v) = classifyTaskV n (some (.str "")) ∧
    suggestPriorityV n (some v) = suggestPriorityV n (some (.str "")) ∧
    estimateTimeV n (some v) = estimateTimeV n (some (.str "")) ∧
    suggestTagsV n (some v) = suggestTagsV n (some (.str "")) := by
  obtain ⟨m, hm, hq⟩ := keywordFree_isInert v hv
  cases hn : templateString n with
  | none =>
    have s1 : searchArgs n (some v) = none := by
      simp only [searchArgs, hn]
    have s2 : searchArgs n (some (.str "")) = none := by
      simp only [searchArgs, hn]
    simp only [classifyTaskV, suggestPriorityV, estimateTimeV, suggestTagsV, s1, s2,
      Option.map_none', and_self]
  | some nn =>
    obtain ⟨h1, h2, h3, h4⟩ := classifier_congr nn m nn "" (keywordFree_description nn m hq)
    have s1 : searchArgs n (some v) = some (nn, m) := by
      simp only [searchArgs, descriptionText, hm, hn]
    have s2 : searchArgs n (some (.str "")) = some (nn, "") := by
      simp only [searchArgs, descriptionText, JVal.toStr, hn]
    simp only [classifyTaskV, suggestPriorityV, estimateTimeV, suggestTagsV, s1, s2,
      Option.map_some', h1, h2, h3, h4, and_self]

/-- C20, as amended: for a number, a boolean, `null`, the empty array or an
object without an own property `toString`, given as the name or as the
description, classifyTask, suggestPriority, estimateTime and suggestTags return
what they return when that argument is the empty string, and the conversion of
that argument does not throw; the classify endpoint answers 200 with general,
medium, 8 and no tags when the name is such a value and the description is
absent or such a value too. -/
theorem classifier_inert_input (v : JVal) (hv : v.isInert = true) :
    (∀ d : Option JVal,
      classifyTaskV (some v) d = classifyTaskV (some (.str "")) d ∧
      suggestPriorityV (some v) d = suggestPriorityV (some (.str "")) d ∧
      estimateTimeV (some v) d = estimateTimeV (some (.str "")) d ∧
      suggestTagsV (some v) d = suggestTagsV (some (.str "")) d) ∧
    (∀ n : Option JVal,
      classifyTaskV n (some v) = classifyTaskV n (some (.str "")) ∧
      suggestPriorityV n (some v) = suggestPriorityV n (some (.str "")) ∧
      estimateTimeV n (some v) = estimateTimeV n (some (.str "")) ∧
      suggestTagsV n (some v) = suggestTagsV n (some (.str ""))) ∧
    (∀ d : Option JVal, (searchArgs (some v) d).isSome = (descriptionText d).isSome) ∧
    (∀ n : Option JVal, (searchArgs n (some v)).isSome = (templateString n).isSome) ∧
    aiClassify [("name", v)]
      = ⟨200, some (.obj [("category", .str "general"), ("priority", .str "medium"),
          ("estimatedHours", .num 8), ("tags", .arr [])])⟩ ∧
    (∀ w : JVal, w.isInert = true →
      aiClassify [("name", v), ("description", w)]
        = ⟨200, some (.obj [("category", .str "general"), ("priority", .str "medium"),
            ("estimatedHours", .num 8), ("tags", .arr [])])⟩) := by
  obtain ⟨m, hm, _⟩ := keywordFree_isInert v hv
  refine ⟨isInert_name v hv, isInert_description v hv, ?_, ?_, ?_, ?_⟩
  · intro d
    cases hd : descriptionText d <;> simp [searchArgs, templateString, hm, hd]
  · intro n
    cases hn : templateString n <;> simp [searchArgs, descriptionText, hm, hn]
  · obtain ⟨h1, h2, h3, h4⟩ := isInert_name v hv none
    have e1 : Obj.get [("name", v)] "name" = some v := by simp [Obj.get]
    have e2 : Obj.get [("name", v)] "description" = none := by simp [Obj.get]
    simp only [aiClassify, e1, e2, h1, h2, h3, h4]
    decide
  · intro w hw
    obtain ⟨h1, h2, h3, h4⟩ := isInert_name v hv (some w)
    obtain ⟨g1, g2, g3, g4⟩ := isInert_description w hw (some (.str ""))
    have e1 : Obj.get [("name", v), ("description", w)] "name" = some v := by simp [Obj.get]
    have e2 : Obj.get [("name", v), ("description", w)] "description" = some w := by
      simp [Obj.get]
    simp only [aiClassify, e1, e2, h1, h2, h3, h4, g1, g2, g3, g4]
    decide

/-- The number 42 as the name, and as the name with the description `null`. -/
theorem classifier_inert_input_witness :
    classifyTaskV (some (.num 42)) none = classifyTaskV (some (.str "")) none ∧
    aiClassify [("name", .num 42), ("description", .null)]
      = ⟨200, some (.obj [("category", .str "general"), ("priority", .str "medium"),
          ("estimatedHours", .num 8), ("tags", .arr [])])⟩ :=
  ⟨((classifier_inert_input (.num 42) rfl).1 none).1,
   (classifier_inert_input (.num 42) rfl).2.2.2.2.2 .null rfl⟩

/-! ## Theorems: activity log -/

/-- C28: on a log of at most 200 entries, `logActivity` puts the new entry
first, lets the previous entries follow in their order and keeps at most 200
entries: the result is the first 200 of the new entry followed by the old log,
so a log of fewer than 200 entries loses nothing and a log of 200 entries loses
its last, oldest entry.  A log of at most 200 entries, newest first, stays
one. -/
theorem logActivity_spec (env : Env) (activityId action : String)
    (taskId taskName : Option JVal) (details : JVal) (activities : List ActivityEntry)
    (h : activities.length ≤ 200) :
    logActivity env activityId action taskId taskName details activities
      = ((⟨activityId, action, taskId, taskName, details, env.now⟩ : ActivityEntry)
          :: activities).take 200 ∧
    (logActivity env activityId action taskId taskName details activities).head?
      = some ⟨activityId, action, taskId, taskName, details, env.now⟩ ∧
    (logActivity env activityId action taskId taskName details activities).tail
      <+: activities ∧
    (logActivity env activityId action taskId taskName details activities).length ≤ 200 ∧
    (activities.length < 200 →
      logActivity env activityId action taskId taskName details activities
        = (⟨activityId, action, taskId, taskName, details, env.now⟩ : ActivityEntry)
            :: activities) ∧
    (activities.length = 200 →
      logActivity env activityId action taskId taskName details activities
        = (⟨activityId, action, taskId, taskName, details, env.now⟩ : ActivityEntry)
            :: activities.dropLast ∧
      activities.getLast? ≠ none ∧
      ∀ last, activities.getLast? = some last →
        activities = (logActivity env activityId action taskId taskName details
          activities).tail ++ [last]) := by
  have hfew : activities.length < 200 →
      logActivity env activityId action taskId taskName details activities
        = (⟨activityId, action, taskId, taskName, details, env.now⟩ : ActivityEntry)
            :: activities := by
    intro hlt
    have : ¬ (activities.length + 1 > 200) := by omega
    simp [logActivity, this]
  have hfull : activities.length = 200 →
      logActivity env activityId action taskId taskName details activities
        = (⟨activityId, action, taskId, taskName, details, env.now⟩ : ActivityEntry)
            :: activities.dropLast := by
    intro heq
    have hne : activities ≠ [] := by
      intro e
      rw [e] at heq
      simp at heq
    obtain ⟨a, rest, rfl⟩ := List.exists_cons_of_ne_nil hne
    simp [logActivity, heq, List.dropLast]
  rcases Nat.lt_or_eq_of_le h with hlt | heq
  · rw [hfew hlt]
    refine ⟨?_, rfl, List.prefix_refl _, by simp; omega, fun _ => rfl, fun e => by omega⟩
    rw [List.take_of_length_le]
    simp
    omega
  · rw [hfull heq]
    have hdrop : activities.dropLast = activities.take 199 := by
      rw [List.dropLast_eq_take, heq]
    refine ⟨?_, rfl, List.dropLast_prefix _, by simp [heq], fun e => by omega, fun _ => ⟨rfl, ?_, ?_⟩⟩
    · rw [hdrop]
      rfl
    · intro e
      rw [List.getLast?_eq_none_iff] at e
      rw [e] at heq
      simp at heq
    · intro last hlast
      have hne : activities ≠ [] := by
        intro e
        rw [e] at heq
        simp at heq
      rw [List.getLast?_eq_getLast _ hne] at hlast
      injection hlast with hlast
      rw [← hlast]
      exact (List.dropLast_append_getLast hne).symm

/-- Logging into the empty log, and into a log of 200 entries. -/
theorem logActivity_spec_witness :
    logActivity sampleEnv "x" "created" none none (.obj []) []
      = [⟨"x", "created", none, none, .obj [], sampleEnv.now⟩] ∧
    (logActivity sampleEnv "x" "created" none none (.obj [])
      (List.replicate 200 ⟨"y", "created", none, none, .obj [], sampleEnv.now⟩)).length
      ≤ 200 :=
  ⟨(logActivity_spec sampleEnv "x" "created" none none (.obj []) [] (by decide)).2.2.2.2.1
      (by decide),
   (logActivity_spec sampleEnv "x" "created" none none (.obj [])
      (List.replicate 200 ⟨"y", "created", none, none, .obj [], sampleEnv.now⟩)
      (le_of_eq (List.length_replicate _ _))).2.2.2.1⟩

/-! ## Theorems: project delete -/

/-- The project filter on a list without a `null` element. -/
theorem filterProjects_eq (id : String) (ps : List JVal) (hobj : ∀ p ∈ ps, p ≠ .null) :
    filterProjects id ps
      = some (ps.filter (fun p => decide (JVal.field p "id" ≠ some (some (.str id))))) := by
  induction ps with
  | nil => rfl
  | cons p rest ih =>
    have hrest := ih (fun q hq => hobj q (List.mem_cons_of_mem _ hq))
    have hp : p ≠ .null := hobj p (List.mem_cons_self _ _)
    obtain ⟨pid, hpid⟩ : ∃ pid, JVal.field p "id" = some pid := by
      cases p <;> simp [JVal.field] at hp ⊢
    simp only [filterProjects, hpid, hrest, List.filter_cons]
    by_cases h : pid = some (.str id)
    · have h1 : strictEq pid (some (.str id)) = true := (strictEq_str_iff _ _).mpr h
      simp only [h1]
      simp [h]
    · have h1 : strictEq pid (some (.str id)) = false := (strictEq_str_false_iff _ _).mpr h
      simp only [h1]
      simp [h]

/-- C23: deleting the project `default` answers 400 and changes nothing.  For
every other id `p`, on a store whose projects are a list of objects, the answer
is 204; the projects afterwards are those whose id is not `p`, in their order
and unchanged; every task whose projectId was `p` has projectId `default` and
all its other fields as before; every other task is unchanged; labels,
settings, history and activity log are unchanged. -/
theorem deleteProject_spec (id : String) (s : Store) (ps : List JVal)
    (hps : s.data.projects = .arr ps) (hobj : ∀ p ∈ ps, p ≠ .null) :
    deleteProject "default" s = (⟨400, errorBody "Cannot delete default project"⟩, s) ∧
    (id ≠ "default" →
      (deleteProject id s).1 = ⟨204, none⟩ ∧
      (deleteProject id s).2.data.projects
        = .arr (ps.filter (fun p => decide (JVal.field p "id" ≠ some (some (.str id))))) ∧
      (∀ p ∈ ps.filter (fun p => decide (JVal.field p "id" ≠ some (some (.str id)))),
        JVal.field p "id" ≠ some (some (.str id))) ∧
      (∀ p ∈ ps, JVal.field p "id" ≠ some (some (.str id)) →
        p ∈ ps.filter (fun p => decide (JVal.field p "id" ≠ some (some (.str id))))) ∧
      List.Forall₂
        (fun t' t =>
          (Obj.get t "projectId" = some (.str id) →
            Obj.get t' "projectId" = some (.str "default")) ∧
          (Obj.get t "projectId" ≠ some (.str id) → t' = t) ∧
          (∀ k, k ≠ "projectId" → Obj.get t' k = Obj.get t k) ∧
          t'.map Prod.fst = t.map Prod.fst)
        (deleteProject id s).2.data.tasks s.data.tasks ∧
      (deleteProject id s).2.data.labels = s.data.labels ∧
      (deleteProject id s).2.data.settings = s.data.settings ∧
      (deleteProject id s).2.history = s.history ∧
      (deleteProject id s).2.activities = s.activities) := by
  refine ⟨by simp [deleteProject], fun hid => ?_⟩
  have hres : deleteProject id s
      = (⟨204, none⟩, { s with data := { s.data with
          projects := .arr (ps.filter
            (fun p => decide (JVal.field p "id" ≠ some (some (.str id))))),
          tasks := s.data.tasks.map (fun t =>
            if strictEq (Obj.get t "projectId") (some (.str id))
            then Obj.set t "projectId" (.str "default") else t) } }) := by
    simp only [deleteProject, hid, if_false, hps, filterProjects_eq id ps hobj]
  rw [hres]
  refine ⟨rfl, rfl, ?_, ?_, ?_, rfl, rfl, rfl, rfl⟩
  · intro p hp
    simpa using (List.mem_filter.mp hp).2
  · intro p hp hne
    exact List.mem_filter.mpr ⟨hp, by simpa using hne⟩
  · simp only
    generalize s.data.tasks = tasks
    induction tasks with
    | nil => exact List.Forall₂.nil
    | cons t rest ih =>
      rw [List.map_cons]
      refine List.Forall₂.cons ?_ ih
      by_cases h : Obj.get t "projectId" = some (.str id)
      · have h1 : strictEq (Obj.get t "projectId") (some (.str id)) = true :=
          (strictEq_str_iff _ _).mpr h
        have hhas : Obj.has t "projectId" = true := by
          rw [has_eq_isSome, h]
          rfl
        simp only [h1, if_true]
        refine ⟨fun _ => by rw [get_set]; simp, fun hne => absurd h hne, ?_, ?_⟩
        · intro k hk
          rw [get_set]
          simp [hk]
        · simp only [Obj.set, hhas, if_true, List.map_map]
          apply List.map_congr_left
          intro e _
          by_cases he : e.1 = "projectId" <;> simp [he]
      · have h1 : strictEq (Obj.get t "projectId") (some (.str id)) = false :=
          (strictEq_str_false_iff _ _).mpr h
        have e : (if strictEq (Obj.get t "projectId") (some (.str id)) = true
            then Obj.set t "projectId" (.str "default") else t) = t := by
          simp [h1]
        rw [e]
        exact ⟨fun h2 => absurd h2 h, fun _ => rfl, fun _ _ => rfl, rfl⟩

/-- Deleting project `p1` of the sample store: the task of `p1` moves to the
default project. -/
theorem deleteProject_spec_witness :
    (deleteProject "p1" sampleStoreWithRedo).1 = ⟨204, none⟩ ∧
    (deleteProject "p1" sampleStoreWithRedo).2.data.projects
      = .arr [.obj [("id", .str "default")]] :=
  ⟨((deleteProject_spec "p1" sampleStoreWithRedo
      [.obj [("id", .str "default")], .obj [("id", .str "p1")]] rfl (by decide)).2
      (by decide)).1,
   (((deleteProject_spec "p1" sampleStoreWithRedo
      [.obj [("id", .str "default")], .obj [("id", .str "p1")]] rfl (by decide)).2
      (by decide)).2.1).trans (by decide)⟩

/-! ## Theorems: export and import -/

/-- Writing the value a property already has changes no property. -/
theorem get_set_self (o : Obj) (k : String) (v : JVal) (h : Obj.get o k = some v) (k' : String) :
    Obj.get (Obj.set o k v) k' = Obj.get o k' := by
  rw [get_set]
  by_cases hk : k' = k
  · simp [hk, h]
  · simp [hk]

/-- Writing a property the object has keeps the keys and their order. -/
theorem keys_set (o : Obj) (k : String) (v : JVal) (h : Obj.has o k = true) :
    (Obj.set o k v).map Prod.fst = o.map Prod.fst := by
  simp only [Obj.set, h, if_true, List.map_map]
  apply List.map_congr_left
  intro e _
  by_cases he : e.1 = k <;> simp [he]

/-- Writing the value a property already has, in an object with distinct
keys, gives the object back. -/
theorem set_self_of_nodup (o : Obj) (k : String) (v : JVal) (h : Obj.get o k = some v)
    (hk : (o.map Prod.fst).Nodup) : Obj.set o k v = o := by
  have hhas : Obj.has o k = true := by
    rw [has_eq_isSome, h]
    rfl
  simp only [Obj.set, hhas, if_true]
  induction o with
  | nil => rfl
  | cons e o ih =>
    rw [List.map_cons] at hk ⊢
    obtain ⟨hnot, hnodup⟩ := List.nodup_cons.mp hk
    rw [get_cons] at h
    by_cases he : e.1 = k
    · simp only [he, if_true, Option.some.injEq] at h
      have hrest : ∀ x ∈ o, ¬ x.1 = k := by
        intro x hx hxk
        exact hnot (List.mem_map.mpr ⟨x, hx, by rw [hxk, he]⟩)
      have hmap : o.map (fun x => if (x.1 == k) = true then (x.1, v) else x) = o := by
        conv_rhs => rw [← List.map_id o]
        apply List.map_congr_left
        intro x hx
        simp [hrest x hx]
      rw [hmap]
      have : (if (e.1 == k) = true then (e.1, v) else e) = e := by
        simp only [he, beq_self_eq_true, if_true]
        rw [← he, ← h]
      rw [this]
    · simp only [he, if_false] at h
      have hhas2 : Obj.has o k = true := by
        rw [has_eq_isSome, h]
        rfl
      rw [ih h hnodup hhas2]
      simp [he]

/-- The full-replace import of task objects that all carry a truthy id
generates no id. -/
theorem importTasks_objects (env : Env) (tasks : List Task)
    (hid : ∀ t ∈ tasks, truthy (Obj.get t "id") = true) (n : Nat) :
    importTasks env n (tasks.map JVal.obj)
      = some (tasks.map (fun t => Obj.set t "id" ((Obj.get t "id").getD .null))) := by
  induction tasks with
  | nil => rfl
  | cons t rest ih =>
    have ht := hid t (List.mem_cons_self _ _)
    have hrest := ih (fun x hx => hid x (List.mem_cons_of_mem _ hx))
    obtain ⟨v, hv⟩ : ∃ v, Obj.get t "id" = some v := by
      cases h : Obj.get t "id" with
      | none => rw [h] at ht; simp [truthy] at ht
      | some v => exact ⟨v, rfl⟩
    have hor : orDefault (Obj.get t "id") (.str (env.uuids n)) = v := by
      rw [hv] at ht ⊢
      simp [orDefault, ht]
    simp only [List.map_cons, importTasks, JVal.field, spreadEntries, hor, ht, if_true, hrest]
    simp [hv]
/-- The data an import of the export document of `source` writes into a
store holding `target`, when every exported task has a truthy id. -/
theorem importedData_exportJson (env : Env) (source target : Data)
    (hid : ∀ t ∈ source.tasks, truthy (Obj.get t "id") = true) :
    importedData env (exportJson source) target
      = some { target with
          tasks := source.tasks.map (fun t => Obj.set t "id" ((Obj.get t "id").getD .null)),
          projects := if truthy (some source.projects) = true then source.projects
            else target.projects,
          labels := if truthy (some source.labels) = true then source.labels
            else target.labels } := by
  have h1 : JVal.field (exportJson source) "tasks"
      = some (some (.arr (source.tasks.map JVal.obj))) := rfl
  have h2 : JVal.field (exportJson source) "projects" = some (some source.projects) := rfl
  have h3 : JVal.field (exportJson source) "labels" = some (some source.labels) := rfl
  have h4 : truthy (some (JVal.arr (source.tasks.map JVal.obj))) = true := rfl
  simp only [importedData, h1, h2, h3, h4, if_true,
    importTasks_objects env source.tasks hid 0]
  by_cases hp : truthy (some source.projects) = true <;>
    by_cases hl : truthy (some source.labels) = true <;> simp [hp, hl]

/-- C24: in a store whose tasks all have a truthy id (a non-empty text is
one), importing the document that the JSON export returns answers 200 with the
number of tasks and leaves as many tasks as before, in the same order, each
with the same keys in the same order and the same value for every field, and
leaves projects, labels and settings as they were; when the keys of every task
are distinct, as they are in parsed JSON, the data is the same data.  Imported
into any other store, the document brings the exported tasks. -/
theorem export_import_roundtrip (env : Env) (s : Store)
    (hid : ∀ t ∈ s.data.tasks, truthy (Obj.get t "id") = true) :
    (importHandler env (exportJson s.data) s).1
      = ⟨200, some (.obj [("success", .bool true), ("taskCount", .num s.data.tasks.length)])⟩ ∧
    List.Forall₂ (fun t' t => (∀ k, Obj.get t' k = Obj.get t k) ∧
        t'.map Prod.fst = t.map Prod.fst)
      (importHandler env (exportJson s.data) s).2.data.tasks s.data.tasks ∧
    (importHandler env (exportJson s.data) s).2.data.projects = s.data.projects ∧
    (importHandler env (exportJson s.data) s).2.data.labels = s.data.labels ∧
    (importHandler env (exportJson s.data) s).2.data.settings = s.data.settings ∧
    ((∀ t ∈ s.data.tasks, (t.map Prod.fst).Nodup) →
      (importHandler env (exportJson s.data) s).2.data = s.data) ∧
    (∀ target : Store,
      List.Forall₂ (fun t' t => (∀ k, Obj.get t' k = Obj.get t k) ∧
          t'.map Prod.fst = t.map Prod.fst)
        (importHandler env (exportJson s.data) target).2.data.tasks s.data.tasks) := by
  have hset : ∀ tasks : List Task, (∀ t ∈ tasks, truthy (Obj.get t "id") = true) →
      List.Forall₂ (fun t' t => (∀ k, Obj.get t' k = Obj.get t k) ∧
          t'.map Prod.fst = t.map Prod.fst)
        (tasks.map (fun t => Obj.set t "id" ((Obj.get t "id").getD .null))) tasks := by
    intro tasks
    induction tasks with
    | nil => intro _; exact List.Forall₂.nil
    | cons t rest ih =>
      intro h
      rw [List.map_cons]
      refine List.Forall₂.cons ?_ (ih (fun x hx => h x (List.mem_cons_of_mem _ hx)))
      have ht := h t (List.mem_cons_self _ _)
      obtain ⟨v, hv⟩ : ∃ v, Obj.get t "id" = some v := by
        cases h : Obj.get t "id" with
        | none => rw [h] at ht; simp [truthy] at ht
        | some v => exact ⟨v, rfl⟩
      rw [hv]
      refine ⟨fun k => get_set_self t "id" v hv k, keys_set t "id" v ?_⟩
      rw [has_eq_isSome, hv]
      rfl
  have hres : ∀ target : Store, importHandler env (exportJson s.data) target
      = (⟨200, some (.obj [("success", .bool true), ("taskCount", .num s.data.tasks.length)])⟩,
          { target with
            data := { target.data with
              tasks := s.data.tasks.map
                (fun t => Obj.set t "id" ((Obj.get t "id").getD .null)),
              projects := if truthy (some s.data.projects) = true then s.data.projects
                else target.data.projects,
              labels := if truthy (some s.data.labels) = true then s.data.labels
                else target.data.labels },
            history := saveToHistory env "import" target.data.tasks target.history }) := by
    intro target
    simp only [importHandler, importedData_exportJson env s.data target.data hid,
      List.length_map]
  refine ⟨by rw [hres s], ?_, ?_, ?_, by rw [hres s], ?_, ?_⟩
  · rw [hres s]
    exact hset s.data.tasks hid
  · rw [hres s]
    simp
  · rw [hres s]
    simp
  · intro hkeys
    rw [hres s]
    have htasks : s.data.tasks.map (fun t => Obj.set t "id" ((Obj.get t "id").getD .null))
        = s.data.tasks := by
      conv_rhs => rw [← List.map_id s.data.tasks]
      apply List.map_congr_left
      intro t ht
      have h1 := hid t ht
      obtain ⟨v, hv⟩ : ∃ v, Obj.get t "id" = some v := by
        cases h : Obj.get t "id" with
        | none => rw [h] at h1; simp [truthy] at h1
        | some v => exact ⟨v, rfl⟩
      rw [hv]
      exact set_self_of_nodup t "id" v hv (hkeys t ht)
    simp only [htasks]
    cases hd : s.data
    simp
  · intro target
    rw [hres target]
    exact hset s.data.tasks hid

/-- The export of the sample store, imported again. -/
theorem export_import_roundtrip_witness :
    (importHandler sampleEnv (exportJson sampleStore.data) sampleStore).2.data
      = sampleStore.data :=
  (export_import_roundtrip sampleEnv sampleStore (by decide)).2.2.2.2.2.1 (by decide)

/-! ## Theorems: CSV export -/

/-- A `map` whose callback is defined on every element returns the results,
one per element and in order. -/
theorem allDefined_map {α β : Type} (f : α → Option β) (l : List α)
    (h : ∀ x ∈ l, (f x).isSome = true) :
    ∃ ys, allDefined (l.map f) = some ys ∧ List.Forall₂ (fun y x => f x = some y) ys l := by
  induction l with
  | nil => exact ⟨[], rfl, List.Forall₂.nil⟩
  | cons x rest ih =>
    obtain ⟨ys, hys, hall⟩ := ih (fun z hz => h z (List.mem_cons_of_mem _ hz))
    obtain ⟨y, hy⟩ := Option.isSome_iff_exists.mp (h x (List.mem_cons_self _ _))
    refine ⟨y :: ys, ?_, List.Forall₂.cons hy hall⟩
    simp only [List.map_cons, hy, allDefined, hys]

/-- C27: a task with progress 0, such as every task created without a
progress, is exported by the file-backed variant with the empty cell for
`progress` (and for `actualHours`), where the text of the value is `0`; the
hosted variant exports the value 0 as the cell holding `0`. -/
theorem exportCsv_zero_progress :
    Obj.get [("id", JVal.str "a"), ("progress", JVal.num 0)] "progress" = some (.num 0) ∧
    JVal.toStr (.num 0) = some "0" ∧
    csvCell [("id", .str "a"), ("progress", .num 0)] "progress"
      = some ⟨[quoteChar, quoteChar]⟩ ∧
    csvCell [("id", .str "a"), ("progress", .num 0)] "progress"
      ≠ some ⟨[quoteChar, '0', quoteChar]⟩ ∧
    exportCsv [[("id", .str "a"), ("progress", .num 0)]]
      = some (String.intercalate "\n"
          [String.intercalate "," csvHeaders,
           String.intercalate ","
             (⟨[quoteChar, 'a', quoteChar]⟩ :: List.replicate 14 ⟨[quoteChar, quoteChar]⟩)]) ∧
    ((createTask sampleEnv [("name", .str "Write report")] sampleStore).2.data.tasks.getLast?).map
        (fun t => (Obj.get t "progress", csvCell t "progress",
          Obj.get t "actualHours", csvCell t "actualHours"))
      = some (some (.num 0), some ⟨[quoteChar, quoteChar]⟩,
          some (.num 0), some ⟨[quoteChar, quoteChar]⟩) ∧
    hostedCsvCell (some (.num 0)) = some ⟨[quoteChar, '0', quoteChar]⟩ := by
  refine ⟨by decide, by decide, by decide, by decide, ?_, ?_, by decide⟩
  · rfl
  · rfl

/-- The shape of the CSV document when no cell throws: the line of the 15
column names joined by commas, followed by one record per task in collection
order, the records joined by line feeds; a record has one cell per column in
that order, joined by commas; a cell is the text `(t[h] || '').toString()`
between double quotes, every double quote of the text doubled and every other
character kept. -/
theorem exportCsv_records (tasks : List Task)
    (hconv : ∀ t ∈ tasks, ∀ h ∈ csvHeaders, (csvText (Obj.get t h)).isSome = true) :
    String.intercalate "," csvHeaders
      = "id,name,start,end,progress,type,status,priority,category,color,description," ++
        "assignee,projectId,estimatedHours,actualHours" ∧
    csvHeaders.length = 15 ∧
    (∃ rows : List String,
      exportCsv tasks
        = some (String.intercalate "\n" (String.intercalate "," csvHeaders :: rows)) ∧
      List.Forall₂ (fun row t => ∃ cells : List String,
          row = String.intercalate "," cells ∧
          List.Forall₂ (fun cell h => ∃ text, csvText (Obj.get t h) = some text ∧
              cell = String.singleton quoteChar ++ doubleQuotes text ++
                String.singleton quoteChar)
            cells csvHeaders)
        rows tasks) ∧
    (∀ v, truthy (some v) = true → csvText (some v) = v.toStr) ∧
    (∀ x : String, csvText (some (.str x)) = some x) ∧
    doubleQuotes "" = "" ∧
    (∀ a b : String, doubleQuotes (a ++ b) = doubleQuotes a ++ doubleQuotes b) ∧
    doubleQuotes (String.singleton quoteChar) = ⟨[quoteChar, quoteChar]⟩ ∧
    (∀ c : Char, c ≠ quoteChar → doubleQuotes (String.singleton c) = String.singleton c) := by
  refine ⟨by decide, rfl, ?_, ?_, ?_, rfl, ?_, by decide, ?_⟩
  · have hrow : ∀ t ∈ tasks, (csvRow t).isSome = true := by
      intro t ht
      obtain ⟨cells, hcells, _⟩ := allDefined_map (csvCell t) csvHeaders (by
        intro h hh
        obtain ⟨text, htext⟩ := Option.isSome_iff_exists.mp (hconv t ht h hh)
        simp [csvCell, htext])
      simp [csvRow, hcells]
    obtain ⟨rows, hrows, hall⟩ := allDefined_map csvRow tasks hrow
    refine ⟨rows, by simp [exportCsv, hrows], ?_⟩
    refine List.Forall₂.imp ?_ hall
    intro row t hrt
    simp only [csvRow, Option.map_eq_some'] at hrt
    obtain ⟨cells, hcells, rfl⟩ := hrt
    obtain ⟨cells', hcells', hall'⟩ := allDefined_map (csvCell t) csvHeaders (by
      intro h _
      cases hc : allDefined (csvHeaders.map (csvCell t)) with
      | none => rw [hc] at hcells; cases hcells
      | some _ =>
        cases hcell : csvCell t h with
        | some _ => rfl
        | none =>
          exfalso
          rename_i hmem _
          have key : ∀ l : List String, h ∈ l →
              allDefined (l.map (csvCell t)) = none := by
            intro l
            induction l with
            | nil => intro hm; cases hm
            | cons a l ih =>
              intro hm
              rcases List.mem_cons.mp hm with rfl | hm
              · simp [allDefined, hcell]
              · cases ha : csvCell t a <;> simp [allDefined, ha, ih hm]
          rw [key csvHeaders hmem] at hc
          cases hc)
    rw [hcells] at hcells'
    injection hcells' with hcells'
    subst hcells'
    refine ⟨cells, rfl, List.Forall₂.imp ?_ hall'⟩
    intro cell h hcell
    simp only [csvCell, Option.map_eq_some'] at hcell
    obtain ⟨text, htext, rfl⟩ := hcell
    exact ⟨text, htext, rfl⟩
  · intro v hv
    simp [csvText, orDefault, hv]
  · intro x
    by_cases hx : x = ""
    · subst hx
      rfl
    · simp [csvText, orDefault, truthy, hx, JVal.toStr]
  · intro a b
    simp [doubleQuotes, String.data_append, List.map_append, List.flatten_append,
      String.ext_iff]
  · intro c hc
    simp [doubleQuotes, String.singleton, hc, String.ext_iff]

/-- The export of one task whose name holds a double quote. -/
theorem exportCsv_records_witness :
    ∃ rows : List String,
      exportCsv [[("id", .str "a"), ("name", .str ⟨['6', quoteChar]⟩)]]
        = some (String.intercalate "\n" (String.intercalate "," csvHeaders :: rows)) ∧
      rows.length = 1 := by
  obtain ⟨rows, h1, h2⟩ :=
    (exportCsv_records [[("id", .str "a"), ("name", .str ⟨['6', quoteChar]⟩)]]
      (by decide)).2.2.1
  exact ⟨rows, h1, h2.length_eq⟩

/-! ## Theorems: milestone invariant -/

/-- The tasks an update leaves. -/
theorem updateTask_tasks (env : Env) (id : String) (body : Obj) (s : Store) :
    (updateTask env id body s).2.data.tasks
      = (match findTaskIndex s.data.tasks (some (.str id)) with
        | none => s.data.tasks
        | some index => s.data.tasks.set index (spread (s.data.tasks.getD index []) body)) := by
  unfold updateTask
  simp only
  cases findTaskIndex s.data.tasks (some (.str id)) with
  | none => rfl
  | some index =>
    simp only
    split <;> rfl

/-- The tasks a create leaves: the old ones, followed by the new task when the
create succeeds. -/
theorem createTask_tasks (env : Env) (body : Obj) (s : Store) :
    (createTask env body s).2.data.tasks = s.data.tasks ∨
    ∃ category priority tags estimatedHours,
      (createTask env body s).2.data.tasks
        = s.data.tasks ++ [newTaskObject env body category priority tags estimatedHours] := by
  unfold createTask
  simp only
  split
  · exact Or.inr ⟨_, _, _, _, rfl⟩
  · exact Or.inl rfl

/-- The value `x || d` is a value other than the default only when `x` is
that value. -/
theorem orDefault_eq_of_ne (x : Option JVal) (d v : JVal) (h : orDefault x d = v)
    (hne : v ≠ d) : x = some v := by
  cases x with
  | none => exact absurd h.symm hne
  | some y =>
    simp only [orDefault] at h
    split at h
    · rw [h]
    · exact absurd h.symm hne

/-- The body of a save request of a form that has a type and a start: its type
is the type of the form, and for a milestone its end is its start. -/
theorem saveTaskData_spec (formData : Obj) (start : JVal)
    (hstart : Obj.get formData "start" = some start) :
    Obj.get (saveTaskData formData) "type" = Obj.get formData "type" ∧
    Obj.get (saveTaskData formData) "start" = some start ∧
    (Obj.get formData "type" = some (.str "milestone") →
      Obj.get (saveTaskData formData) "end" = some start) := by
  unfold saveTaskData
  by_cases hm : Obj.get formData "type" = some (.str "milestone")
  · have h1 : strictEq (Obj.get formData "type") (some (.str "milestone")) = true :=
      (strictEq_str_iff _ _).mpr hm
    simp only [h1, if_true, hstart, get_set]
    refine ⟨?_, ?_, fun _ => ?_⟩ <;> simp [hstart]
  · have h1 : strictEq (Obj.get formData "type") (some (.str "milestone")) = false :=
      (strictEq_str_false_iff _ _).mpr hm
    rw [if_neg (by simp [h1])]
    exact ⟨rfl, hstart, fun h => absurd h hm⟩

/-- Replacing one task by a task that meets the milestone condition keeps the
invariant. -/
theorem milestoneInvariant_set (tasks : List Task) (i : Nat) (t : Task)
    (hinv : milestoneInvariant tasks)
    (ht : Obj.get t "type" = some (.str "milestone") → Obj.get t "end" = Obj.get t "start") :
    milestoneInvariant (tasks.set i t) := by
  intro x hx
  rcases List.mem_or_eq_of_mem_set hx with h | h
  · exact hinv x h
  · rw [h]
    exact ht

/-- An update keeps the milestone invariant when the merged task meets the
milestone condition. -/
theorem milestoneInvariant_updateTask (env : Env) (id : String) (body : Obj) (s : Store)
    (hinv : milestoneInvariant s.data.tasks)
    (hmerged : ∀ t ∈ s.data.tasks, Obj.get t "id" = some (.str id) →
      Obj.get (spread t body) "type" = some (.str "milestone") →
      Obj.get (spread t body) "end" = Obj.get (spread t body) "start") :
    milestoneInvariant (updateTask env id body s).2.data.tasks := by
  rw [updateTask_tasks]
  cases hidx : findTaskIndex s.data.tasks (some (.str id)) with
  | none => exact hinv
  | some index =>
    obtain ⟨t, ht, hid, _⟩ := findTaskIndex_some _ _ _ hidx
    have hget : s.data.tasks.getD index [] = t := by
      rw [List.getD_eq_getElem?_getD, ht]
      rfl
    simp only [hget]
    apply milestoneInvariant_set _ _ _ hinv
    exact hmerged t (List.getElem?_mem ht) ((strictEq_str_iff _ _).mp hid)

/-- The backend stores the dates of the body: a create, an update, a batch
update and an import with a milestone whose end is not its start, and a drag
request with two different days on a milestone, break the invariant. -/
theorem milestone_invariant_broken :
    milestoneInvariant sampleStore.data.tasks ∧
    (createTask sampleEnv
      [("name", .str "Launch"), ("type", .str "milestone"), ("start", .str "2024-05-01"),
       ("end", .str "2024-05-09")] sampleStore).1.status = 201 ∧
    ¬ milestoneInvariant (createTask sampleEnv
      [("name", .str "Launch"), ("type", .str "milestone"), ("start", .str "2024-05-01"),
       ("end", .str "2024-05-09")] sampleStore).2.data.tasks ∧
    (updateTask sampleEnv "a"
      [("type", .str "milestone"), ("start", .str "2024-05-01"), ("end", .str "2024-05-09")]
      sampleStore).1.status = 200 ∧
    ¬ milestoneInvariant (updateTask sampleEnv "a"
      [("type", .str "milestone"), ("start", .str "2024-05-01"), ("end", .str "2024-05-09")]
      sampleStore).2.data.tasks ∧
    ¬ milestoneInvariant (batchUpdate sampleEnv
      [[("id", .str "a"), ("type", .str "milestone"), ("start", .str "2024-05-01"),
        ("end", .str "2024-05-09")]] sampleStore).2.data.tasks ∧
    (importHandler sampleEnv
      (.arr [.obj [("id", .str "m"), ("type", .str "milestone"), ("start", .str "2024-05-01"),
        ("end", .str "2024-05-09")]]) sampleStore).1.status = 200 ∧
    ¬ milestoneInvariant (importHandler sampleEnv
      (.arr [.obj [("id", .str "m"), ("type", .str "milestone"), ("start", .str "2024-05-01"),
        ("end", .str "2024-05-09")]]) sampleStore).2.data.tasks := by
  decide

/-- C21, as amended: the backend stores the dates a body carries and checks
nothing, so the invariant is kept by the requests of the frontend, not by every
create, update, batch update or import.  On a store that meets the milestone
invariant, the save request of a form that has a type and a start that is not
empty, sent as a create or as an update, leaves a store that meets it; so does
a drag request whose start and end are the same day, and any drag request for
an id whose tasks are no milestones. -/
theorem milestone_invariant_frontend (env : Env) (s : Store) (formData : Obj)
    (hinv : milestoneInvariant s.data.tasks)
    (htype : (Obj.get formData "type").isSome = true)
    (hstart : truthy (Obj.get formData "start") = true) :
    (∀ editingTask : Option String,
      milestoneInvariant (handleSaveTask env editingTask formData s).2.data.tasks) ∧
    (∀ id day : String, milestoneInvariant (handleTaskChange env id day day s).2.data.tasks) ∧
    (∀ id startDay endDay : String,
      (∀ t ∈ s.data.tasks, Obj.get t "id" = some (.str id) →
        Obj.get t "type" ≠ some (.str "milestone")) →
      milestoneInvariant (handleTaskChange env id startDay endDay s).2.data.tasks) := by
  obtain ⟨start, hs⟩ : ∃ v, Obj.get formData "start" = some v := by
    cases h : Obj.get formData "start" with
    | none => rw [h] at hstart; simp [truthy] at hstart
    | some v => exact ⟨v, rfl⟩
  obtain ⟨ty, hty⟩ := Option.isSome_iff_exists.mp htype
  obtain ⟨h1, h2, h3⟩ := saveTaskData_spec formData start hs
  refine ⟨?_, ?_, ?_⟩
  · intro editingTask
    cases editingTask with
    | some id =>
      apply milestoneInvariant_updateTask env id _ s hinv
      intro t _ _ hm
      rw [get_spread, h1, hty] at hm
      simp only [Option.some.injEq] at hm
      rw [get_spread, get_spread, h2, h3 (by rw [hty, hm])]
    | none =>
      rcases createTask_tasks env (saveTaskData formData) s with h | ⟨c, p, tg, e, h⟩
      · show milestoneInvariant (createTask env (saveTaskData formData) s).2.data.tasks
        rw [h]
        exact hinv
      · show milestoneInvariant (createTask env (saveTaskData formData) s).2.data.tasks
        rw [h]
        intro t ht
        rcases List.mem_append.mp ht with ht | ht
        · exact hinv t ht
        · rw [List.mem_singleton] at ht
          subst ht
          intro hm
          have e1 : Obj.get (newTaskObject env (saveTaskData formData) c p tg e) "type"
              = some (orDefault (Obj.get (saveTaskData formData) "type") (.str "task")) := rfl
          have e2 : Obj.get (newTaskObject env (saveTaskData formData) c p tg e) "start"
              = some (orDefault (Obj.get (saveTaskData formData) "start") (.str env.today)) :=
            rfl
          have e3 : Obj.get (newTaskObject env (saveTaskData formData) c p tg e) "end"
              = some (orDefault (Obj.get (saveTaskData formData) "end") (.str env.nextWeek)) :=
            rfl
          rw [e1] at hm
          injection hm with hm
          have hbody := orDefault_eq_of_ne _ _ _ hm (by decide)
          rw [h1] at hbody
          rw [e2, e3, h2, h3 hbody]
          rw [hs] at hstart
          simp [orDefault, hstart]
  · intro id day
    apply milestoneInvariant_updateTask env id _ s hinv
    intro t _ _ _
    rw [get_spread, get_spread]
    rfl
  · intro id startDay endDay hno
    apply milestoneInvariant_updateTask env id _ s hinv
    intro t ht hid hm
    rw [get_spread] at hm
    exact absurd hm (hno t ht hid)

/-- Saving the milestone form with a start of 2024-05-01 as a new task. -/
theorem milestone_invariant_frontend_witness :
    milestoneInvariant (handleSaveTask sampleEnv none
      [("name", .str "Launch"), ("start", .str "2024-05-01"), ("end", .str "2024-05-09"),
       ("type", .str "milestone")] sampleStore).2.data.tasks :=
  (milestone_invariant_frontend sampleEnv sampleStore
    [("name", .str "Launch"), ("start", .str "2024-05-01"), ("end", .str "2024-05-09"),
     ("type", .str "milestone")] (by decide) rfl rfl).1 none

/-! ## Theorems: unique ids -/

/-- Strictly equal values are equal. -/
theorem strictEq_eq (x y : Option JVal) (h : strictEq x y = true) : x = y := by
  rcases x with _ | x <;> rcases y with _ | y
  · rfl
  · cases y <;> simp [strictEq] at h
  · cases x <;> simp [strictEq] at h
  · cases x <;> cases y <;> simp [strictEq] at h <;> subst_vars <;> rfl

/-- Values that are not strictly equal differ, when one of them is no array
and no object. -/
theorem ne_of_strictEq_false (x y : Option JVal) (hy : primitiveId y = true)
    (h : strictEq x y = false) : x ≠ y := by
  intro e
  subst e
  rcases x with _ | x
  · simp [strictEq] at h
  · cases x <;> simp [strictEq, primitiveId] at h hy

/-- Replacing a task by one with the same id keeps the list of ids. -/
theorem ids_set (tasks : List Task) (i : Nat) (t t' : Task) (ht : tasks[i]? = some t)
    (hid : Obj.get t' "id" = Obj.get t "id") :
    (tasks.set i t').map (fun x => Obj.get x "id") = tasks.map (fun x => Obj.get x "id") := by
  rw [List.map_set, hid]
  apply List.ext_getElem?
  intro j
  by_cases hj : i = j
  · subst hj
    have hlt : i < tasks.length := (List.getElem?_eq_some.mp ht).1
    rw [List.getElem?_set_self (by simpa using hlt), List.getElem?_map, ht]
    rfl
  · rw [List.getElem?_set_ne hj]

/-- One round of the batch loop keeps the list of ids. -/
theorem ids_applyUpdate (tasks : List Task) (u : Obj) :
    (applyUpdate tasks u).map (fun x => Obj.get x "id")
      = tasks.map (fun x => Obj.get x "id") := by
  unfold applyUpdate
  cases hidx : findTaskIndex tasks (Obj.get u "id") with
  | none => rfl
  | some i =>
    obtain ⟨t, ht, hid, _⟩ := findTaskIndex_some _ _ _ hidx
    have hget : tasks.getD i [] = t := by
      rw [List.getD_eq_getElem?_getD, ht]
      rfl
    simp only [hget]
    apply ids_set tasks i t _ ht
    rw [get_spread]
    have := strictEq_eq _ _ hid
    cases hu : Obj.get u "id" with
    | none => rfl
    | some v => rw [this, hu]

/-- The batch loop keeps the list of ids. -/
theorem ids_foldl_applyUpdate (updates : List Obj) (tasks : List Task) :
    (updates.foldl applyUpdate tasks).map (fun x => Obj.get x "id")
      = tasks.map (fun x => Obj.get x "id") := by
  induction updates generalizing tasks with
  | nil => rfl
  | cons u rest ih => rw [List.foldl_cons, ih, ids_applyUpdate]

/-- The pruning loop keeps the list of ids. -/
theorem ids_pruneAll (T : String) (l l' : List Task) (h : pruneAll T l = some l') :
    l'.map (fun x => Obj.get x "id") = l.map (fun x => Obj.get x "id") := by
  induction l generalizing l' with
  | nil =>
    simp only [pruneAll, Option.some.injEq] at h
    rw [← h]
  | cons t rest ih =>
    simp only [pruneAll] at h
    cases hp : pruneDependencies T t with
    | none => simp [hp] at h
    | some t' =>
      cases hr : pruneAll T rest with
      | none => simp [hp, hr] at h
      | some rest' =>
        simp only [hp, hr, Option.some.injEq] at h
        rw [← h, List.map_cons, List.map_cons, ih rest' hr]
        congr 1
        simp only [pruneDependencies] at hp
        split at hp
        · injection hp with hp
          rw [← hp, get_set]
          simp
        · cases hp

/-- Recording a mutation that leaves distinct ids keeps the ids distinct in
the store and in the history. -/
theorem storeUniqueIds_record (env : Env) (action : String) (s s' : Store)
    (h : storeUniqueIds s) (ht : uniqueIds s'.data.tasks)
    (hh : s'.history = saveToHistory env action s.data.tasks s.history) :
    storeUniqueIds s' := by
  refine ⟨ht, ?_, ?_⟩
  · intro e he
    rw [hh, (saveToHistory_stacks env action s.data.tasks s.history).1] at he
    have hmem : e ∈ s.history.undoStack ++
        [(⟨action, s.data.tasks, env.now⟩ : HistoryEntry)] := by
      split at he
      · exact List.mem_of_mem_tail he
      · exact he
    rcases List.mem_append.mp hmem with h1 | h1
    · exact h.2.1 e h1
    · rw [List.mem_singleton] at h1
      rw [h1]
      exact h.1
  · intro e he
    rw [hh, (saveToHistory_stacks env action s.data.tasks s.history).2] at he
    cases he

/-- What a create leaves: the store as it was, or the old tasks followed by a
task with the generated id, and the recorded history. -/
theorem createTask_store (env : Env) (body : Obj) (s : Store) :
    (createTask env body s).2 = s ∨
    ∃ newTask : Task, Obj.get newTask "id" = some (.str (env.uuids 0)) ∧
      (createTask env body s).2.data.tasks = s.data.tasks ++ [newTask] ∧
      (createTask env body s).2.history = saveToHistory env "create" s.data.tasks s.history := by
  unfold createTask
  simp only
  split
  · refine Or.inr ⟨_, ?_, rfl, rfl⟩
    rfl
  · exact Or.inl rfl

/-- What an update leaves: the store as it was, or the recorded history. -/
theorem updateTask_store (env : Env) (id : String) (body : Obj) (s : Store) :
    (updateTask env id body s).2 = s ∨
    (updateTask env id body s).2.history = saveToHistory env "update" s.data.tasks s.history := by
  unfold updateTask
  simp only
  cases findTaskIndex s.data.tasks (some (.str id)) with
  | none => exact Or.inl rfl
  | some index =>
    simp only
    split <;> exact Or.inr rfl

/-- What a delete leaves: the store as it was, or the pruned kept tasks and
the recorded history. -/
theorem deleteTask_store (env : Env) (id : String) (s : Store) :
    (deleteTask env id s).2 = s ∨
    ∃ tasks, pruneAll id (s.data.tasks.filter (fun t =>
        !strictEq (Obj.get t "id") (some (.str id)) &&
          !strictEq (Obj.get t "parentId") (some (.str id)))) = some tasks ∧
      (deleteTask env id s).2.data.tasks = tasks ∧
      (deleteTask env id s).2.history = saveToHistory env "delete" s.data.tasks s.history := by
  unfold deleteTask
  simp only
  split
  · exact Or.inl rfl
  · split
    · exact Or.inl rfl
    · rename_i tasks htasks
      exact Or.inr ⟨tasks, htasks, rfl, rfl⟩

/-- What an import leaves: the store as it was, or the imported data and the
recorded history. -/
theorem importHandler_store (env : Env) (importData : JVal) (s : Store) :
    ((importHandler env importData s).2 = s ∧ importedData env importData s.data = none) ∨
    ∃ data, importedData env importData s.data = some data ∧
      (importHandler env importData s).2.data = data ∧
      (importHandler env importData s).2.history
        = saveToHistory env "import" s.data.tasks s.history := by
  unfold importHandler
  simp only
  cases h : importedData env importData s.data with
  | none => exact Or.inl ⟨rfl, rfl⟩
  | some data => exact Or.inr ⟨data, rfl, rfl, rfl⟩

/-- The bare-array import of task objects keeps the ids distinct, when the ids
of the document are compared by value and no generated id occurs in the store
or in the document. -/
theorem mergeImported_unique (env : Env) (hinj : Function.Injective env.uuids)
    (objs : List Obj)
    (hprim : ∀ o ∈ objs, primitiveId (Obj.get o "id") = true)
    (hdoc : ∀ (m : Nat), ∀ o ∈ objs, Obj.get o "id" ≠ some (.str (env.uuids m))) :
    ∀ (n : Nat) (tasks : List Task), uniqueIds tasks →
      (∀ m, n ≤ m → some (JVal.str (env.uuids m)) ∉ tasks.map (fun t => Obj.get t "id")) →
      ∃ tasks', mergeImported env n tasks (objs.map JVal.obj) = some tasks' ∧
        uniqueIds tasks' := by
  induction objs with
  | nil =>
    intro n tasks hu _
    exact ⟨tasks, rfl, hu⟩
  | cons o rest ih =>
    intro n tasks hu hfresh
    have ih' := ih (fun x hx => hprim x (List.mem_cons_of_mem _ hx))
      (fun m x hx => hdoc m x (List.mem_cons_of_mem _ hx))
    have hpo := hprim o (List.mem_cons_self _ _)
    have hdo := fun m => hdoc m o (List.mem_cons_self _ _)
    simp only [List.map_cons, mergeImported, JVal.field, spreadEntries]
    cases hidx : findTaskIndex tasks (Obj.get o "id") with
    | some i =>
      simp only
      have happ : tasks.set i (spread (tasks.getD i []) o) = applyUpdate tasks o := by
        simp only [applyUpdate, hidx]
      rw [happ]
      apply ih' n
      · unfold uniqueIds
        rw [ids_applyUpdate]
        exact hu
      · intro m hm
        rw [ids_applyUpdate]
        exact hfresh m hm
    | none =>
      simp only
      have hnone := (findTaskIndex_none _ _).mp hidx
      by_cases htr : truthy (Obj.get o "id") = true
      · have hv := orDefault_of_truthy (Obj.get o "id") (.str (env.uuids n)) htr
        simp only [htr, if_true]
        apply ih' n
        · unfold uniqueIds
          rw [List.map_append, List.map_singleton, get_set]
          simp only [if_true, hv]
          apply List.Nodup.append hu (List.nodup_singleton _)
          intro x hx hx'
          rw [List.mem_singleton] at hx'
          subst hx'
          obtain ⟨t, ht, hte⟩ := List.mem_map.mp hx
          exact ne_of_strictEq_false _ _ hpo (hnone t ht) hte
        · intro m hm
          rw [List.map_append, List.map_singleton, get_set]
          simp only [if_true, hv, List.mem_append, List.mem_singleton, not_or]
          exact ⟨hfresh m hm, fun e => hdo m e.symm⟩
      · have hv : orDefault (Obj.get o "id") (.str (env.uuids n)) = .str (env.uuids n) := by
          cases hg : Obj.get o "id" with
          | none => rfl
          | some v =>
            rw [hg] at htr
            simp [orDefault, htr]
        simp only [htr, if_false, hv]
        apply ih' (n + 1)
        · unfold uniqueIds
          rw [List.map_append, List.map_singleton, get_set]
          simp only [if_true]
          apply List.Nodup.append hu (List.nodup_singleton _)
          intro x hx hx'
          rw [List.mem_singleton] at hx'
          subst hx'
          exact hfresh n (Nat.le_refl n) hx
        · intro m hm
          rw [List.map_append, List.map_singleton, get_set]
          simp only [if_true, List.mem_append, List.mem_singleton, not_or]
          refine ⟨hfresh m (by omega), fun e => ?_⟩
          injection e with e
          injection e with e
          have := hinj e
          omega

/-- The tasks a full-replace import of task objects with truthy ids writes. -/
theorem importedData_tasks (env : Env) (importData : JVal) (objs : List Obj) (data : Data)
    (hf : JVal.field importData "tasks" = some (some (.arr (objs.map JVal.obj))))
    (hid : ∀ o ∈ objs, truthy (Obj.get o "id") = true) :
    ∃ d, importedData env importData data = some d ∧
      d.tasks = objs.map (fun t => Obj.set t "id" ((Obj.get t "id").getD .null)) := by
  have h4 : truthy (some (JVal.arr (objs.map JVal.obj))) = true := rfl
  have key1 : ∀ (f : Option (Option JVal)) (d : Data),
      (match f with
        | some (some v) => if truthy (some v) then { d with projects := v } else d
        | _ => d).tasks = d.tasks := by
    intro f d
    rcases f with _ | _ | v
    · rfl
    · rfl
    · simp only
      split <;> rfl
  have key2 : ∀ (f : Option (Option JVal)) (d : Data),
      (match f with
        | some (some v) => if truthy (some v) then { d with labels := v } else d
        | _ => d).tasks = d.tasks := by
    intro f d
    rcases f with _ | _ | v
    · rfl
    · rfl
    · simp only
      split <;> rfl
  unfold importedData
  rw [hf]
  simp only [h4, if_true, importTasks_objects env objs hid 0]
  exact ⟨_, rfl, (key2 _ _).trans (key1 _ _)⟩

/-- The backend lets a body overwrite the id: an update that carries the id of
another task, and a full-replace import of two tasks with one id, succeed on a
store with distinct ids and leave two tasks with the same id. -/
theorem unique_ids_broken :
    uniqueIds sampleStore.data.tasks ∧
    (updateTask sampleEnv "a" [("id", .str "b")] sampleStore).1.status = 200 ∧
    ¬ uniqueIds (updateTask sampleEnv "a" [("id", .str "b")] sampleStore).2.data.tasks ∧
    (importHandler sampleEnv
      (.obj [("tasks", .arr [.obj [("id", .str "x")], .obj [("id", .str "x")]])])
      sampleStore).1.status = 200 ∧
    ¬ uniqueIds (importHandler sampleEnv
      (.obj [("tasks", .arr [.obj [("id", .str "x")], .obj [("id", .str "x")]])])
      sampleStore).2.data.tasks := by
  decide

/-- C22, as amended: the backend never checks ids, so distinct ids are kept by
the requests that do not bring an id of their own choice.  In a store whose
tasks, and whose snapshots in the history, have pairwise distinct ids, the ids
are still pairwise distinct, in the tasks and in the snapshots, after a create
whose generated id is fresh, an update whose body has no id or the id of the
request, a batch update, a delete, a full-replace import of task objects with
pairwise distinct truthy ids, a bare-array import of task objects whose ids are
no arrays or objects when the generated ids are distinct and occur neither in
the store nor in the document, an undo and a redo. -/
theorem unique_ids_preserved (env : Env) (s : Store) (h : storeUniqueIds s) :
    ((∀ t ∈ s.data.tasks, Obj.get t "id" ≠ some (.str (env.uuids 0))) →
      ∀ body : Obj, storeUniqueIds (createTask env body s).2) ∧
    (∀ (id : String) (body : Obj),
      (Obj.get body "id" = none ∨ Obj.get body "id" = some (.str id)) →
      storeUniqueIds (updateTask env id body s).2) ∧
    (∀ updates : List Obj, storeUniqueIds (batchUpdate env updates s).2) ∧
    (∀ id : String, storeUniqueIds (deleteTask env id s).2) ∧
    (∀ (importData : JVal) (objs : List Obj),
      JVal.field importData "tasks" = some (some (.arr (objs.map JVal.obj))) →
      uniqueIds objs → (∀ o ∈ objs, truthy (Obj.get o "id") = true) →
      storeUniqueIds (importHandler env importData s).2) ∧
    (∀ objs : List Obj, Function.Injective env.uuids →
      (∀ o ∈ objs, primitiveId (Obj.get o "id") = true) →
      (∀ (m : Nat), ∀ o ∈ objs, Obj.get o "id" ≠ some (.str (env.uuids m))) →
      (∀ (m : Nat), ∀ t ∈ s.data.tasks, Obj.get t "id" ≠ some (.str (env.uuids m))) →
      storeUniqueIds (importHandler env (.arr (objs.map JVal.obj)) s).2) ∧
    storeUniqueIds (undo env s).2 ∧
    storeUniqueIds (redo env s).2 := by
  refine ⟨?_, ?_, ?_, ?_, ?_, ?_, ?_, ?_⟩
  · intro hfresh body
    rcases createTask_store env body s with hs | ⟨newTask, hid, htasks, hhist⟩
    · rw [hs]
      exact h
    · refine storeUniqueIds_record env "create" s _ h ?_ hhist
      rw [htasks]
      unfold uniqueIds
      rw [List.map_append, List.map_singleton, hid]
      apply List.Nodup.append h.1 (List.nodup_singleton _)
      intro x hx hx'
      rw [List.mem_singleton] at hx'
      subst hx'
      obtain ⟨t, ht, hte⟩ := List.mem_map.mp hx
      exact hfresh t ht hte
  · intro id body hbody
    rcases updateTask_store env id body s with hs | hhist
    · rw [hs]
      exact h
    · refine storeUniqueIds_record env "update" s _ h ?_ hhist
      rw [updateTask_tasks]
      cases hidx : findTaskIndex s.data.tasks (some (.str id)) with
      | none => exact h.1
      | some index =>
        obtain ⟨t, ht, hid, _⟩ := findTaskIndex_some _ _ _ hidx
        have hget : s.data.tasks.getD index [] = t := by
          rw [List.getD_eq_getElem?_getD, ht]
          rfl
        simp only [hget]
        unfold uniqueIds
        rw [ids_set s.data.tasks index t _ ht]
        · exact h.1
        · rw [get_spread]
          rcases hbody with hb | hb
          · rw [hb]
          · rw [hb, (strictEq_str_iff _ _).mp hid]
  · intro updates
    refine storeUniqueIds_record env "batch_update" s _ h ?_ rfl
    show uniqueIds (updates.foldl applyUpdate s.data.tasks)
    unfold uniqueIds
    rw [ids_foldl_applyUpdate]
    exact h.1
  · intro id
    rcases deleteTask_store env id s with hs | ⟨tasks, hprune, htasks, hhist⟩
    · rw [hs]
      exact h
    · refine storeUniqueIds_record env "delete" s _ h ?_ hhist
      rw [htasks]
      unfold uniqueIds
      rw [ids_pruneAll id _ tasks hprune]
      exact List.Nodup.sublist (List.Sublist.map _ (List.filter_sublist _)) h.1
  · intro importData objs hf hobjs hid
    obtain ⟨d, hd, hdt⟩ := importedData_tasks env importData objs s.data hf hid
    rcases importHandler_store env importData s with ⟨_, hnone⟩ | ⟨data, hdata, hres, hhist⟩
    · rw [hd] at hnone
      cases hnone
    · refine storeUniqueIds_record env "import" s _ h ?_ hhist
      rw [hres]
      rw [hd] at hdata
      injection hdata with hdata
      rw [← hdata, hdt]
      unfold uniqueIds
      rw [List.map_map]
      have hids : objs.map ((fun x => Obj.get x "id") ∘
          fun t => Obj.set t "id" ((Obj.get t "id").getD .null))
          = objs.map (fun x => Obj.get x "id") := by
        apply List.map_congr_left
        intro o ho
        have ht := hid o ho
        simp only [Function.comp, get_set, if_true]
        cases hg : Obj.get o "id" with
        | none => rw [hg] at ht; simp [truthy] at ht
        | some v => rfl
      rw [hids]
      exact hobjs
  · intro objs hinj hprim hdoc hstore
    have hf : importedData env (.arr (objs.map JVal.obj)) s.data
        = (mergeImported env 0 s.data.tasks (objs.map JVal.obj)).map
            (fun tasks => { s.data with tasks := tasks }) := by
      simp only [importedData, JVal.field, truthy, Bool.false_eq_true, if_false]
      cases mergeImported env 0 s.data.tasks (objs.map JVal.obj) <;> rfl
    obtain ⟨tasks', hm, hu⟩ := mergeImported_unique env hinj objs hprim hdoc 0 s.data.tasks h.1
      (by
        intro m _ hmem
        obtain ⟨t, ht, hte⟩ := List.mem_map.mp hmem
        exact hstore m t ht hte)
    rw [hm] at hf
    rcases importHandler_store env (.arr (objs.map JVal.obj)) s with
      ⟨_, hnone⟩ | ⟨data, hdata, hres, hhist⟩
    · rw [hf] at hnone
      cases hnone
    · refine storeUniqueIds_record env "import" s _ h ?_ hhist
      rw [hres]
      rw [hf] at hdata
      simp only [Option.map_some', Option.some.injEq] at hdata
      rw [← hdata]
      exact hu
  · rcases List.eq_nil_or_concat s.history.undoStack with hnil | ⟨older, e, hcons⟩
    · have : (undo env s).2 = s := by simp [undo, hnil]
      rw [this]
      exact h
    · rw [List.concat_eq_append] at hcons
      rw [(undo_top env s older e hcons).2]
      refine ⟨?_, ?_, ?_⟩
      · exact h.2.1 e (by rw [hcons]; simp)
      · intro x hx
        exact h.2.1 x (by rw [hcons]; exact List.mem_append_left _ hx)
      · intro x hx
        rcases List.mem_append.mp hx with h1 | h1
        · exact h.2.2 x h1
        · rw [List.mem_singleton] at h1
          rw [h1]
          exact h.1
  · rcases List.eq_nil_or_concat s.history.redoStack with hnil | ⟨older, e, hcons⟩
    · have : (redo env s).2 = s := by simp [redo, hnil]
      rw [this]
      exact h
    · rw [List.concat_eq_append] at hcons
      rw [(redo_top env s older e hcons).2]
      refine ⟨?_, ?_, ?_⟩
      · exact h.2.2 e (by rw [hcons]; simp)
      · intro x hx
        rcases List.mem_append.mp hx with h1 | h1
        · exact h.2.1 x h1
        · rw [List.mem_singleton] at h1
          rw [h1]
          exact h.1
      · intro x hx
        exact h.2.2 x (by rw [hcons]; exact List.mem_append_left _ hx)

/-- Deleting task `a` of the sample store, and a batch update of it. -/
theorem unique_ids_preserved_witness :
    storeUniqueIds (deleteTask sampleEnv "a" sampleStore).2 ∧
    storeUniqueIds (batchUpdate sampleEnv [[("id", .str "a"), ("progress", .num 5)]]
      sampleStore).2 :=
  ⟨(unique_ids_preserved sampleEnv sampleStore
      ⟨by decide, fun _ h => absurd h (List.not_mem_nil _),
        fun _ h => absurd h (List.not_mem_nil _)⟩).2.2.2.1 "a",
   (unique_ids_preserved sampleEnv sampleStore
      ⟨by decide, fun _ h => absurd h (List.not_mem_nil _),
        fun _ h => absurd h (List.not_mem_nil _)⟩).2.2.1
      [[("id", .str "a"), ("progress", .num 5)]]⟩

/-! ## Theorems: field translation of the hosted variant -/

/-- Reading from an optional entry. -/
theorem get_optField (k k' : String) (v : Option JVal) :
    Obj.get (optField k v) k' = if k = k' then v else none := by
  cases v with
  | none => simp [optField, get_nil]
  | some x => simp [optField, get_cons, get_nil]

/-- Skipping an optional entry with another key. -/
theorem get_optField_append (k k' : String) (v : Option JVal) (rest : Obj) (h : k ≠ k') :
    Obj.get (optField k v ++ rest) k' = Obj.get rest k' := by
  rw [get_append, get_optField, if_neg h]

/-- The wire fields of a row, read by name. -/
theorem toFrontendTask_get (r : Obj) :
    Obj.get (toFrontendTask r) "id" = Obj.get r "id" ∧
    Obj.get (toFrontendTask r) "name" = Obj.get r "name" ∧
    Obj.get (toFrontendTask r) "start" = Obj.get r "start_date" ∧
    Obj.get (toFrontendTask r) "end" = Obj.get r "end_date" ∧
    Obj.get (toFrontendTask r) "projectId"
      = some (orDefault (Obj.get r "project_id") (.str "default")) ∧
    Obj.get (toFrontendTask r) "dueReminder"
      = some (.bool (!strictEq (Obj.get r "due_reminder") (some (.bool false)))) ∧
    (∀ p ∈ [("parentId", "parent_id"), ("scheduledDate", "scheduled_date"),
        ("reminderTime", "reminder_time"), ("recurring", "recurring")],
      Obj.get (toFrontendTask r) p.1 = Obj.get r p.2) ∧
    (∀ p ∈ [("description", "description", JVal.str ""), ("progress", "progress", JVal.num 0),
        ("type", "type", JVal.str "task"), ("status", "status", JVal.str "not_started"),
        ("priority", "priority", JVal.str "medium"),
        ("category", "category", JVal.str "general"), ("color", "color", JVal.str "#4A90D9"),
        ("dependencies", "dependencies", JVal.arr []), ("assignee", "assignee", JVal.str ""),
        ("tags", "tags", JVal.arr []), ("estimatedHours", "estimated_hours", JVal.num 8),
        ("actualHours", "actual_hours", JVal.num 0),
        ("reminderEnabled", "reminder_enabled", JVal.bool false)],
      Obj.get (toFrontendTask r) p.1 = some (orDefault (Obj.get r p.2.1) p.2.2)) := by
  refine ⟨?_, ?_, ?_, ?_, ?_, ?_, ?_, ?_⟩
  all_goals simp only [toFrontendTask, List.append_assoc, List.mem_cons, List.mem_singleton,
    List.not_mem_nil, or_false, forall_eq_or_imp, forall_eq]
  all_goals simp [get_append, get_optField, get_cons, get_nil]
  all_goals (repeat' apply And.intro)
  all_goals (split <;> simp_all)

/-- The columns of the row of a wire task, read by name. -/
theorem toSupabaseTask_get (t : Obj) :
    Obj.get (toSupabaseTask t) "id" = none ∧
    Obj.get (toSupabaseTask t) "name" = Obj.get t "name" ∧
    Obj.get (toSupabaseTask t) "start_date" = Obj.get t "start" ∧
    Obj.get (toSupabaseTask t) "end_date" = Obj.get t "end" ∧
    Obj.get (toSupabaseTask t) "project_id"
      = (if strictEq (Obj.get t "projectId") (some (.str "default")) = true
          then some (.str defaultProjectId) else Obj.get t "projectId") ∧
    Obj.get (toSupabaseTask t) "due_reminder"
      = some (.bool (!strictEq (Obj.get t "dueReminder") (some (.bool false)))) ∧
    (∀ p ∈ [("parentId", "parent_id"), ("scheduledDate", "scheduled_date"),
        ("reminderTime", "reminder_time"), ("recurring", "recurring")],
      Obj.get (toSupabaseTask t) p.2 = some (orDefault (Obj.get t p.1) .null)) ∧
    (∀ p ∈ [("description", "description", JVal.str ""), ("progress", "progress", JVal.num 0),
        ("type", "type", JVal.str "task"), ("status", "status", JVal.str "not_started"),
        ("priority", "priority", JVal.str "medium"),
        ("category", "category", JVal.str "general"), ("color", "color", JVal.str "#4A90D9"),
        ("dependencies", "dependencies", JVal.arr []), ("assignee", "assignee", JVal.str ""),
        ("tags", "tags", JVal.arr []), ("estimatedHours", "estimated_hours", JVal.num 8),
        ("actualHours", "actual_hours", JVal.num 0),
        ("reminderEnabled", "reminder_enabled", JVal.bool false)],
      Obj.get (toSupabaseTask t) p.2.1 = some (orDefault (Obj.get t p.1) p.2.2)) := by
  refine ⟨?_, ?_, ?_, ?_, ?_, ?_, ?_, ?_⟩
  all_goals simp only [toSupabaseTask, List.append_assoc, List.mem_cons, List.mem_singleton,
    List.not_mem_nil, or_false, forall_eq_or_imp, forall_eq]
  all_goals simp [get_append, get_optField, get_cons, get_nil]
  all_goals (split <;> simp_all)

/-- Defaulting twice is defaulting once. -/
theorem orDefault_idem (x : Option JVal) (d : JVal) :
    orDefault (some (orDefault x d)) d = orDefault x d := by
  cases x with
  | none => simp [orDefault]
  | some v =>
    by_cases h : truthy (some v) = true
    · simp [orDefault, h]
    · simp [orDefault, h]

/-- A value that is truthy or the default is what `||` returns. -/
theorem orDefault_keeps (x : Option JVal) (d : JVal)
    (h : truthy x = true ∨ x = some d) : some (orDefault x d) = x := by
  rcases h with h | h
  · exact orDefault_of_truthy x d h
  · rw [h]
    simp [orDefault]

/-- A task of the default project, valid under the data model, goes to the
table and comes back with the storage identifier as its project id. -/
theorem translation_default_project :
    Obj.get sampleWireTask "projectId" = some (.str "default") ∧
    Obj.get (toSupabaseTask sampleWireTask) "project_id" = some (.str defaultProjectId) ∧
    Obj.get (toFrontendTask (toSupabaseTask sampleWireTask)) "projectId"
      = some (.str "00000000-0000-0000-0000-000000000001") ∧
    Obj.get (toFrontendTask (toSupabaseTask sampleWireTask)) "projectId"
      ≠ Obj.get sampleWireTask "projectId" := by
  decide

/-- C26, as amended: `toFrontendTask(toSupabaseTask(t))` has no id; it has the
name, start and end of `t`; every field with a default has the value of `t`
when that value is truthy or is the default, and the default otherwise; the
optional fields parentId, scheduledDate, reminderTime and recurring have the
value of `t` when it is truthy or `null`, and `null` otherwise; dueReminder
keeps a boolean; a project id other than `default` is kept, and the logical
project id `default` is mapped to the fixed storage identifier on the way in
and comes back as that identifier, not as `default`. -/
theorem translation_roundtrip (t : Obj) :
    Obj.get (toFrontendTask (toSupabaseTask t)) "id" = none ∧
    (∀ k ∈ ["name", "start", "end"],
      Obj.get (toFrontendTask (toSupabaseTask t)) k = Obj.get t k) ∧
    (∀ p ∈ [("description", "description", JVal.str ""), ("progress", "progress", JVal.num 0),
        ("type", "type", JVal.str "task"), ("status", "status", JVal.str "not_started"),
        ("priority", "priority", JVal.str "medium"),
        ("category", "category", JVal.str "general"), ("color", "color", JVal.str "#4A90D9"),
        ("dependencies", "dependencies", JVal.arr []), ("assignee", "assignee", JVal.str ""),
        ("tags", "tags", JVal.arr []), ("estimatedHours", "estimated_hours", JVal.num 8),
        ("actualHours", "actual_hours", JVal.num 0),
        ("reminderEnabled", "reminder_enabled", JVal.bool false)],
      Obj.get (toFrontendTask (toSupabaseTask t)) p.1
        = some (orDefault (Obj.get t p.1) p.2.2) ∧
      ((truthy (Obj.get t p.1) = true ∨ Obj.get t p.1 = some p.2.2) →
        Obj.get (toFrontendTask (toSupabaseTask t)) p.1 = Obj.get t p.1)) ∧
    (∀ p ∈ [("parentId", "parent_id"), ("scheduledDate", "scheduled_date"),
        ("reminderTime", "reminder_time"), ("recurring", "recurring")],
      Obj.get (toFrontendTask (toSupabaseTask t)) p.1
        = some (orDefault (Obj.get t p.1) .null) ∧
      ((truthy (Obj.get t p.1) = true ∨ Obj.get t p.1 = some .null) →
        Obj.get (toFrontendTask (toSupabaseTask t)) p.1 = Obj.get t p.1)) ∧
    (∀ b : Bool, Obj.get t "dueReminder" = some (.bool b) →
      Obj.get (toFrontendTask (toSupabaseTask t)) "dueReminder" = some (.bool b)) ∧
    (∀ p : String, p ≠ "default" → p ≠ "" → Obj.get t "projectId" = some (.str p) →
      Obj.get (toFrontendTask (toSupabaseTask t)) "projectId" = some (.str p)) ∧
    (Obj.get t "projectId" = some (.str "default") →
      Obj.get (toSupabaseTask t) "project_id" = some (.str defaultProjectId) ∧
      Obj.get (toFrontendTask (toSupabaseTask t)) "projectId"
        = some (.str defaultProjectId)) := by
  obtain ⟨f1, f2, f3, f4, f5, f6, f7, f8⟩ := toFrontendTask_get (toSupabaseTask t)
  obtain ⟨s1, s2, s3, s4, s5, s6, s7, s8⟩ := toSupabaseTask_get t
  refine ⟨by rw [f1, s1], ?_, ?_, ?_, ?_, ?_, ?_⟩
  · intro k hk
    simp only [List.mem_cons, List.mem_singleton, List.not_mem_nil, or_false] at hk
    rcases hk with rfl | rfl | rfl
    · rw [f2, s2]
    · rw [f3, s3]
    · rw [f4, s4]
  · intro p hp
    have e : Obj.get (toFrontendTask (toSupabaseTask t)) p.1
        = some (orDefault (Obj.get t p.1) p.2.2) := by
      rw [f8 p hp, s8 p hp, orDefault_idem]
    exact ⟨e, fun h => e.trans (orDefault_keeps _ _ h)⟩
  · intro p hp
    have e : Obj.get (toFrontendTask (toSupabaseTask t)) p.1
        = some (orDefault (Obj.get t p.1) .null) := by
      rw [f7 p hp, s7 p hp]
    exact ⟨e, fun h => e.trans (orDefault_keeps _ _ h)⟩
  · intro b hb
    rw [f6, s6, hb]
    cases b <;> rfl
  · intro p hp hne hget
    have h1 : strictEq (Obj.get t "projectId") (some (.str "default")) = false := by
      rw [strictEq_str_false_iff, hget]
      intro e
      injection e with e
      injection e with e
      exact hp e
    rw [f5, s5, h1, hget]
    simp [orDefault, truthy, hne]
  · intro hget
    have h1 : strictEq (Obj.get t "projectId") (some (.str "default")) = true :=
      (strictEq_str_iff _ _).mpr hget
    have h2 : Obj.get (toSupabaseTask t) "project_id" = some (.str defaultProjectId) := by
      rw [s5, h1]
      rfl
    refine ⟨h2, ?_⟩
    rw [f5, h2]
    rfl

/-! ## Theorems: export and import of the hosted variant -/

/-- The import loop on task objects: one new row per object, after the rows
that were there, with the generated ids in order. -/
theorem hostedInsertAll_objects (env : Env) (ts : List Obj) :
    ∀ (n : Nat) (rows : List Obj),
      hostedInsertAll env n (ts.map JVal.obj) rows
        = (rows ++ (ts.enumFrom n).map
            (fun e => ("id", JVal.str (env.uuids e.1)) :: toSupabaseTask e.2), true) := by
  induction ts with
  | nil => intro n rows; simp [hostedInsertAll]
  | cons t rest ih =>
    intro n rows
    simp only [List.map_cons, hostedInsertAll, toSupabaseTaskV, ih, List.enumFrom_cons,
      List.append_assoc, List.singleton_append]

/-- The copy of a row that the import of its exported task inserts: in the
wire format it has the generated id, and the values of the exported task for
the fields with a default, for name, start, end and dueReminder; for the
project id when the row has one; for an optional field when the column is
`null` or truthy. -/
theorem copy_fields (x : JVal) (r : Obj) :
    Obj.get (toFrontendTask (("id", x) :: toSupabaseTask (toFrontendTask r))) "id" = some x ∧
    (∀ k ∈ ["name", "start", "end", "dueReminder", "description", "progress", "type",
        "status", "priority", "category", "color", "dependencies", "assignee", "tags",
        "estimatedHours", "actualHours", "reminderEnabled"],
      Obj.get (toFrontendTask (("id", x) :: toSupabaseTask (toFrontendTask r))) k
        = Obj.get (toFrontendTask r) k) ∧
    (truthy (Obj.get r "project_id") = true →
      Obj.get r "project_id" ≠ some (.str "default") →
      Obj.get (toFrontendTask (("id", x) :: toSupabaseTask (toFrontendTask r))) "projectId"
        = Obj.get (toFrontendTask r) "projectId") ∧
    (∀ p ∈ [("parentId", "parent_id"), ("scheduledDate", "scheduled_date"),
        ("reminderTime", "reminder_time"), ("recurring", "recurring")],
      (truthy (Obj.get r p.2) = true ∨ Obj.get r p.2 = some .null) →
      Obj.get (toFrontendTask (("id", x) :: toSupabaseTask (toFrontendTask r))) p.1
        = Obj.get (toFrontendTask r) p.1) := by
  obtain ⟨c1, c2, c3, c4, c5, c6, c7, c8⟩ :=
    toFrontendTask_get (("id", x) :: toSupabaseTask (toFrontendTask r))
  obtain ⟨s1, s2, s3, s4, s5, s6, s7, s8⟩ := toSupabaseTask_get (toFrontendTask r)
  obtain ⟨f1, f2, f3, f4, f5, f6, f7, f8⟩ := toFrontendTask_get r
  have skip : ∀ col : String, "id" ≠ col →
      Obj.get (("id", x) :: toSupabaseTask (toFrontendTask r)) col
        = Obj.get (toSupabaseTask (toFrontendTask r)) col := by
    intro col h
    rw [get_cons]
    simp [h]
  have d8 : ∀ p ∈ [("description", "description", JVal.str ""),
        ("progress", "progress", JVal.num 0),
        ("type", "type", JVal.str "task"), ("status", "status", JVal.str "not_started"),
        ("priority", "priority", JVal.str "medium"),
        ("category", "category", JVal.str "general"), ("color", "color", JVal.str "#4A90D9"),
        ("dependencies", "dependencies", JVal.arr []), ("assignee", "assignee", JVal.str ""),
        ("tags", "tags", JVal.arr []), ("estimatedHours", "estimated_hours", JVal.num 8),
        ("actualHours", "actual_hours", JVal.num 0),
        ("reminderEnabled", "reminder_enabled", JVal.bool false)],
      Obj.get (toFrontendTask (("id", x) :: toSupabaseTask (toFrontendTask r))) p.1
        = Obj.get (toFrontendTask r) p.1 := by
    intro p hp
    have hcol : "id" ≠ p.2.1 := by
      revert p
      decide
    rw [c8 p hp, skip _ hcol, s8 p hp, f8 p hp, orDefault_idem, orDefault_idem]
  refine ⟨?_, ?_, ?_, ?_⟩
  · rw [c1, get_cons]
    simp
  · intro k hk
    simp only [List.mem_cons, List.mem_singleton, List.not_mem_nil, or_false] at hk
    rcases hk with rfl | rfl | rfl | rfl | rfl | rfl | rfl | rfl | rfl | rfl | rfl | rfl | rfl |
      rfl | rfl | rfl | rfl
    · rw [c2, skip _ (by decide), s2]
    · rw [c3, skip _ (by decide), s3]
    · rw [c4, skip _ (by decide), s4]
    · rw [c6, skip _ (by decide), s6, f6]
      cases strictEq (Obj.get r "due_reminder") (some (.bool false)) <;> rfl
    · exact d8 ("description", "description", JVal.str "") (by simp)
    · exact d8 ("progress", "progress", JVal.num 0) (by simp)
    · exact d8 ("type", "type", JVal.str "task") (by simp)
    · exact d8 ("status", "status", JVal.str "not_started") (by simp)
    · exact d8 ("priority", "priority", JVal.str "medium") (by simp)
    · exact d8 ("category", "category", JVal.str "general") (by simp)
    · exact d8 ("color", "color", JVal.str "#4A90D9") (by simp)
    · exact d8 ("dependencies", "dependencies", JVal.arr []) (by simp)
    · exact d8 ("assignee", "assignee", JVal.str "") (by simp)
    · exact d8 ("tags", "tags", JVal.arr []) (by simp)
    · exact d8 ("estimatedHours", "estimated_hours", JVal.num 8) (by simp)
    · exact d8 ("actualHours", "actual_hours", JVal.num 0) (by simp)
    · exact d8 ("reminderEnabled", "reminder_enabled", JVal.bool false) (by simp)
  · intro htr hne
    have hp : orDefault (Obj.get r "project_id") (.str "default")
        ≠ .str "default" := by
      intro e
      have := orDefault_of_truthy _ (.str "default") htr
      rw [e] at this
      exact hne this.symm
    have h1 : strictEq (Obj.get (toFrontendTask r) "projectId") (some (.str "default"))
        = false := by
      rw [strictEq_str_false_iff, f5]
      intro e
      injection e with e
      exact hp e
    rw [c5, skip _ (by decide), s5, h1, f5]
    simp only [Bool.false_eq_true, if_false]
    rw [orDefault_idem]
  · intro p hp
    have hcol : "id" ≠ p.2 := by
      revert p
      decide
    intro hval
    rw [c7 p hp, skip _ hcol, s7 p hp, f7 p hp]
    exact orDefault_keeps _ _ hval

/-- The import inserts and never replaces: importing the export of three rows
answers 200 and leaves six rows, the three that were there and three copies
with generated ids. -/
theorem hosted_import_doubles :
    sampleQuietRows.length = 3 ∧
    (hostedImport sampleEnv
      (hostedExportJson sampleEnv (.arr []) ⟨sampleQuietRows, [], []⟩)
      ⟨sampleQuietRows, [], []⟩).1.status = 200 ∧
    (hostedImport sampleEnv
      (hostedExportJson sampleEnv (.arr []) ⟨sampleQuietRows, [], []⟩)
      ⟨sampleQuietRows, [], []⟩).2.rows.length = 6 ∧
    (hostedImport sampleEnv
      (hostedExportJson sampleEnv (.arr []) ⟨sampleQuietRows, [], []⟩)
      ⟨sampleQuietRows, [], []⟩).2.rows.map (fun r => Obj.get r "id")
      = [some (.str "r1"), some (.str "r2"), some (.str "r3"),
         some (.str "uuid-0"), some (.str "uuid-1"), some (.str "uuid-2")] := by
  decide

/-- C25, as amended: with a database that accepts every insert, importing the
document the JSON export returns answers 200 and leaves the stored rows as
they were, followed by one copy per exported task, in order: the collection
doubles.  A copy has a newly generated id; in the wire format it has the
values of the exported task for name, start, end, dueReminder and every field
with a default, for the project id when the row has one that is not the text
`default`, and for an optional field when its column is `null` or set.  The
stacks of the history are unchanged. -/
theorem hosted_export_import (env exportEnv : Env) (projects : JVal) (s : HostedStore) :
    ∃ copies : List Obj,
      hostedImport env (hostedExportJson exportEnv projects s) s
        = (⟨200, some (.obj [("imported", .num s.rows.length),
              ("tasks", tasksJson ((s.rows ++ copies).map toFrontendTask))])⟩,
            { s with rows := s.rows ++ copies }) ∧
      copies.length = s.rows.length ∧
      copies.map (fun c => Obj.get (toFrontendTask c) "id")
        = (List.range' 0 s.rows.length).map (fun i => some (JVal.str (env.uuids i))) ∧
      List.Forall₂ (fun copy r =>
          (∀ k ∈ ["name", "start", "end", "dueReminder", "description", "progress", "type",
              "status", "priority", "category", "color", "dependencies", "assignee", "tags",
              "estimatedHours", "actualHours", "reminderEnabled"],
            Obj.get (toFrontendTask copy) k = Obj.get (toFrontendTask r) k) ∧
          (truthy (Obj.get r "project_id") = true →
            Obj.get r "project_id" ≠ some (.str "default") →
            Obj.get (toFrontendTask copy) "projectId"
              = Obj.get (toFrontendTask r) "projectId") ∧
          (∀ p ∈ [("parentId", "parent_id"), ("scheduledDate", "scheduled_date"),
              ("reminderTime", "reminder_time"), ("recurring", "recurring")],
            (truthy (Obj.get r p.2) = true ∨ Obj.get r p.2 = some .null) →
            Obj.get (toFrontendTask copy) p.1 = Obj.get (toFrontendTask r) p.1))
        copies s.rows := by
  have hshape : ∀ (rows : List Obj) (n : Nat),
      List.Forall₂ (fun copy r => ∃ i : Nat,
          copy = ("id", JVal.str (env.uuids i)) :: toSupabaseTask (toFrontendTask r))
        (((rows.map toFrontendTask).enumFrom n).map
          (fun e => ("id", JVal.str (env.uuids e.1)) :: toSupabaseTask e.2)) rows := by
    intro rows
    induction rows with
    | nil => intro n; exact List.Forall₂.nil
    | cons r rest ih =>
      intro n
      simp only [List.map_cons, List.enumFrom_cons]
      exact List.Forall₂.cons ⟨n, rfl⟩ (ih (n + 1))
  have hids : ∀ (rows : List Obj) (n : Nat),
      (((rows.map toFrontendTask).enumFrom n).map
          (fun e => ("id", JVal.str (env.uuids e.1)) :: toSupabaseTask e.2)).map
        (fun c => Obj.get (toFrontendTask c) "id")
        = (List.range' n rows.length).map (fun i => some (JVal.str (env.uuids i))) := by
    intro rows
    induction rows with
    | nil => intro n; rfl
    | cons r rest ih =>
      intro n
      simp only [List.map_cons, List.enumFrom_cons, List.length_cons, List.range'_succ]
      rw [ih (n + 1)]
      congr 1
  refine ⟨((s.rows.map toFrontendTask).enumFrom 0).map
      (fun e => ("id", JVal.str (env.uuids e.1)) :: toSupabaseTask e.2), ?_, ?_, hids s.rows 0, ?_⟩
  · have hf : JVal.field (hostedExportJson exportEnv projects s) "tasks"
        = some (some (.arr ((s.rows.map toFrontendTask).map JVal.obj))) := rfl
    simp only [hostedImport, hf, hostedInsertAll_objects, if_true, List.length_map]
  · simp
  · refine List.Forall₂.imp ?_ (hshape s.rows 0)
    rintro copy r ⟨i, rfl⟩
    obtain ⟨_, h2, h3, h4⟩ := copy_fields (JVal.str (env.uuids i)) r
    exact ⟨h2, h3, h4⟩

/-! ## Theorems: activity logging that fails -/

/-- C29, file-backed variant with an activity file that cannot be written: a
create, an update and a delete that answer 201, 200 and 204 with a writable
activity file answer 500, although the task collection and the history are
written as in the successful request. -/
theorem log_failure_surfaces :
    (createTaskLogging true sampleEnv [("name", .str "urgent bug fix")] sampleStore).1.status
      = 201 ∧
    (createTaskLogging false sampleEnv [("name", .str "urgent bug fix")] sampleStore).1
      = ⟨500, errorBody "Failed to create task"⟩ ∧
    (createTaskLogging false sampleEnv [("name", .str "urgent bug fix")] sampleStore).2.data
      = (createTaskLogging true sampleEnv [("name", .str "urgent bug fix")] sampleStore).2.data ∧
    (createTaskLogging false sampleEnv [("name", .str "urgent bug fix")]
      sampleStore).2.data.tasks.length = 4 ∧
    (createTaskLogging false sampleEnv [("name", .str "urgent bug fix")] sampleStore).2.history
      = (createTaskLogging true sampleEnv [("name", .str "urgent bug fix")]
          sampleStore).2.history ∧
    (updateTaskLogging true sampleEnv "a" [("status", .str "completed")] sampleStore).1.status
      = 200 ∧
    (updateTaskLogging false sampleEnv "a" [("status", .str "completed")] sampleStore).1
      = ⟨500, errorBody "Failed to update task"⟩ ∧
    (updateTaskLogging false sampleEnv "a" [("status", .str "completed")] sampleStore).2.data
      = (updateTaskLogging true sampleEnv "a" [("status", .str "completed")]
          sampleStore).2.data ∧
    (deleteTaskLogging true sampleEnv "c" sampleStore).1.status = 204 ∧
    (deleteTaskLogging false sampleEnv "c" sampleStore).1
      = ⟨500, errorBody "Failed to delete task"⟩ ∧
    (deleteTaskLogging false sampleEnv "c" sampleStore).2.data.tasks.length = 2 := by
  decide

/-- In the file-backed variant every create and delete that succeeds with a
writable activity file answers 500 without one, with the same data and
history written. -/
theorem log_failure_general (env : Env) (s : Store) :
    (∀ body : Obj, (createTask env body s).1.status = 201 →
      (createTaskLogging false env body s).1 = ⟨500, errorBody "Failed to create task"⟩ ∧
      (createTaskLogging false env body s).2.data = (createTask env body s).2.data ∧
      (createTaskLogging false env body s).2.history = (createTask env body s).2.history ∧
      (createTaskLogging false env body s).2.activities = s.activities ∧
      createTaskLogging true env body s = createTask env body s) ∧
    (∀ id : String, (deleteTask env id s).1.status = 204 →
      (deleteTaskLogging false env id s).1 = ⟨500, errorBody "Failed to delete task"⟩ ∧
      (deleteTaskLogging false env id s).2.data = (deleteTask env id s).2.data ∧
      (deleteTaskLogging false env id s).2.history = (deleteTask env id s).2.history ∧
      (deleteTaskLogging false env id s).2.activities = s.activities ∧
      deleteTaskLogging true env id s = deleteTask env id s) := by
  constructor
  · intro body h
    simp [createTaskLogging, afterLogFailure, h]
  · intro id h
    simp [deleteTaskLogging, afterLogFailure, h]

/-- In the hosted variant a logging failure is swallowed: create and delete
give the same answer and leave the same rows and stacks whether the activity
insert succeeds or not. -/
theorem hosted_log_failure_swallowed (activityOk : Bool) (env : Env) (s : HostedStore)
    (log : List Obj) :
    (∀ body : Obj,
      (hostedCreateTask activityOk env body s log).1
        = (hostedCreateTask true env body s log).1 ∧
      (hostedCreateTask activityOk env body s log).1.status = 201 ∧
      (hostedCreateTask activityOk env body s log).2.1
        = (hostedCreateTask true env body s log).2.1 ∧
      (hostedCreateTask false env body s log).2.2 = log) ∧
    (∀ id : String,
      (hostedDeleteTask activityOk env id s log).1
        = (hostedDeleteTask true env id s log).1 ∧
      (hostedDeleteTask activityOk env id s log).1.status = 200 ∧
      (hostedDeleteTask activityOk env id s log).2.1
        = (hostedDeleteTask true env id s log).2.1 ∧
      (hostedDeleteTask false env id s log).2.2 = log) := by
  constructor
  · intro body
    simp [hostedCreateTask, hostedLogActivity]
  · intro id
    simp only [hostedDeleteTask]
    cases s.rows.find? (fun r => strictEq (Obj.get r "id") (some (.str id))) <;>
      simp [hostedLogActivity]

/-! ## Theorems: auto-move -/

/-- On a column that is absent, `null` or a text the three comparisons and the
priority test do not throw. -/
theorem comparisons_defined (today : String) (v : Option JVal)
    (h : textOrNull v = true) :
    (∃ b, lessThanText v today = some b) ∧ (∃ b, lessEqText v today = some b) ∧
    (∃ b, greaterEqText v today = some b) ∧ (∃ b, priorityIsHigh v = some b) := by
  rcases v with _ | v
  · exact ⟨⟨_, rfl⟩, ⟨_, rfl⟩, ⟨_, rfl⟩, ⟨_, rfl⟩⟩
  · cases v with
    | null => exact ⟨⟨_, rfl⟩, ⟨_, rfl⟩, ⟨_, rfl⟩, ⟨_, rfl⟩⟩
    | str x => exact ⟨⟨_, rfl⟩, ⟨_, rfl⟩, ⟨_, rfl⟩, ⟨_, rfl⟩⟩
    | bool b => simp [textOrNull] at h
    | num n => simp [textOrNull] at h
    | arr xs => simp [textOrNull] at h
    | obj kvs => simp [textOrNull] at h

/-- A value that is a text. -/
theorem isText_iff (v : Option JVal) : isText v = true ↔ ∃ x, v = some (.str x) := by
  rcases v with _ | v
  · simp [isText]
  · cases v <;> simp [isText]

/-- The round of the pass on a row of the table, in one expression. -/
theorem autoMoveTarget_eq (today : String) (r : Obj) (h : tableRow r) :
    ∃ (high : Bool) (moves : Bool),
      autoMoveTarget today r
        = some (if strictEq (Obj.get r "status") (some (.str "completed")) = true then none
            else if (moves &&
                !strictEq (some (if high = true then JVal.str today else JVal.str "soon"))
                  (Obj.get r "scheduled_date")) = true
              then some (if high = true then JVal.str today else JVal.str "soon")
              else none) ∧
      priorityIsHigh (Obj.get r "priority") = some high := by
  obtain ⟨_, hcols⟩ := h
  obtain ⟨_, _, _, ⟨high, hp⟩⟩ := comparisons_defined today _ (hcols "priority" (by simp))
  obtain ⟨_, ⟨le, hle⟩, _, _⟩ := comparisons_defined today _ (hcols "start_date" (by simp))
  obtain ⟨⟨ov, hov⟩, _, ⟨ge, hge⟩, _⟩ :=
    comparisons_defined today _ (hcols "end_date" (by simp))
  refine ⟨high, (ov && !strictEq (Obj.get r "scheduled_date") (some (.str today))) ||
    (!truthy (Obj.get r "scheduled_date") && truthy (Obj.get r "start_date") &&
      truthy (Obj.get r "end_date") && le && ge), ?_, hp⟩
  simp only [autoMoveTarget, hp, hov, hle, hge]
  generalize (if high = true then JVal.str today else JVal.str "soon") = nd
  by_cases hc : strictEq (Obj.get r "status") (some (.str "completed")) = true
  · simp [hc]
  · simp only [hc, if_false]
    by_cases h1 : (ov && !strictEq (Obj.get r "scheduled_date") (some (.str today))) = true
    · simp [h1]
    · simp only [h1, if_false, Bool.false_or]
      by_cases h2 : (!truthy (Obj.get r "scheduled_date") && truthy (Obj.get r "start_date")
          && truthy (Obj.get r "end_date")) = true
      · simp only [h2, if_true, Bool.true_and]
        cases le <;> cases ge <;> simp
      · simp [h2]

/-- The round of a row changes no column but the scheduled date. -/
theorem movedRow_get (today : String) (r : Obj) (k : String) (hk : k ≠ "scheduled_date") :
    Obj.get (movedRow today r) k = Obj.get r k := by
  unfold movedRow
  split
  · rw [get_set, if_neg hk]
  · rfl

/-- The round of a row keeps the keys of a row that has the column. -/
theorem movedRow_tableRow (today : String) (r : Obj) (h : tableRow r) :
    tableRow (movedRow today r) := by
  obtain ⟨hid, hcols⟩ := h
  refine ⟨?_, ?_⟩
  · rw [movedRow_get today r "id" (by decide)]
    exact hid
  · intro k hk
    have hne : k ≠ "scheduled_date" := by
      revert k
      decide
    rw [movedRow_get today r k hne]
    exact hcols k hk

/-- A row that went through its round is left alone by a second round. -/
theorem autoMoveTarget_movedRow (today : String) (r : Obj) (h : tableRow r) :
    autoMoveTarget today (movedRow today r) = some none := by
  obtain ⟨high, moves, htarget, hp⟩ := autoMoveTarget_eq today r h
  obtain ⟨high', moves', htarget', hp'⟩ :=
    autoMoveTarget_eq today (movedRow today r) (movedRow_tableRow today r h)
  rw [movedRow_get today r "priority" (by decide), hp] at hp'
  injection hp' with hp'
  subst hp'
  have hstr : ∃ x, (if high = true then JVal.str today else JVal.str "soon") = .str x := by
    cases high
    · exact ⟨_, rfl⟩
    · exact ⟨_, rfl⟩
  generalize (if high = true then JVal.str today else JVal.str "soon") = nd
    at htarget htarget' hstr
  obtain ⟨x, rfl⟩ := hstr
  by_cases hc : strictEq (Obj.get r "status") (some (.str "completed")) = true
  · have hnone : autoMoveTarget today r = some none := by
      rw [htarget, if_pos hc]
    have hrow : movedRow today r = r := by
      simp only [movedRow, hnone]
    rw [hrow, hnone]
  · by_cases hm : (moves && !strictEq (some (JVal.str x)) (Obj.get r "scheduled_date")) = true
    · have hsome : autoMoveTarget today r = some (some (.str x)) := by
        rw [htarget, if_neg hc, if_pos hm]
      have hrow : movedRow today r = Obj.set r "scheduled_date" (.str x) := by
        simp only [movedRow, hsome]
      have hsched : Obj.get (movedRow today r) "scheduled_date" = some (.str x) := by
        rw [hrow, get_set]
        simp
      rw [htarget', hsched]
      simp [strictEq]
    · have hnone : autoMoveTarget today r = some none := by
        rw [htarget, if_neg hc, if_neg hm]
      have hrow : movedRow today r = r := by
        simp only [movedRow, hnone]
      rw [hrow, hnone]

/-- An update by id leaves the rows with another id as they are. -/
theorem updateScheduled_other (id : Option JVal) (d : JVal) (rows : List Obj)
    (h : ∀ r ∈ rows, strictEq (Obj.get r "id") id = false) :
    updateScheduled id d rows = rows := by
  unfold updateScheduled
  conv_rhs => rw [← List.map_id rows]
  apply List.map_congr_left
  intro r hr
  simp [h r hr]

/-- The loop of the pass on rows of the table with distinct ids: every row
goes through its own round, and the counter counts the rows that are
updated. -/
theorem autoMoveLoop_eq (today : String) :
    ∀ (suf pre : List Obj) (m : Nat), (∀ r ∈ pre ++ suf, tableRow r) →
      uniqueIds (pre ++ suf) →
      autoMoveLoop today suf (pre.map (movedRow today) ++ suf) m
        = ((pre ++ suf).map (movedRow today),
            some (m + (suf.filter (fun r => (autoMoveTarget today r).join.isSome)).length)) := by
  intro suf
  induction suf with
  | nil =>
    intro pre m _ _
    simp [autoMoveLoop]
  | cons t rest ih =>
    intro pre m hrows hu
    have hrows' : ∀ r ∈ (pre ++ [t]) ++ rest, tableRow r := by
      intro r hr
      exact hrows r (by simpa using hr)
    have hu' : uniqueIds ((pre ++ [t]) ++ rest) := by
      simpa using hu
    have ht : tableRow t := hrows t (by simp)
    obtain ⟨x, hx⟩ := (isText_iff _).mp ht.1
    have hstep := ih (pre ++ [t])
    simp only [List.append_assoc, List.singleton_append] at hstep
    cases htarget : autoMoveTarget today t with
    | none =>
      obtain ⟨_, _, he, _⟩ := autoMoveTarget_eq today t ht
      rw [he] at htarget
      cases htarget
    | some o =>
      cases o with
      | none =>
        have hrow : movedRow today t = t := by
          simp only [movedRow, htarget]
        have := hstep m (by simpa using hrows') (by simpa using hu')
        simp only [List.map_append, List.map_cons, List.map_nil, hrow, List.append_assoc,
          List.singleton_append] at this
        have hf : (t :: rest).filter (fun r => (autoMoveTarget today r).join.isSome)
            = rest.filter (fun r => (autoMoveTarget today r).join.isSome) := by
          simp [List.filter_cons, htarget]
        rw [hf]
        simp only [autoMoveLoop, htarget, this, List.map_append, List.map_cons, hrow]
      | some d =>
        have hrow : movedRow today t = Obj.set t "scheduled_date" d := by
          simp only [movedRow, htarget]
        unfold uniqueIds at hu
        rw [List.map_append, List.map_cons] at hu
        have hpre : ∀ r ∈ pre.map (movedRow today),
            strictEq (Obj.get r "id") (Obj.get t "id") = false := by
          intro r hr
          obtain ⟨p, hp, rfl⟩ := List.mem_map.mp hr
          rw [movedRow_get today p "id" (by decide), hx, strictEq_str_false_iff]
          intro e
          have hdis := (List.nodup_append.mp hu).2.2
          exact hdis (List.mem_map.mpr ⟨p, hp, e⟩) (by rw [hx]; exact List.mem_cons_self _ _)
        have hrest : ∀ r ∈ rest, strictEq (Obj.get r "id") (Obj.get t "id") = false := by
          intro r hr
          rw [hx, strictEq_str_false_iff]
          intro e
          have hnd := (List.nodup_cons.mp (List.nodup_append.mp hu).2.1).1
          exact hnd (by rw [hx, ← e]; exact List.mem_map.mpr ⟨r, hr, rfl⟩)
        have hself : strictEq (Obj.get t "id") (Obj.get t "id") = true := by
          rw [hx]
          simp [strictEq]
        have hupd : updateScheduled (Obj.get t "id") d (pre.map (movedRow today) ++ t :: rest)
            = pre.map (movedRow today) ++ Obj.set t "scheduled_date" d :: rest := by
          have h1 := updateScheduled_other (Obj.get t "id") d _ hpre
          have h2 := updateScheduled_other (Obj.get t "id") d _ hrest
          unfold updateScheduled at h1 h2 ⊢
          rw [List.map_append, List.map_cons, h1, h2]
          simp [hself]
        have := hstep (m + 1) (by simpa using hrows') (by simpa using hu')
        simp only [List.map_append, List.map_cons, List.map_nil, hrow, List.append_assoc,
          List.singleton_append] at this
        have hf : (t :: rest).filter (fun r => (autoMoveTarget today r).join.isSome)
            = t :: rest.filter (fun r => (autoMoveTarget today r).join.isSome) := by
          simp [List.filter_cons, htarget]
        rw [hf]
        simp only [autoMoveLoop, htarget, hupd, this, List.map_append, List.map_cons, hrow,
          List.length_cons]
        congr 2
        omega

/-- C30: on rows of the table (the id a text, ids pairwise distinct, priority
and dates absent, `null` or a text) the auto-move pass answers 200 and every
row goes through its own round; a second pass on the same day reports
`moved` 0 and leaves every row, so every scheduled slot, as the first pass
left it; a pass changes no column other than the scheduled date, leaves a
completed row as it is, and leaves the stacks of the history alone. -/
theorem autoMove_idempotent (env : Env) (s : HostedStore)
    (hrows : ∀ r ∈ s.rows, tableRow r) (hids : uniqueIds s.rows) :
    (autoMove env s).1.status = 200 ∧
    (autoMove env s).2.rows = s.rows.map (movedRow env.today) ∧
    (∀ env2 : Env, env2.today = env.today →
      autoMove env2 (autoMove env s).2
        = (⟨200, some (.obj [("moved", .num 0),
              ("tasks", tasksJson ((autoMove env s).2.rows.map toFrontendTask))])⟩,
            (autoMove env s).2)) ∧
    List.Forall₂ (fun r' r =>
        (∀ k, k ≠ "scheduled_date" → Obj.get r' k = Obj.get r k) ∧
        (Obj.get r "status" = some (.str "completed") → r' = r))
      (autoMove env s).2.rows s.rows ∧
    (autoMove env s).2.undoStack = s.undoStack ∧
    (autoMove env s).2.redoStack = s.redoStack := by
  have hloop : ∀ (today : String) (rows : List Obj), (∀ r ∈ rows, tableRow r) →
      uniqueIds rows →
      autoMoveLoop today rows rows 0
        = (rows.map (movedRow today),
            some ((rows.filter (fun r => (autoMoveTarget today r).join.isSome)).length)) := by
    intro today rows h1 h2
    have := autoMoveLoop_eq today rows [] 0 (by simpa using h1) (by simpa using h2)
    simpa using this
  have hfirst : autoMove env s
      = (⟨200, some (.obj [("moved", .num
              ((s.rows.filter (fun r => (autoMoveTarget env.today r).join.isSome)).length)),
            ("tasks", tasksJson ((s.rows.map (movedRow env.today)).map toFrontendTask))])⟩,
          { s with rows := s.rows.map (movedRow env.today) }) := by
    simp only [autoMove, hloop env.today s.rows hrows hids]
  have hrows1 : ∀ r ∈ s.rows.map (movedRow env.today), tableRow r := by
    intro r hr
    obtain ⟨p, hp, rfl⟩ := List.mem_map.mp hr
    exact movedRow_tableRow env.today p (hrows p hp)
  have hids1 : uniqueIds (s.rows.map (movedRow env.today)) := by
    unfold uniqueIds at hids ⊢
    rw [List.map_map]
    have : ((fun t => Obj.get t "id") ∘ movedRow env.today) = fun t => Obj.get t "id" := by
      funext r
      exact movedRow_get env.today r "id" (by decide)
    rw [this]
    exact hids
  have hfix : (s.rows.map (movedRow env.today)).map (movedRow env.today)
      = s.rows.map (movedRow env.today) := by
    rw [List.map_map]
    apply List.map_congr_left
    intro r hr
    simp only [Function.comp]
    have hnone := autoMoveTarget_movedRow env.today r (hrows r hr)
    generalize movedRow env.today r = r1 at hnone
    simp only [movedRow, hnone]
  have hcount : (s.rows.map (movedRow env.today)).filter
      (fun r => (autoMoveTarget env.today r).join.isSome) = [] := by
    rw [List.filter_eq_nil_iff]
    intro r hr
    obtain ⟨p, hp, rfl⟩ := List.mem_map.mp hr
    rw [autoMoveTarget_movedRow env.today p (hrows p hp)]
    simp
  rw [hfirst]
  refine ⟨rfl, rfl, ?_, ?_, rfl, rfl⟩
  · intro env2 htoday
    simp only [autoMove, htoday, hloop env.today _ hrows1 hids1, hfix, hcount, List.length_nil]
    rfl
  · simp only
    generalize s.rows = rows
    induction rows with
    | nil => exact List.Forall₂.nil
    | cons r rest ih =>
      rw [List.map_cons]
      refine List.Forall₂.cons ⟨fun k hk => movedRow_get env.today r k hk, ?_⟩ ih
      intro hc
      have h1 : strictEq (Obj.get r "status") (some (.str "completed")) = true :=
        (strictEq_str_iff _ _).mpr hc
      simp [movedRow, autoMoveTarget, h1]

/-- The pass on the sample rows of 2024-05-01, and the pass after it. -/
theorem autoMove_idempotent_witness :
    (autoMove sampleEnv ⟨sampleMoveRows, [], []⟩).1.status = 200 ∧
    autoMove sampleEnv (autoMove sampleEnv ⟨sampleMoveRows, [], []⟩).2
      = (⟨200, some (.obj [("moved", .num 0),
            ("tasks", tasksJson
              ((autoMove sampleEnv ⟨sampleMoveRows, [], []⟩).2.rows.map toFrontendTask))])⟩,
          (autoMove sampleEnv ⟨sampleMoveRows, [], []⟩).2) :=
  ⟨(autoMove_idempotent sampleEnv ⟨sampleMoveRows, [], []⟩ (by decide) (by decide)).1,
   (autoMove_idempotent sampleEnv ⟨sampleMoveRows, [], []⟩ (by decide) (by decide)).2.2.1
      sampleEnv rfl⟩

/-- The first pass on the sample rows moves the two overdue rows and the
backlog row whose range holds the day, and leaves the completed row and the
row of the future alone. -/
theorem autoMove_sample :
    (autoMove sampleEnv ⟨sampleMoveRows, [], []⟩).1.body.map (fun b => JVal.field b "moved")
      = some (some (some (.num 3))) ∧
    (autoMove sampleEnv ⟨sampleMoveRows, [], []⟩).2.rows.map
        (fun r => Obj.get r "scheduled_date")
      = [some (.str "2024-05-01"), some (.str "soon"), some (.str "2024-05-01"),
         some .null, some .null] := by
  decide

end TaskFlow
